import Mathlib

/-!
# Verification of the QuickSubsetConstruction repository core

This file gives a shallow embedding, in Lean 4, of the state / automaton data
model and of the determinization algorithms of the QuickSubsetConstruction
repository (files `State.cpp`, `Automaton.cpp`, `Singularity.cpp`,
`SubsetConstruction.cpp`, `QuickSubsetConstruction.cpp`), and proves or refutes
a list of claims about them.

Modelling conventions:

* C++ heap-allocated `State` objects are modelled by an arena (`Heap`): a list
  of `(id, StateData)` pairs together with a fresh-id counter.  A C++ pointer
  becomes a `Nat` id.  Objects are never deleted from the arena (matching the
  C++ code, where `Automaton::removeState` erases the pointer from the member
  multiset but does not destroy the object).
* `std::map<string, set<State*>>` (the transition maps) becomes an association
  list `List (String × List Nat)` kept sorted by label, each child set being a
  list of ids kept sorted; C++ iterates pointer-ordered sets, which we model by
  id order (ids are allocated in creation order, as heap addresses typically
  are).
* `Extension` (`std::set<State*, State::Comparator>`, ordered and deduplicated
  by state *name*) becomes a list of ids kept sorted by the states' names and
  containing at most one id per name.
* The machine integers of the source (`unsigned int` distances/levels, `int`
  comparison results) are modelled by `Nat` / `Int` with explicit wrapping
  (`% 2^32`) exactly where the C++ arithmetic wraps.
* `EPSILON` is the empty string, and `DEFAULT_VOID_LEVEL` is `2^30`, as in
  `Alphabet.hpp` and `State.hpp`.
-/

namespace QSC

/-- `EPSILON` from `Alphabet.hpp`: the empty string. -/
def EPSILON : String := ""

/-- `DEFAULT_VOID_LEVEL` from `State.hpp`: `1U << 30`. -/
def DEFAULT_VOID_LEVEL : Nat := 2 ^ 30

/-- The data carried by one state object.  This merges the fields of the C++
classes `State` (name, final flag, exiting transitions),
`BidirectionalState` (incoming transitions, level) and
`ConstructedState` (extension, mark), since the C++ hierarchy is a virtual
diamond whose leaves carry all fields. -/
structure StateData where
  name : String
  final : Bool
  level : Nat
  mark : Bool
  extension : List Nat
  exiting : List (String × List Nat)
  incoming : List (String × List Nat)
deriving Repr, DecidableEq

/-- A fresh state, as built by the C++ `State` constructor: no transitions,
level `DEFAULT_VOID_LEVEL`, no mark, empty extension. -/
def mkState (name : String) (final : Bool) : StateData :=
  { name := name, final := final, level := DEFAULT_VOID_LEVEL, mark := false,
    extension := [], exiting := [], incoming := [] }

/-- The arena of state objects.  `states` is an association list from ids to
state data; `next` is the next fresh id. -/
structure Heap where
  states : List (Nat × StateData)
  next : Nat
deriving Repr, DecidableEq

/-- Look a state up in the arena. -/
def Heap.find? (h : Heap) (i : Nat) : Option StateData :=
  (h.states.find? (fun p => p.1 = i)).map (·.2)

/-- Replace the first binding of key `i` in an association list (a C++ object
is a single cell). -/
def assocSet (i : Nat) (sd : StateData) : List (Nat × StateData) →
    List (Nat × StateData)
  | [] => []
  | p :: rest => if p.1 = i then (i, sd) :: rest else p :: assocSet i sd rest

/-- Update the state stored at id `i` (no-op when the id is absent). -/
def Heap.set (h : Heap) (i : Nat) (sd : StateData) : Heap :=
  { h with states := assocSet i sd h.states }

/-- Allocate a fresh state object, returning its id. -/
def Heap.alloc (h : Heap) (sd : StateData) : Heap × Nat :=
  ({ states := h.states ++ [(h.next, sd)], next := h.next + 1 }, h.next)

/-- The ids present in the arena. -/
def Heap.dom (h : Heap) : List Nat := h.states.map (·.1)

/-- `State::getName` (missing objects give the default `""`). -/
def stateName (h : Heap) (i : Nat) : String :=
  ((h.find? i).map (·.name)).getD ""

/-- `State::isFinal`. -/
def stateFinal (h : Heap) (i : Nat) : Bool :=
  ((h.find? i).map (·.final)).getD false

/-- `BidirectionalState::getLevel` (also named `getDistance` in parts of the
source). -/
def stateLevel (h : Heap) (i : Nat) : Nat :=
  ((h.find? i).map (·.level)).getD DEFAULT_VOID_LEVEL

/-- `ConstructedState::isMarked`. -/
def stateMark (h : Heap) (i : Nat) : Bool :=
  ((h.find? i).map (·.mark)).getD false

/-- `ConstructedState::getExtension`. -/
def stateExtension (h : Heap) (i : Nat) : List Nat :=
  ((h.find? i).map (·.extension)).getD []

/-- `BidirectionalState::setLevel` / `setDistance` (no-op on a missing id). -/
def setLevel (h : Heap) (i : Nat) (lv : Nat) : Heap :=
  match h.find? i with
  | none => h
  | some sd => h.set i { sd with level := lv }

/-- `ConstructedState::setMarked`. -/
def setMarked (h : Heap) (i : Nat) (b : Bool) : Heap :=
  match h.find? i with
  | none => h
  | some sd => h.set i { sd with mark := b }

/-! ## Transition maps

`std::map<string, set<State*>>`: an association list sorted by label, with
id-sorted child lists. -/

/-- Look up the set bound to a label (empty when the label is absent). -/
def tmGet (m : List (String × List Nat)) (l : String) : List Nat :=
  ((m.find? (fun p => p.1 = l)).map (·.2)).getD []

/-- Insert an id into a sorted id list, keeping it sorted and duplicate-free
(the model of `std::set<State*>::insert`). -/
def idInsert (i : Nat) : List Nat → List Nat
  | [] => [i]
  | j :: rest =>
    if i < j then i :: j :: rest
    else if i = j then j :: rest
    else j :: idInsert i rest

/-- Remove an id from an id list (`std::set<State*>::erase`). -/
def idErase (i : Nat) (l : List Nat) : List Nat :=
  l.filter (fun j => j ≠ i)

/-- Bind label `l` to set `v` in a transition map, keeping labels sorted. -/
def tmSet (l : String) (v : List Nat) : List (String × List Nat) →
    List (String × List Nat)
  | [] => [(l, v)]
  | (l₀, v₀) :: rest =>
    if l < l₀ then (l, v) :: (l₀, v₀) :: rest
    else if l = l₀ then (l, v) :: rest
    else (l₀, v₀) :: tmSet l v rest

/-- Add the edge `l ↦ i` to a transition map. -/
def tmInsert (m : List (String × List Nat)) (l : String) (i : Nat) :
    List (String × List Nat) :=
  tmSet l (idInsert i (tmGet m l)) m

/-- Remove the edge `l ↦ i` from a transition map (the label entry is kept,
possibly empty, as `std::map` keeps the key after `set::erase`). -/
def tmErase (m : List (String × List Nat)) (l : String) (i : Nat) :
    List (String × List Nat) :=
  m.map (fun p => if p.1 = l then (p.1, idErase i p.2) else p)

/-- `State::getChildren(label)` — ids of the children under `label`. -/
def getChildren (h : Heap) (i : Nat) (l : String) : List Nat :=
  ((h.find? i).map (fun sd => tmGet sd.exiting l)).getD []

/-- `BidirectionalState::getParents(label)`. -/
def getParents (h : Heap) (i : Nat) (l : String) : List Nat :=
  ((h.find? i).map (fun sd => tmGet sd.incoming l)).getD []

/-- `State::hasExitingTransition(label)`: the label is bound to a nonempty
set. -/
def hasExitingTransition (h : Heap) (i : Nat) (l : String) : Bool :=
  !(getChildren h i l).isEmpty

/-- `State::hasExitingTransition(label, child)`. -/
def hasExitingTransitionTo (h : Heap) (i : Nat) (l : String) (c : Nat) : Bool :=
  (getChildren h i l).contains c

/-- `BidirectionalState::hasIncomingTransition(label, parent)`. -/
def hasIncomingTransitionFrom (h : Heap) (i : Nat) (l : String) (p : Nat) :
    Bool :=
  (getParents h i l).contains p

/-! ## Connecting and disconnecting states

`bidir` selects between the `State` methods (exiting side only) and the
`BidirectionalState` overrides (both sides), mirroring the C++ virtual
dispatch; automata are homogeneous in the source (`connectChild` throws when
mixing variants). -/

/-- `State::connectChild` / `BidirectionalState::connectChild`: add the edge
unless it is already present; on the bidirectional variant also record the
reverse edge in the child. -/
def connectChild (bidir : Bool) (h : Heap) (parent : Nat) (l : String)
    (child : Nat) : Heap :=
  match h.find? parent with
  | none => h
  | some sd =>
    if (tmGet sd.exiting l).contains child then h
    else
      let h1 := h.set parent { sd with exiting := tmInsert sd.exiting l child }
      if bidir then
        match h1.find? child with
        | none => h1
        | some cd => h1.set child { cd with incoming := tmInsert cd.incoming l parent }
      else h1

/-- `State::disconnectChild` / `BidirectionalState::disconnectChild`: remove
the edge when present; on the bidirectional variant also remove the reverse
edge from the child. -/
def disconnectChild (bidir : Bool) (h : Heap) (parent : Nat) (l : String)
    (child : Nat) : Heap :=
  match h.find? parent with
  | none => h
  | some sd =>
    if !(tmGet sd.exiting l).isEmpty && (tmGet sd.exiting l).contains child then
      let h1 := h.set parent { sd with exiting := tmErase sd.exiting l child }
      if bidir then
        match h1.find? child with
        | none => h1
        | some cd => h1.set child { cd with incoming := tmErase cd.incoming l parent }
      else h1
    else h

/-- `State::detachAllTransitions`: disconnect every exiting transition.  On
the plain variant nothing else can be done — the state keeps no record of its
incoming transitions (see the comment in `State.cpp`). -/
def detachExiting (bidir : Bool) (h : Heap) (i : Nat) : Heap :=
  match h.find? i with
  | none => h
  | some sd =>
    sd.exiting.foldl
      (fun acc p => p.2.foldl (fun a c => disconnectChild bidir a i p.1 c) acc) h

/-- `BidirectionalState::detachAllTransitions`: additionally, every incoming
transition is removed by asking each (distinct) parent to disconnect. -/
def detachAllTransitions (bidir : Bool) (h : Heap) (i : Nat) : Heap :=
  let h1 := detachExiting bidir h i
  if bidir then
    match h1.find? i with
    | none => h1
    | some sd =>
      sd.incoming.foldl
        (fun acc p =>
          p.2.foldl
            (fun a parent => if parent ≠ i then disconnectChild true a parent p.1 i else a)
            acc)
        h1
  else h1

/-! ## Extensions and closures -/

/-- Insert into an `Extension` (`std::set<State*, State::Comparator>`): the
insert fails exactly when a state with the same name is already present;
otherwise the id is placed in name order.  Returns the new extension and the
`insert(...).second` flag. -/
def extSortedInsert (h : Heap) (i : Nat) : List Nat → List Nat
  | [] => [i]
  | j :: rest =>
    if stateName h i < stateName h j then i :: j :: rest
    else j :: extSortedInsert h i rest

/-- Does the extension already hold a state with this name? -/
def namePresent (h : Heap) (ext : List Nat) (n : String) : Bool :=
  ext.any (fun j => stateName h j = n)

/-- `Extension::insert` with its success flag. -/
def extInsert (h : Heap) (ext : List Nat) (i : Nat) : List Nat × Bool :=
  if namePresent h ext (stateName h i) then (ext, false)
  else (extSortedInsert h i ext, true)

/-- Build an `Extension` from a list of ids by repeated insertion. -/
def extOfList (h : Heap) (l : List Nat) : List Nat :=
  l.foldl (fun acc i => (extInsert h acc i).1) []

/-- One step of the epsilon-closure worklist: insert all the epsilon children
of the current state (in set order), collecting the ones that were really
new — those are the states the C++ loop then enqueues. -/
def extInsertAll (h : Heap) (ext : List Nat) : List Nat → List Nat × List Nat
  | [] => (ext, [])
  | c :: cs =>
    let r := extInsert h ext c
    let rest := extInsertAll h r.1 cs
    if r.2 then (rest.1, c :: rest.2) else rest

/-- The worklist loop of `ConstructedState::computeEpsilonClosure`, with
explicit fuel (the C++ loop runs until the queue empties; a sufficient fuel is
computed below). -/
def epsAux (h : Heap) : Nat → List Nat → List Nat → List Nat × List Nat
  | 0, result, queue => (result, queue)
  | _ + 1, result, [] => (result, [])
  | fuel + 1, result, cur :: rest =>
    let r := extInsertAll h result (getChildren h cur EPSILON)
    epsAux h fuel r.1 (rest ++ r.2)

/-- Total number of edges stored in the arena (used only for fuel bounds). -/
def heapEdges (h : Heap) : Nat :=
  (h.states.map (fun p => (p.2.exiting.map (·.2.length)).sum)).sum

/-- A fuel that always suffices for the closure worklist (proved later). -/
def epsFuel (h : Heap) (queueLen : Nat) : Nat :=
  2 * h.states.length + queueLen + 1

/-- `ConstructedState::computeEpsilonClosure(const Extension&)`: breadth-first
expansion along epsilon transitions, seeded with the whole extension. -/
def computeEpsilonClosure (h : Heap) (ext : List Nat) : List Nat :=
  (epsAux h (epsFuel h ext.length) ext ext).1

/-- `ConstructedState::computeEpsilonClosure(State*)`: the single-state
variant. -/
def computeEpsilonClosureOfState (h : Heap) (s : Nat) : List Nat :=
  (epsAux h (epsFuel h 1) [s] [s]).1

/-- `ConstructedState::createNameFromExtension`: `∅` for the empty extension,
otherwise the member names joined by commas inside braces. -/
def createNameFromExtension (h : Heap) (ext : List Nat) : String :=
  match ext with
  | [] => "∅"
  | e :: rest =>
    "\x7b" ++ (rest.foldl (fun acc i => acc ++ "," ++ stateName h i) (stateName h e)) ++ "\x7d"

/-- `ConstructedState::hasFinalStates`. -/
def hasFinalStates (h : Heap) (ext : List Nat) : Bool :=
  ext.any (stateFinal h)

/-- The `ConstructedState(Extension&)` constructor: name and finality are
derived from the extension; the level starts at `DEFAULT_VOID_LEVEL`. -/
def newConstructedState (h : Heap) (ext : List Nat) : Heap × Nat :=
  h.alloc
    { name := createNameFromExtension h ext, final := hasFinalStates h ext,
      level := DEFAULT_VOID_LEVEL, mark := false, extension := ext,
      exiting := [], incoming := [] }

/-- `ConstructedState::replaceExtensionWith`: swap the extension and recompute
name and finality. -/
def replaceExtensionWith (h : Heap) (i : Nat) (ext : List Nat) : Heap :=
  match h.find? i with
  | none => h
  | some sd =>
    h.set i { sd with extension := ext, name := createNameFromExtension h ext,
                      final := hasFinalStates h ext }

/-- Insert a string into a sorted, duplicate-free string list
(`std::set<string>::insert`). -/
def strInsert (s : String) : List String → List String
  | [] => [s]
  | t :: rest =>
    if s < t then s :: t :: rest
    else if s = t then t :: rest
    else t :: strInsert s rest

/-- `ConstructedState::getLabelsExitingFromExtension`: all labels of nonempty
transition sets leaving the extension members. -/
def getLabelsExitingFromExtension (h : Heap) (i : Nat) : List String :=
  (stateExtension h i).foldl
    (fun acc m =>
      (((h.find? m).map (·.exiting)).getD []).foldl
        (fun a p => if p.2.length > 0 then strInsert p.1 a else a) acc)
    []

/-- `ConstructedState::computeLClosureOfExtension`: union of the
label-children of every extension member, epsilon-closed. -/
def computeLClosureOfExtension (h : Heap) (i : Nat) (l : String) : List Nat :=
  let lClosure :=
    (stateExtension h i).foldl
      (fun acc m => (getChildren h m l).foldl (fun a c => (extInsert h a c).1) acc) []
  computeEpsilonClosure h lClosure

/-- `ConstructedState::computeLClosure`: the label-children of the state
itself, epsilon-closed. -/
def computeLClosure (h : Heap) (i : Nat) (l : String) : List Nat :=
  let lClosure := (getChildren h i l).foldl (fun a c => (extInsert h a c).1) []
  computeEpsilonClosure h lClosure

/-- `ConstructedState::hasExtension`: comparison is by derived name. -/
def hasExtension (h : Heap) (i : Nat) (ext : List Nat) : Bool :=
  stateName h i = createNameFromExtension h ext

/-- `BidirectionalConstructedState::isSafe` (`State.cpp`, lines 1124–1151):
the state is safe with respect to the singularity `(sing_state, sing_label)`
iff its level is zero (it is the initial state), or some incoming transition
satisfies the conditions spelled out there. -/
def isSafe (h : Heap) (i : Nat) (sing_state : Nat) (sing_label : String) :
    Bool :=
  if stateLevel h i = 0 then true
  else
    (((h.find? i).map (·.incoming)).getD []).any fun p =>
      if p.1 = sing_label then
        p.2.any fun parent =>
          parent ≠ sing_state && stateLevel h parent ≤ stateLevel h sing_state
      else
        p.2.any fun parent => stateLevel h parent ≤ stateLevel h sing_state

/-- `BidirectionalConstructedState::isUnsafe`: the negation of `isSafe`. -/
def isUnsafe (h : Heap) (i : Nat) (sing_state : Nat) (sing_label : String) :
    Bool :=
  !isSafe h i sing_state sing_label

/-- The incoming-transition map of a state (`getIncomingTransitionsRef`). -/
def getIncomingTransitions (h : Heap) (i : Nat) : List (String × List Nat) :=
  ((h.find? i).map (·.incoming)).getD []

/-- The exiting-transition map of a state (`getExitingTransitionsRef`). -/
def getExitingTransitions (h : Heap) (i : Nat) : List (String × List Nat) :=
  ((h.find? i).map (·.exiting)).getD []

/-! ## Levels (distances)

`BidirectionalState::initLevelsRecursively` (`State.cpp`, lines 857–880): a
breadth-first traversal that assigns `level + 1` to every child whose level is
still `DEFAULT_VOID_LEVEL`.  The C++ loop runs until its queue empties; the
embedding uses an explicit fuel for which a sufficient value is computed (and
proved sufficient later). -/

/-- All children of a state, across every label, in transition-map order. -/
def allChildren (h : Heap) (i : Nat) : List Nat :=
  (getExitingTransitions h i).foldl (fun acc p => acc ++ p.2) []

/-- The worklist loop of `initLevelsRecursively`. -/
def initLevelsAux : Nat → Heap → List Nat → Heap × List Nat
  | 0, h, queue => (h, queue)
  | _ + 1, h, [] => (h, [])
  | fuel + 1, h, cur :: rest =>
    let step :=
      (allChildren h cur).foldl
        (fun (acc : Heap × List Nat) c =>
          if stateLevel acc.1 c = DEFAULT_VOID_LEVEL then
            (setLevel acc.1 c (stateLevel acc.1 cur + 1), acc.2 ++ [c])
          else acc)
        (h, [])
    initLevelsAux fuel step.1 (rest ++ step.2)

/-- A fuel that always suffices for the level worklist on arenas whose
transitions stay inside the arena. -/
def levelsFuel (h : Heap) : Nat :=
  (heapEdges h + 1) * (h.states.length + 1) + 2

/-- `BidirectionalState::initLevelsRecursively(root_level)` called on state
`root`: set the root level, then run the breadth-first traversal. -/
def initLevelsRecursively (h : Heap) (root : Nat) (rootLevel : Nat) : Heap :=
  (initLevelsAux (levelsFuel h) (setLevel h root rootLevel) [root]).1

/-! ## The `Automaton` class (`Automaton.cpp`)

An automaton owns a multiset of member ids plus an optional initial state; the
member collection is modelled as an id-sorted, duplicate-free list (the C++
`multiset<State*>` iterates in pointer order, which we model by id order). -/

structure Automaton where
  members : List Nat
  initial : Option Nat
deriving Repr, DecidableEq

/-- `Automaton::hasState(State*)` — membership by pointer. -/
def Automaton.hasState (a : Automaton) (i : Nat) : Bool :=
  a.members.contains i

/-- `Automaton::hasState(string)` — membership by name. -/
def hasStateNamed (h : Heap) (a : Automaton) (n : String) : Bool :=
  a.members.any (fun i => stateName h i = n)

/-- `Automaton::getState(string)` — the first member with the given name, if
any. -/
def getStateNamed (h : Heap) (a : Automaton) (n : String) : Option Nat :=
  a.members.find? (fun i => stateName h i = n)

/-- `Automaton::getStatesByName`. -/
def getStatesByName (h : Heap) (a : Automaton) (n : String) : List Nat :=
  a.members.filter (fun i => stateName h i = n)

/-- `Automaton::addState`. -/
def Automaton.addState (a : Automaton) (i : Nat) : Automaton :=
  { a with members := idInsert i a.members }

/-- `Automaton::removeState` (`Automaton.cpp`, lines 127–136): first detach
all the state's transitions, then erase it from the member collection, and
return `true` — unconditionally. -/
def removeState (bidir : Bool) (h : Heap) (a : Automaton) (i : Nat) :
    Heap × Automaton × Bool :=
  (detachAllTransitions bidir h i,
   { a with members := idErase i a.members },
   true)

/-- `Automaton::setInitialState(State*)` (`Automaton.cpp`, lines 155–162):
when the state is a member, record it as initial and recompute levels from it;
otherwise do nothing. -/
def setInitialState (h : Heap) (a : Automaton) (s : Nat) : Heap × Automaton :=
  if a.hasState s then
    (initLevelsRecursively h s 0, { a with initial := some s })
  else (h, a)

/-- `Automaton::connectStates`. -/
def connectStates (bidir : Bool) (h : Heap) (a : Automaton)
    (src dst : Nat) (l : String) : Heap :=
  if a.hasState src && a.hasState dst then connectChild bidir h src l dst else h

/-! ## Wellformedness

The C++ pointer graph cannot dangle: a `State*` stored in a transition map
always points at a live object (states are never destroyed while automata use
them).  In the arena model this becomes an explicit property. -/

/-- Every id mentioned in a transition map of the arena is itself in the
arena. -/
def childrenClosed (h : Heap) : Prop :=
  ∀ p ∈ h.states, (∀ q ∈ p.2.exiting, ∀ c ∈ q.2, c ∈ h.dom) ∧
    (∀ q ∈ p.2.incoming, ∀ c ∈ q.2, c ∈ h.dom)

instance (h : Heap) : Decidable (childrenClosed h) := by
  unfold childrenClosed; infer_instance

/-- The arena ids are distinct (each C++ object is one arena cell). -/
def heapNodup (h : Heap) : Prop := (h.dom).Nodup

instance (h : Heap) : Decidable (heapNodup h) := by
  unfold heapNodup; infer_instance

/-! ## Singularities (`Singularity.cpp`)

`Singularity::compare` reads three attributes of a singularity: the state's
distance (an `unsigned int`), the state's name, and the label.  The record
below carries exactly those attributes.  The distance branch of `compare`
returns `this->getDistance() - rhs->getDistance()` computed in `unsigned int`
and converted to `int`, i.e. a 32-bit wrap-around subtraction; `toInt32` makes
that conversion explicit.  `std::string::compare` is modelled sign-faithfully
(only its sign is ever used by `operator<` / `operator==`). -/

/-- Two's-complement reading of a natural number as a 32-bit `int`. -/
def toInt32 (n : Nat) : Int :=
  if n % 2 ^ 32 < 2 ^ 31 then (n % 2 ^ 32 : Int) else (n % 2 ^ 32 : Int) - 2 ^ 32

/-- Sign-faithful model of `std::string::compare`. -/
def strcmp (a b : String) : Int :=
  if a < b then -1 else if b < a then 1 else 0

/-- The attributes of a `Singularity` that `compare` inspects: the state's
distance and name, and the label. -/
structure Singularity where
  stateName : String
  stateDistance : Nat
  label : String
deriving Repr, DecidableEq

/-- `Singularity::compare` (`Singularity.cpp`, lines 77–99): by distance
first (as a wrapped unsigned subtraction), then by state name, then by
label. -/
def Singularity.compare (s t : Singularity) : Int :=
  if s.stateDistance % 2 ^ 32 = t.stateDistance % 2 ^ 32 then
    if s.stateName = t.stateName then strcmp s.label t.label
    else strcmp s.stateName t.stateName
  else toInt32 (s.stateDistance % 2 ^ 32 + (2 ^ 32 - t.stateDistance % 2 ^ 32))

/-- `Singularity::operator<`. -/
def Singularity.lt (s t : Singularity) : Prop := s.compare t < 0

/-- `SingularityList::pop`: return the first element of the ordered set and
erase it. -/
def SingularityList.pop (l : List Singularity) :
    Option Singularity × List Singularity :=
  (l.head?, l.tail)

/-- The lexicographic strict order on (distance, state name, label) that the
spec describes. -/
def singKeyLt (s t : Singularity) : Prop :=
  s.stateDistance < t.stateDistance ∨
    (s.stateDistance = t.stateDistance ∧
      (s.stateName < t.stateName ∨
        (s.stateName = t.stateName ∧ s.label < t.label)))


/-! ## Distance relocation (`QuickSubsetConstruction.cpp`, lines 719–756)

`runDistanceRelocation` pops `(state, candidateDistance)` pairs; when the
candidate (converted to `unsigned int`) is strictly below the state's current
distance it stores the candidate and enqueues every child with
`candidate + 1`.  The candidate travels as a C++ `int`; the comparison and
the store convert it to `unsigned int`, which `u32` makes explicit. -/

/-- The `int → unsigned int` conversion (mod `2^32`). -/
def u32 (i : Int) : Nat := (i % 2 ^ 32).toNat

/-- The worklist loop of `runDistanceRelocation`, with explicit fuel. -/
def relocAux : Nat → Heap → List (Nat × Int) → Heap × List (Nat × Int)
  | 0, h, queue => (h, queue)
  | _ + 1, h, [] => (h, [])
  | fuel + 1, h, (cur, cand) :: rest =>
    if stateLevel h cur > u32 cand then
      let h2 := setLevel h cur (u32 cand)
      relocAux fuel h2 (rest ++ (allChildren h2 cur).map (fun c => (c, cand + 1)))
    else relocAux fuel h rest

/-- The sum of all stored levels (the decreasing part of the relocation
measure). -/
def heapLevelSum (h : Heap) : Nat :=
  (h.states.map (fun p => p.2.level)).sum

/-- A fuel that always suffices for the relocation worklist (proved below). -/
def relocFuel (h : Heap) (l : List (Nat × Int)) : Nat :=
  (heapEdges h + 1) * heapLevelSum h + l.length + 1

/-- `QuickSubsetConstruction::runDistanceRelocation(list)`. -/
def runDistanceRelocation (h : Heap) (l : List (Nat × Int)) : Heap :=
  (relocAux (relocFuel h l) h l).1

/-- The single-pair wrapper
`QuickSubsetConstruction::runDistanceRelocation(state, new_distance)`. -/
def runDistanceRelocationOne (h : Heap) (s : Nat) (d : Int) : Heap :=
  runDistanceRelocation h [(s, d)]

/-! ## Edge predicates and graph coherence -/

/-- There is a recorded transition `p --l--> c` (exiting side). -/
def exEdge (h : Heap) (p : Nat) (l : String) (c : Nat) : Prop :=
  c ∈ getChildren h p l

/-- There is a recorded transition `p --l--> c` (incoming side of `c`). -/
def inEdge (h : Heap) (c : Nat) (l : String) (p : Nat) : Prop :=
  p ∈ getParents h c l

/-- The two transition indexes mirror each other (the invariant maintained by
the bidirectional `connectChild` / `disconnectChild`), stated over the arena
entries so that it is decidable. -/
def mirroredDec (h : Heap) : Prop :=
  (∀ e ∈ h.states, ∀ q ∈ e.2.exiting, ∀ c ∈ q.2, inEdge h c q.1 e.1) ∧
  (∀ e ∈ h.states, ∀ q ∈ e.2.incoming, ∀ c ∈ q.2, exEdge h c q.1 e.1)

instance (h : Heap) : Decidable (mirroredDec h) := by
  unfold mirroredDec inEdge exEdge; infer_instance

/-- The transition map of `s` is a well-formed `std::map` of `std::set`s:
distinct label keys and duplicate-free child sets. -/
def sExitingWf (h : Heap) (s : Nat) : Prop :=
  ((getExitingTransitions h s).map (·.1)).Nodup ∧
  ∀ q ∈ getExitingTransitions h s, q.2.Nodup

instance (h : Heap) (s : Nat) : Decidable (sExitingWf h s) := by
  unfold sExitingWf; infer_instance

/-- A sequence of bidirectional disconnections, as performed by
`detachAllTransitions` (each step is `(parent, label, child)`). -/
def discFold (h : Heap) (steps : List (Nat × String × Nat)) : Heap :=
  steps.foldl (fun acc t => disconnectChild true acc t.1 t.2.1 t.2.2) h

/-- The disconnection steps of the exiting loop of `detachAllTransitions`
on state `s`, flattened. -/
def flattenEx (s : Nat) (m : List (String × List Nat)) :
    List (Nat × String × Nat) :=
  m.flatMap (fun q => q.2.map (fun c => (s, q.1, c)))

/-- The disconnection steps of the incoming loop of `detachAllTransitions`
on state `s` (each non-self parent disconnects its edge into `s`),
flattened. -/
def flattenIn (s : Nat) (m : List (String × List Nat)) :
    List (Nat × String × Nat) :=
  m.flatMap (fun q => (q.2.filter (fun t => t ≠ s)).map (fun t => (t, q.1, s)))

/-! ## The QSC singularity worklist

`QuickSubsetConstruction` keeps its singularities in a
`set<Singularity*, SingularityComparator>`; an element is a (state, label)
pair, ordered by `Singularity::compare` evaluated on the state's current
name and distance.  The model is a list ordered by that comparison at
insertion time, with the comparator-level duplicate check of `std::set`. -/

/-- The comparison key of a worklist entry, read from the arena. -/
def singCompare (h : Heap) (a b : Nat × String) : Int :=
  Singularity.compare
    ⟨stateName h a.1, stateLevel h a.1, a.2⟩
    ⟨stateName h b.1, stateLevel h b.1, b.2⟩

/-- Ordered insertion by the current comparison keys. -/
def singsOrderedInsert (h : Heap) (x : Nat × String) :
    List (Nat × String) → List (Nat × String)
  | [] => [x]
  | y :: rest =>
    if singCompare h x y < 0 then x :: y :: rest
    else y :: singsOrderedInsert h x rest

/-- `QuickSubsetConstruction::addSingularityToList`: insert unless an
equivalent singularity (equal comparison key) is present. -/
def addSingularityToList (h : Heap) (sl : List (Nat × String)) (state : Nat)
    (label : String) : List (Nat × String) :=
  if sl.any (fun y => singCompare h y (state, label) = 0) then sl
  else singsOrderedInsert h (state, label) sl

/-- `SingularityList::removeSingularitiesOfState` (pointer comparison on the
state), returning the removed labels as a sorted set. -/
def removeSingularitiesOfState (sl : List (Nat × String)) (target : Nat) :
    List (Nat × String) × List String :=
  (sl.filter (fun y => y.1 ≠ target),
   (sl.filter (fun y => y.1 = target)).foldl (fun acc y => strInsert y.2 acc) [])

/-- `SingularityList::sort`: rebuild the set with the current keys. -/
def singsSort (h : Heap) (sl : List (Nat × String)) : List (Nat × String) :=
  sl.foldl (fun acc y =>
    if acc.any (fun z => singCompare h z y = 0) then acc
    else singsOrderedInsert h y acc) []

/-! ## QSC phase 1 — cloning (`QuickSubsetConstruction.cpp`, lines 120–208) -/

/-- `states_map` lookups (the C++ `map<State*, ConstructedState*>`). -/
def mapLookup (m : List (Nat × Nat)) (i : Nat) : Nat :=
  ((m.find? (fun p => p.1 = i)).map (·.2)).getD 0

/-- Arena validity: the fresh-id counter is above every existing id. -/
def freshHeap (h : Heap) : Prop := ∀ i ∈ h.dom, i < h.next

instance (h : Heap) : Decidable (freshHeap h) := by
  unfold freshHeap; infer_instance

/-- The first loop of phase 1: for every NFA state, allocate a
`ConstructedState` with singleton extension, add it to the DFA, and copy the
distance. -/
def qscCloneStatesGo (h : Heap) (dfa : Automaton) (m : List (Nat × Nat)) :
    List Nat → Heap × Automaton × List (Nat × Nat)
  | [] => (h, dfa, m)
  | i :: rest =>
    let r := newConstructedState h [i]
    let h2 := setLevel r.1 r.2 (stateLevel r.1 i)
    qscCloneStatesGo h2 (dfa.addState r.2) (m ++ [(i, r.2)]) rest

/-- Processing of one `(label, children)` pair of one NFA state in the second
loop of phase 1: detect the kind-1 singularity, copy each transition except
epsilon self-loops, and detect the two kind-2 singularity conditions. -/
def qscPhase1Label (nfa : Automaton) (m : List (Nat × Nat))
    (nfa_state dfa_state : Nat) (h : Heap) (sl : List (Nat × String))
    (pair : String × List Nat) : Heap × List (Nat × String) :=
  let flag0 : Bool := decide (nfa.initial = some nfa_state) &&
    decide (pair.1 = EPSILON)
  let sl1 := if flag0 then addSingularityToList h sl dfa_state pair.1 else sl
  let r2 := pair.2.foldl
    (fun (acc : Heap × List (Nat × String)) nfa_child =>
      if nfa_child = nfa_state ∧ pair.1 = EPSILON then acc
      else
        let h2 := connectChild true acc.1 dfa_state pair.1 (mapLookup m nfa_child)
        if !flag0 && !(decide (pair.1 = EPSILON)) &&
            hasExitingTransition h2 nfa_child EPSILON &&
            (getChildren h2 nfa_child EPSILON).any (fun g => g ≠ nfa_child) then
          (h2, addSingularityToList h2 acc.2 dfa_state pair.1)
        else (h2, acc.2))
    (h, sl1)
  if !flag0 && !(decide (pair.1 = EPSILON)) && decide (pair.2.length > 1) then
    (r2.1, addSingularityToList r2.1 r2.2 dfa_state pair.1)
  else r2

/-- The second loop of phase 1, for one NFA state: iterate over its exiting
transition map. -/
def qscPhase1State (nfa : Automaton) (m : List (Nat × Nat)) (h : Heap)
    (sl : List (Nat × String)) (i : Nat) : Heap × List (Nat × String) :=
  (getExitingTransitions h i).foldl
    (fun acc pair => qscPhase1Label nfa m i (mapLookup m i) acc.1 acc.2 pair)
    (h, sl)

/-- The second loop of phase 1 over all NFA states. -/
def qscPhase1TransGo (nfa : Automaton) (m : List (Nat × Nat)) :
    Heap → List (Nat × String) → List Nat → Heap × List (Nat × String)
  | h, sl, [] => (h, sl)
  | h, sl, i :: rest =>
    let r := qscPhase1State nfa m h sl i
    qscPhase1TransGo nfa m r.1 r.2 rest

/-- Phase 1 of `QuickSubsetConstruction::run` (the cloning phase, lines
120–208): build the isomorphic copy, detect singularities, and finally mark
the cloned initial state (which recomputes levels). -/
def qscPhase1 (h : Heap) (nfa : Automaton) :
    Heap × Automaton × List (Nat × Nat) × List (Nat × String) :=
  let r1 := qscCloneStatesGo h ⟨[], none⟩ [] nfa.members
  let r2 := qscPhase1TransGo nfa r1.2.2 r1.1 [] nfa.members
  match nfa.initial with
  | none => (r2.1, r1.2.1, r1.2.2, r2.2)
  | some i0 =>
    let r3 := setInitialState r2.1 r1.2.1 (mapLookup r1.2.2 i0)
    (r3.1, r3.2, r1.2.2, r2.2)

/-- The heap effect of one child visit in phase 1's transition loop (the
singularity bookkeeping does not touch the heap). -/
def phase1Step (m : List (Nat × Nat)) (i d : Nat) (lab : String)
    (hh : Heap) (c : Nat) : Heap :=
  if c = i ∧ lab = EPSILON then hh
  else connectChild true hh d lab (mapLookup m c)

/-- The heap effect of processing one NFA state in phase 1's transition
loop. -/
def phase1StateHeap (m : List (Nat × Nat)) (i : Nat) (h : Heap) : Heap :=
  (getExitingTransitions h i).foldl
    (fun hh pair => pair.2.foldl (phase1Step m i (mapLookup m i) pair.1) hh) h

/-- The states reached from `u` by paths of exactly `n` transitions (with
multiplicity; only membership matters).  Shortest-path distances are phrased
through this set. -/
def reachSet (h : Heap) (u : Nat) : Nat → List Nat
  | 0 => [u]
  | n + 1 => (reachSet h u n).flatMap (allChildren h)

/-- The number of listed states still carrying the undefined level: the
decreasing measure of the breadth-first level pass. -/
def voidCount (dom : List Nat) (hc : Heap) : Nat :=
  (dom.filter (fun j => stateLevel hc j = DEFAULT_VOID_LEVEL)).length

/-! ## Auxiliary notions for the worklist proofs -/

/-- The arena entries whose names are not yet present in the extension: the
decreasing measure of the closure worklist. -/
def unseen (h : Heap) (ext : List Nat) : Nat :=
  (h.states.filter (fun p => !(namePresent h ext p.2.name))).length

/-- Every epsilon child of `y` has its name represented in `ext`. -/
def coveredAt (h : Heap) (ext : List Nat) (y : Nat) : Prop :=
  ∀ c ∈ getChildren h y EPSILON, namePresent h ext (stateName h c) = true

/-- Every member's epsilon children are represented in the extension (the
name-keyed sense in which an `Extension` is epsilon-closed). -/
def ClosedUnder (h : Heap) (ext : List Nat) : Prop :=
  ∀ y ∈ ext, coveredAt h ext y

/-! ## `SubsetConstruction::run` (`SubsetConstruction.cpp`, lines 44–120)

The constructed states of the determinization pipeline carry levels and
incoming-transition maps (the snapshot's `Automaton::setInitialState`
initializes distances through them, and QSC reads distances and incoming
edges of the same DFA states), so every connection below is the
bidirectional one. -/

/-- The body of SC's label loop (lines 65–106) for one label `l` of the
current state `cur`, acting on `(heap, dfa, queue)`: skip epsilon, build the
state of the l-closure, drop it if its extension is empty, reuse an existing
namesake instead of it, otherwise register and enqueue it; finally connect
`cur` to the chosen child.  The C++ allocates the candidate state before
deciding (deleting it in the first two branches); the arena mirrors that by
allocating in every branch. -/
def scProcessLabel (cur : Nat) (l : String)
    (acc : Heap × Automaton × List Nat) : Heap × Automaton × List Nat :=
  if l = EPSILON then acc
  else
    let lClosure := computeLClosureOfExtension acc.1 cur l
    let r := newConstructedState acc.1 lClosure
    if lClosure.isEmpty then (r.1, acc.2.1, acc.2.2)
    else if hasStateNamed r.1 acc.2.1 (stateName r.1 r.2) then
      let child := (getStateNamed r.1 acc.2.1 (stateName r.1 r.2)).getD 0
      (connectChild true r.1 cur l child, acc.2.1, acc.2.2)
    else
      (connectChild true r.1 cur l r.2, acc.2.1.addState r.2,
       acc.2.2 ++ [r.2])

/-- The FIFO worklist of `SubsetConstruction::run` (lines 61–107), with
explicit fuel (the C++ loop runs until the queue of pending constructed
states empties; the label set of the popped state is computed once, as the
C++ `getLabelsExitingFromExtension` returns a fresh set). -/
def scLoop : Nat → Heap → Automaton → List Nat → Heap × Automaton
  | 0, h, dfa, _ => (h, dfa)
  | _ + 1, h, dfa, [] => (h, dfa)
  | fuel + 1, h, dfa, cur :: rest =>
    let r := (getLabelsExitingFromExtension h cur).foldl
      (fun acc l => scProcessLabel cur l acc) (h, dfa, rest)
    scLoop fuel r.1 r.2.1 r.2.2

/-- `SubsetConstruction::run`: start from the epsilon closure of the NFA's
initial state, run the worklist, then set the initial DFA state (which
assigns the distances).  The C++ dereferences a non-null initial state; an
automaton without one yields the empty result here. -/
def scRun (h : Heap) (nfa : Automaton) (fuel : Nat) : Heap × Automaton :=
  match nfa.initial with
  | none => (h, ⟨[], none⟩)
  | some i0 =>
    let eps := computeEpsilonClosure h [i0]
    let r := newConstructedState h eps
    let dfa := Automaton.addState ⟨[], none⟩ r.2
    let r2 := scLoop fuel r.1 dfa [r.2]
    setInitialState r2.1 r2.2 r.2

/-! ## `QuickSubsetConstruction::run`, phase 2
(`QuickSubsetConstruction.cpp`, lines 218–710) -/

/-- `State::copyExitingTransitionsOf` (`State.cpp`, lines 662–671): add every
exiting transition of `src` that `dst` does not already have. -/
def copyExitingTransitionsOf (h : Heap) (dst src : Nat) : Heap :=
  (getExitingTransitions h src).foldl
    (fun hh pair => pair.2.foldl
      (fun h2 c =>
        if hasExitingTransitionTo h2 dst pair.1 c then h2
        else connectChild true h2 dst pair.1 c) hh) h

/-- `BidirectionalState::copyIncomingTransitionsOf` (`State.cpp`, lines
681–690): for every incoming transition of `src`, its parent connects to
`dst` unless that edge already exists. -/
def copyIncomingTransitionsOf (h : Heap) (dst src : Nat) : Heap :=
  (getIncomingTransitions h src).foldl
    (fun hh pair => pair.2.foldl
      (fun h2 p =>
        if hasExitingTransitionTo h2 p pair.1 dst then h2
        else connectChild true h2 p pair.1 dst) hh) h

/-- `BidirectionalState::copyAllTransitionsOf` (`State.cpp`, lines 706–713):
exiting side first, then incoming side. -/
def copyAllTransitionsOf (h : Heap) (dst src : Nat) : Heap :=
  copyIncomingTransitionsOf (copyExitingTransitionsOf h dst src) dst src

/-- Scenario S0 (lines 222–387): when the worklist starts with the
epsilon singularity of the initial DFA state `d0`, pop it, widen `d0`'s
extension to the NFA-side epsilon closure of the NFA initial state `i0`,
drop `d0`'s epsilon transitions, add the singularities of the new extension
members, reroute the transitions around the unsafe states of the DFA-side
closure, and remove those unsafe states.  Marking a state does not change
`isUnsafe` (which reads levels and incoming edges only), so the C++ loop that
interleaves the test with the marking is rendered as a filter followed by the
marking fold. -/
def qscScenario0 (i0 : Nat) (h : Heap) (dfa : Automaton)
    (sl : List (Nat × String)) : Heap × Automaton × List (Nat × String) :=
  match sl with
  | [] => (h, dfa, sl)
  | first :: rest =>
    if first.2 ≠ EPSILON then (h, dfa, first :: rest)
    else
      let d0 := first.1
      let d0eps := computeEpsilonClosureOfState h d0
      let n0eps := computeEpsilonClosureOfState h i0
      let uset := d0eps.filter (fun x => isUnsafe h x d0 EPSILON)
      let h1 := uset.foldl (fun hh x => setMarked hh x true) h
      let h2 := replaceExtensionWith h1 d0 n0eps
      let h3 := (getChildren h2 d0 EPSILON).foldl
        (fun hh c => disconnectChild true hh d0 EPSILON c) h2
      let sl1 := n0eps.foldl
        (fun acc s =>
          if s = i0 then acc
          else (getExitingTransitions h3 s).foldl
            (fun a pair =>
              if pair.1 ≠ EPSILON then addSingularityToList h3 a d0 pair.1
              else a) acc)
        rest
      let r4 := uset.foldl
        (fun (acc : Heap × List (Nat × String)) u =>
          let a1 := (getExitingTransitions acc.1 u).foldl
            (fun (b : Heap × List (Nat × String)) pair =>
              if pair.1 = EPSILON then b
              else pair.2.foldl
                (fun (c : Heap × List (Nat × String)) child =>
                  if stateMark c.1 child then c
                  else (connectChild true c.1 d0 pair.1 child, c.2)) b)
            acc
          (getIncomingTransitions a1.1 u).foldl
            (fun (b : Heap × List (Nat × String)) pair =>
              if pair.1 = EPSILON then b
              else pair.2.foldl
                (fun (c : Heap × List (Nat × String)) parent =>
                  if stateMark c.1 parent then c
                  else (c.1, addSingularityToList c.1 c.2 parent pair.1)) b)
            a1)
        (h3, sl1)
      uset.foldl
        (fun (acc : Heap × Automaton × List (Nat × String)) u =>
          let rr := removeState true acc.1 acc.2.1 u
          (rr.1, rr.2.1, (removeSingularitiesOfState acc.2.2 u).1))
        (r4.1, dfa, r4.2)

/-- One iteration of the singularity worklist (scenarios S1 and S2, lines
408–695), acting on the popped singularity `(cs, cl)` with the remaining
list `sl`. -/
def qscSingularityStep (h : Heap) (dfa : Automaton)
    (sl : List (Nat × String)) (cs : Nat) (cl : String) :
    Heap × Automaton × List (Nat × String) :=
  let nfaLClosure := computeLClosureOfExtension h cs cl
  let nfaName := createNameFromExtension h nfaLClosure
  if !(hasExitingTransition h cs cl) then
    -- Scenario S1 (lines 426–465).
    if hasStateNamed h dfa nfaName then
      let child := (getStateNamed h dfa nfaName).getD 0
      let h2 := connectChild true h cs cl child
      (runDistanceRelocationOne h2 child ((stateLevel h2 cs : Int) + 1),
       dfa, sl)
    else
      let r := newConstructedState h nfaLClosure
      let dfa2 := dfa.addState r.2
      let h2 := connectChild true r.1 cs cl r.2
      let h3 := setLevel h2 r.2 (stateLevel h2 cs + 1)
      let sl2 := (getLabelsExitingFromExtension h3 r.2).foldl
        (fun acc lab =>
          if lab ≠ EPSILON then addSingularityToList h3 acc r.2 lab else acc)
        sl
      (h3, dfa2, sl2)
  else
    let flag :=
      if (getChildren h cs cl).length > 1 then true
      else
        let child := (getChildren h cs cl).headD 0
        if hasExitingTransition h child EPSILON then true
        else !(hasExtension h child nfaLClosure)
    if !flag then (h, dfa, sl)
    else
      -- Scenario S2 (lines 506–695).  As in S0, marking does not change
      -- `isUnsafe`, so the interleaved C++ loop becomes a filter plus two
      -- folds.
      let dfaLClosure := computeLClosure h cs cl
      let uset := dfaLClosure.filter (fun x => isUnsafe h x cs cl)
      let h1 := uset.foldl (fun hh x => setMarked hh x true) h
      let sl1 := uset.foldl
        (fun acc x => (removeSingularitiesOfState acc x).1) sl
      let exOk := match getStateNamed h1 dfa nfaName with
        | some ds => if stateMark h1 ds then none else some ds
        | none => none
      let r2 : Heap × Automaton × Nat :=
        match exOk with
        | some ds => (h1, dfa, ds)
        | none =>
          let r := newConstructedState h1 nfaLClosure
          (setLevel r.1 r.2 (stateLevel r.1 cs + 1), dfa.addState r.2, r.2)
      let dnew := r2.2.2
      let sl2 := (getLabelsExitingFromExtension r2.1 dnew).foldl
        (fun acc lab =>
          if lab ≠ EPSILON then addSingularityToList r2.1 acc dnew lab
          else acc) sl1
      let h3 := (getChildren r2.1 cs cl).foldl
        (fun hh c => disconnectChild true hh cs cl c) r2.1
      let r3 := uset.foldl
        (fun (acc : Heap × List (Nat × String)) u =>
          let a1 := (getExitingTransitions acc.1 u).foldl
            (fun (b : Heap × List (Nat × String)) pair =>
              if pair.1 = EPSILON then b
              else pair.2.foldl
                (fun (c : Heap × List (Nat × String)) child =>
                  if stateMark c.1 child then c
                  else (connectChild true c.1 dnew pair.1 child, c.2)) b)
            acc
          (getIncomingTransitions a1.1 u).foldl
            (fun (b : Heap × List (Nat × String)) pair =>
              if pair.1 = EPSILON then b
              else pair.2.foldl
                (fun (c : Heap × List (Nat × String)) parent =>
                  if stateMark c.1 parent then c
                  else (c.1, addSingularityToList c.1 c.2 parent pair.1)) b)
            a1)
        (h3, sl2)
      let r4h := uset.foldl
        (fun (acc : Heap × Automaton) u =>
          let rr := removeState true acc.1 acc.2 u
          (rr.1, rr.2.1)) (r3.1, r2.2.1)
      let h5 := connectChild true r4h.1 cs cl dnew
      let namesakes := getStatesByName h5 r4h.2 nfaName
      if namesakes.length > 1 then
        let n0 := namesakes.getD 0 0
        let n1 := namesakes.getD 1 0
        let minS := if stateLevel h5 n0 < stateLevel h5 n1 then n0 else n1
        let maxS := if stateLevel h5 n0 < stateLevel h5 n1 then n1 else n0
        let h6 := copyAllTransitionsOf h5 minS maxS
        let rr := removeState true h6 r4h.2 maxS
        let rsl := removeSingularitiesOfState r3.2 maxS
        let sl4 := rsl.2.foldl
          (fun acc lab =>
            if lab ≠ EPSILON ∧ ¬(minS = cs ∧ lab = cl) then
              addSingularityToList rr.1 acc minS lab
            else acc) rsl.1
        let reloc := (getExitingTransitions rr.1 minS).foldl
          (fun acc pair =>
            acc ++ pair.2.map
              (fun c => (c, (stateLevel rr.1 minS : Int) + 1))) []
        let h8 := runDistanceRelocation rr.1 reloc
        (h8, rr.2.1, singsSort h8 sl4)
      else (h5, r4h.2, r3.2)

/-- The singularity worklist (lines 395–697), with explicit fuel. -/
def qscSingularityLoop : Nat → Heap → Automaton → List (Nat × String) →
    Heap × Automaton
  | 0, h, dfa, _ => (h, dfa)
  | _ + 1, h, dfa, [] => (h, dfa)
  | fuel + 1, h, dfa, (cs, cl) :: rest =>
    let r := qscSingularityStep h dfa rest cs cl
    qscSingularityLoop fuel r.1 r.2.1 r.2.2

/-- `QuickSubsetConstruction::run` (lines 90–710): phase 1 (cloning), then
phase 2 — scenario S0 followed by the S1/S2 singularity worklist. -/
def qscRun (h : Heap) (nfa : Automaton) (fuel : Nat) : Heap × Automaton :=
  let p1 := qscPhase1 h nfa
  match nfa.initial with
  | none => (p1.1, p1.2.1)
  | some i0 =>
    let s0 := qscScenario0 i0 p1.1 p1.2.1 p1.2.2.2
    qscSingularityLoop fuel s0.1 s0.2.1 s0.2.2

/-- The two-state NFA arena on which SC and QSC differ: state `0` is the
initial state (distance 0) and state `1` is unreachable (it keeps the
undefined distance), neither has any transition. -/
def c1Heap : Heap :=
  ⟨[(0, ⟨"p", false, 0, false, [], [], []⟩),
    (1, ⟨"q", false, DEFAULT_VOID_LEVEL, false, [], [], []⟩)], 2⟩

/-- The automaton of `c1Heap`. -/
def c1Nfa : Automaton := ⟨[0, 1], some 0⟩

/-! ## Claim C4 -/

/-- Claim C4: `BidirectionalConstructedState::isSafe(singularityState,
singularityLabel)` returns true iff the receiver is the initial state (its
level is zero, which is how `State.cpp` identifies the initial state — see the
comment at lines 1116–1117), or the receiver has an incoming edge labeled
differently than the singularity label and originating from a state with
distance ≤ the singularity state's distance, or an incoming edge with the
singularity label originating from a state different from the singularity
state with distance ≤ the singularity state's distance; and `isUnsafe` is the
negation of `isSafe`. -/
theorem c4_isSafe_iff (h : Heap) (i tid : Nat) (l : String) :
    (isSafe h i tid l = true ↔
      stateLevel h i = 0 ∨
        ∃ p ∈ getIncomingTransitions h i, ∃ parent ∈ p.2,
          (p.1 ≠ l ∧ stateLevel h parent ≤ stateLevel h tid) ∨
          (p.1 = l ∧ parent ≠ tid ∧ stateLevel h parent ≤ stateLevel h tid)) ∧
    isUnsafe h i tid l = !isSafe h i tid l := by
  refine ⟨?_, rfl⟩
  unfold isSafe getIncomingTransitions
  by_cases h0 : stateLevel h i = 0
  · simp [h0]
  · rw [if_neg h0]
    simp only [List.any_eq_true]
    constructor
    · rintro ⟨p, hp, hf⟩
      refine Or.inr ⟨p, hp, ?_⟩
      by_cases hl : p.1 = l
      · rw [if_pos hl] at hf
        rw [List.any_eq_true] at hf
        obtain ⟨parent, hpar, hcond⟩ := hf
        rw [Bool.and_eq_true, decide_eq_true_eq, decide_eq_true_eq] at hcond
        exact ⟨parent, hpar, Or.inr ⟨hl, hcond.1, hcond.2⟩⟩
      · rw [if_neg hl] at hf
        rw [List.any_eq_true] at hf
        obtain ⟨parent, hpar, hcond⟩ := hf
        rw [decide_eq_true_eq] at hcond
        exact ⟨parent, hpar, Or.inl ⟨hl, hcond⟩⟩
    · rintro (h0x | ⟨p, hp, parent, hpar, hcase⟩)
      · exact absurd h0x h0
      · refine ⟨p, hp, ?_⟩
        rcases hcase with ⟨hne, hle⟩ | ⟨heq, hpt, hle⟩
        · rw [if_neg hne, List.any_eq_true]
          exact ⟨parent, hpar, by rw [decide_eq_true_eq]; exact hle⟩
        · rw [if_pos heq, List.any_eq_true]
          refine ⟨parent, hpar, ?_⟩
          rw [Bool.and_eq_true, decide_eq_true_eq, decide_eq_true_eq]
          exact ⟨hpt, hle⟩

/-! ## Claim C10 -/

/-- Claim C10: `Automaton::removeState(s)` returns true unconditionally, and
when `s` is not a member of the automaton the state collection is left
unchanged (only `s`'s own transitions are detached). -/
theorem c10_removeState_returns_true (bidir : Bool) (h : Heap) (a : Automaton)
    (s : Nat) :
    (removeState bidir h a s).2.2 = true ∧
    (s ∉ a.members → (removeState bidir h a s).2.1.members = a.members) := by
  refine ⟨rfl, fun hs => ?_⟩
  show idErase s a.members = a.members
  unfold idErase
  refine List.filter_eq_self.mpr (fun x hx => ?_)
  rw [decide_eq_true_eq]
  rintro rfl
  exact hs hx

/-- Witness for claim C10 at a concrete input: removing a non-member state
from a one-state automaton reports success and leaves the collection
unchanged. -/
theorem c10_removeState_returns_true_witness :
    (removeState false ⟨[], 0⟩ ⟨[1], none⟩ 0).2.2 = true ∧
    (removeState false ⟨[], 0⟩ ⟨[1], none⟩ 0).2.1.members = [1] :=
  ⟨(c10_removeState_returns_true false ⟨[], 0⟩ ⟨[1], none⟩ 0).1,
   (c10_removeState_returns_true false ⟨[], 0⟩ ⟨[1], none⟩ 0).2 (by decide)⟩

lemma strcmp_neg_iff (a b : String) : strcmp a b < 0 ↔ a < b := by
  unfold strcmp
  rcases lt_trichotomy a b with hab | hab | hab
  · simp [hab]
  · simp [hab, lt_irrefl]
  · rw [if_neg (asymm hab), if_pos hab]
    simp [not_lt.mpr (le_of_lt hab)]

lemma strcmp_zero_iff (a b : String) : strcmp a b = 0 ↔ a = b := by
  unfold strcmp
  rcases lt_trichotomy a b with hab | hab | hab
  · simp [hab, ne_of_lt hab]
  · simp [hab, lt_irrefl]
  · rw [if_neg (asymm hab), if_pos hab]
    simp [(ne_of_lt hab).symm]

/-! ## Claim C8 -/

/-- Counterexample for claim C8: with distances `0` and `2^31` (both
representable `unsigned int` values), the wrapped subtraction in
`Singularity::compare` makes each singularity compare strictly below the
other, so `operator<` is not asymmetric and hence not a total order that
sorts primarily by distance. -/
theorem c8_counterexample :
    Singularity.lt ⟨"a", 0, "x"⟩ ⟨"a", 2 ^ 31, "x"⟩ ∧
    Singularity.lt ⟨"a", 2 ^ 31, "x"⟩ ⟨"a", 0, "x"⟩ := by
  constructor <;> · show Singularity.compare _ _ < 0; decide

/-- Claim C8 (amended): restricted to singularities whose state distances are
below `2^31` (so that the unsigned subtraction cannot wrap — in particular all
distances actually arising, which are bounded by the state count or by
`DEFAULT_VOID_LEVEL = 2^30`), `Singularity::compare` implements the total
order that sorts primarily by the state's distance, then by the state's name,
then by the label: `compare` is negative exactly on the lexicographic strict
order, zero exactly on equality, and any two singularities are comparable;
moreover `SingularityList::pop` removes and returns the least singularity of
a non-empty ordered list. -/
theorem c8_compare_total_order_and_pop :
    (∀ s t : Singularity, s.stateDistance < 2 ^ 31 → t.stateDistance < 2 ^ 31 →
      ((s.compare t < 0 ↔ singKeyLt s t) ∧ (s.compare t = 0 ↔ s = t))) ∧
    (∀ s t : Singularity, s = t ∨ singKeyLt s t ∨ singKeyLt t s) ∧
    (∀ (m : Singularity) (rest : List Singularity),
      (m :: rest).Pairwise Singularity.lt →
      SingularityList.pop (m :: rest) = (some m, rest) ∧
      ∀ x ∈ m :: rest, m = x ∨ Singularity.lt m x) := by
  refine ⟨fun s t hs ht => ?_, fun s t => ?_, fun m rest hsort => ?_⟩
  · have hs32 : s.stateDistance % 2 ^ 32 = s.stateDistance :=
      Nat.mod_eq_of_lt (lt_trans hs (by norm_num))
    have ht32 : t.stateDistance % 2 ^ 32 = t.stateDistance :=
      Nat.mod_eq_of_lt (lt_trans ht (by norm_num))
    unfold Singularity.compare
    rw [hs32, ht32]
    by_cases hd : s.stateDistance = t.stateDistance
    · rw [if_pos hd]
      by_cases hn : s.stateName = t.stateName
      · rw [if_pos hn]
        constructor
        · rw [strcmp_neg_iff]
          unfold singKeyLt
          constructor
          · intro hl; exact Or.inr ⟨hd, Or.inr ⟨hn, hl⟩⟩
          · rintro (hlt | ⟨-, hrest⟩)
            · exact absurd hd (ne_of_lt hlt)
            · rcases hrest with hname | ⟨-, hl⟩
              · exact absurd hn (ne_of_lt hname)
              · exact hl
        · rw [strcmp_zero_iff]
          constructor
          · intro hl
            cases s; cases t
            simp_all
          · intro he; rw [he]
      · rw [if_neg hn]
        constructor
        · rw [strcmp_neg_iff]
          unfold singKeyLt
          constructor
          · intro hname; exact Or.inr ⟨hd, Or.inl hname⟩
          · rintro (hlt | ⟨-, hname | ⟨hne, -⟩⟩)
            · exact absurd hd (ne_of_lt hlt)
            · exact hname
            · exact absurd hne hn
        · rw [strcmp_zero_iff]
          constructor
          · intro he; exact absurd he hn
          · intro he; rw [he] at hn; exact absurd rfl hn
    · rw [if_neg hd]
      unfold toInt32
      constructor
      · unfold singKeyLt
        constructor
        · intro hcmp
          by_cases hlt : s.stateDistance < t.stateDistance
          · exact Or.inl hlt
          · exfalso
            revert hcmp
            have h1 : s.stateDistance + (2 ^ 32 - t.stateDistance) =
                2 ^ 32 + (s.stateDistance - t.stateDistance) := by omega
            rw [h1]
            have h2 : (2 ^ 32 + (s.stateDistance - t.stateDistance)) % 2 ^ 32 =
                s.stateDistance - t.stateDistance := by omega
            rw [h2, if_pos (by omega)]
            omega
        · rintro (hlt | ⟨he, -⟩)
          · have h1 : (s.stateDistance + (2 ^ 32 - t.stateDistance)) % 2 ^ 32 =
                s.stateDistance + (2 ^ 32 - t.stateDistance) := by omega
            rw [h1, if_neg (by omega)]
            have : (2 : Int) ^ 32 = ((2 ^ 32 : Nat) : Int) := by norm_num
            omega
          · exact absurd he hd
      · constructor
        · intro hcmp
          exfalso
          by_cases hlt : s.stateDistance < t.stateDistance
          · have h1 : (s.stateDistance + (2 ^ 32 - t.stateDistance)) % 2 ^ 32 =
                s.stateDistance + (2 ^ 32 - t.stateDistance) := by omega
            rw [h1, if_neg (by omega)] at hcmp
            omega
          · have h1 : s.stateDistance + (2 ^ 32 - t.stateDistance) =
                2 ^ 32 + (s.stateDistance - t.stateDistance) := by omega
            rw [h1] at hcmp
            have h2 : (2 ^ 32 + (s.stateDistance - t.stateDistance)) % 2 ^ 32 =
                s.stateDistance - t.stateDistance := by omega
            rw [h2, if_pos (by omega)] at hcmp
            omega
        · intro he
          cases s; cases t
          simp_all
  · by_cases hd : s.stateDistance = t.stateDistance
    · by_cases hn : s.stateName = t.stateName
      · rcases lt_trichotomy s.label t.label with hl | hl | hl
        · exact Or.inr (Or.inl (Or.inr ⟨hd, Or.inr ⟨hn, hl⟩⟩))
        · left; cases s; cases t; simp_all
        · exact Or.inr (Or.inr (Or.inr ⟨hd.symm, Or.inr ⟨hn.symm, hl⟩⟩))
      · rcases lt_trichotomy s.stateName t.stateName with hnl | hnl | hnl
        · exact Or.inr (Or.inl (Or.inr ⟨hd, Or.inl hnl⟩))
        · exact absurd hnl hn
        · exact Or.inr (Or.inr (Or.inr ⟨hd.symm, Or.inl hnl⟩))
    · rcases Nat.lt_or_ge s.stateDistance t.stateDistance with hlt | hge
      · exact Or.inr (Or.inl (Or.inl hlt))
      · exact Or.inr (Or.inr (Or.inl (by omega)))
  · refine ⟨rfl, fun x hx => ?_⟩
    rcases List.mem_cons.mp hx with rfl | hx
    · exact Or.inl rfl
    · exact Or.inr ((List.pairwise_cons.mp hsort).1 x hx)

/-- Witness for claim C8 at concrete inputs: two singularities with small
distances compare as the lexicographic order dictates, and `pop` on a
two-element ordered list returns the least element. -/
theorem c8_compare_total_order_and_pop_witness :
    (Singularity.compare ⟨"a", 1, "b"⟩ ⟨"a", 2, "b"⟩ < 0 ↔
      singKeyLt ⟨"a", 1, "b"⟩ ⟨"a", 2, "b"⟩) ∧
    (SingularityList.pop [⟨"a", 1, "b"⟩, ⟨"a", 2, "b"⟩] =
      (some ⟨"a", 1, "b"⟩, [⟨"a", 2, "b"⟩])) :=
  ⟨(c8_compare_total_order_and_pop.1 ⟨"a", 1, "b"⟩ ⟨"a", 2, "b"⟩ (by decide)
      (by decide)).1,
   (c8_compare_total_order_and_pop.2.2 ⟨"a", 1, "b"⟩ [⟨"a", 2, "b"⟩]
      (by constructor
          · intro x hx
            rcases List.mem_singleton.mp hx with rfl
            show Singularity.compare _ _ < 0
            decide
          · exact List.pairwise_singleton _ _)).1⟩

/-! ## Epsilon-closure lemmas (towards claim C9) -/

lemma getChildren_closed {h : Heap} (hcc : childrenClosed h) (i : Nat)
    (l : String) : ∀ c ∈ getChildren h i l, c ∈ h.dom := by
  intro c hc
  unfold getChildren at hc
  rcases hfind : h.find? i with - | sd
  · rw [hfind] at hc
    exact absurd hc (List.not_mem_nil c)
  · rw [hfind] at hc
    have hc2 : c ∈ tmGet sd.exiting l := hc
    unfold Heap.find? at hfind
    rcases Option.map_eq_some'.mp hfind with ⟨e, he, hesd⟩
    have hemem := List.mem_of_find?_eq_some he
    unfold tmGet at hc2
    rcases hq : sd.exiting.find? (fun q => q.1 = l) with - | q
    · rw [hq] at hc2
      exact absurd hc2 (List.not_mem_nil c)
    · rw [hq] at hc2
      have hc3 : c ∈ q.2 := hc2
      have hqmem := List.mem_of_find?_eq_some hq
      rw [← hesd] at hqmem
      exact (hcc e hemem).1 q hqmem c hc3

lemma namePresent_iff {h : Heap} {ext : List Nat} {n : String} :
    namePresent h ext n = true ↔ ∃ j ∈ ext, stateName h j = n := by
  unfold namePresent
  simp [List.any_eq_true]

lemma namePresent_mono {h : Heap} {ext ext' : List Nat} {n : String}
    (hsub : ∀ x ∈ ext, x ∈ ext') (hp : namePresent h ext n = true) :
    namePresent h ext' n = true := by
  rw [namePresent_iff] at hp ⊢
  rcases hp with ⟨j, hj, hn⟩
  exact ⟨j, hsub j hj, hn⟩

lemma mem_extSortedInsert {h : Heap} {i x : Nat} :
    ∀ {ext : List Nat}, (x ∈ extSortedInsert h i ext ↔ x = i ∨ x ∈ ext) := by
  intro ext
  induction ext with
  | nil =>
    show x ∈ [i] ↔ x = i ∨ x ∈ ([] : List Nat)
    simp
  | cons j rest ih =>
    unfold extSortedInsert
    split
    · simp
    · simp only [List.mem_cons, ih]
      tauto

lemma extInsert_present {h : Heap} {ext : List Nat} {i : Nat}
    (hp : namePresent h ext (stateName h i) = true) :
    extInsert h ext i = (ext, false) := by
  unfold extInsert
  rw [if_pos hp]

lemma extInsert_absent {h : Heap} {ext : List Nat} {i : Nat}
    (hp : ¬ namePresent h ext (stateName h i) = true) :
    extInsert h ext i = (extSortedInsert h i ext, true) := by
  unfold extInsert
  rw [if_neg hp]

lemma extInsertAll_cons_present {h : Heap} {ext : List Nat} {c : Nat}
    (cs : List Nat) (hp : namePresent h ext (stateName h c) = true) :
    extInsertAll h ext (c :: cs) = extInsertAll h ext cs := by
  show (let r := extInsert h ext c
        let rest := extInsertAll h r.1 cs
        if r.2 then (rest.1, c :: rest.2) else rest) = _
  rw [extInsert_present hp]
  rfl

lemma extInsertAll_cons_absent {h : Heap} {ext : List Nat} {c : Nat}
    (cs : List Nat) (hp : ¬ namePresent h ext (stateName h c) = true) :
    extInsertAll h ext (c :: cs) =
      ((extInsertAll h (extSortedInsert h c ext) cs).1,
        c :: (extInsertAll h (extSortedInsert h c ext) cs).2) := by
  show (let r := extInsert h ext c
        let rest := extInsertAll h r.1 cs
        if r.2 then (rest.1, c :: rest.2) else rest) = _
  rw [extInsert_absent hp]
  rfl

lemma extInsertAll_spec (h : Heap) : ∀ (cs ext : List Nat),
    (∀ x ∈ ext, x ∈ (extInsertAll h ext cs).1) ∧
    (∀ x ∈ (extInsertAll h ext cs).1, x ∈ ext ∨ x ∈ (extInsertAll h ext cs).2) ∧
    (∀ x ∈ (extInsertAll h ext cs).2,
      x ∈ (extInsertAll h ext cs).1 ∧ x ∈ cs) ∧
    (∀ n, namePresent h ext n = true →
      namePresent h (extInsertAll h ext cs).1 n = true) ∧
    (∀ c ∈ cs, namePresent h (extInsertAll h ext cs).1 (stateName h c) = true) := by
  intro cs
  induction cs with
  | nil =>
    intro ext
    exact ⟨fun x hx => hx, fun x hx => Or.inl hx,
      fun x hx => absurd hx (List.not_mem_nil x),
      fun n hn => hn, fun c hc => absurd hc (List.not_mem_nil c)⟩
  | cons c cs ih =>
    intro ext
    by_cases hp : namePresent h ext (stateName h c) = true
    · rw [extInsertAll_cons_present cs hp]
      obtain ⟨i1, i2, i3, i4, i5⟩ := ih ext
      exact ⟨i1, i2, fun x hx => ⟨(i3 x hx).1, List.mem_cons_of_mem _ (i3 x hx).2⟩,
        i4, fun d hd => by
          rcases List.mem_cons.mp hd with rfl | hd2
          · exact i4 _ hp
          · exact i5 d hd2⟩
    · rw [extInsertAll_cons_absent cs hp]
      obtain ⟨i1, i2, i3, i4, i5⟩ := ih (extSortedInsert h c ext)
      have hsub : ∀ x ∈ ext, x ∈ extSortedInsert h c ext := fun x hx =>
        mem_extSortedInsert.mpr (Or.inr hx)
      have hcmem : c ∈ extSortedInsert h c ext := mem_extSortedInsert.mpr (Or.inl rfl)
      have hcpres : namePresent h (extSortedInsert h c ext) (stateName h c) =
          true := namePresent_iff.mpr ⟨c, hcmem, rfl⟩
      refine ⟨fun x hx => i1 x (hsub x hx), ?_, ?_, ?_, ?_⟩
      · intro x hx
        rcases i2 x hx with hx2 | hx2
        · rcases mem_extSortedInsert.mp hx2 with rfl | hx3
          · exact Or.inr (List.mem_cons_self _ _)
          · exact Or.inl hx3
        · exact Or.inr (List.mem_cons_of_mem _ hx2)
      · intro x hx
        rcases List.mem_cons.mp hx with rfl | hx2
        · exact ⟨i1 x hcmem, List.mem_cons_self _ _⟩
        · exact ⟨(i3 x hx2).1, List.mem_cons_of_mem _ (i3 x hx2).2⟩
      · intro n hn
        exact i4 n (namePresent_mono hsub hn)
      · intro d hd
        rcases List.mem_cons.mp hd with rfl | hd2
        · exact i4 _ hcpres
        · exact i5 d hd2

lemma filter_sublist_of_imp {α : Type} (p q : α → Bool)
    (hpq : ∀ a, q a = true → p a = true) :
    ∀ l : List α, List.Sublist (l.filter q) (l.filter p) := by
  intro l
  induction l with
  | nil => simp
  | cons a l ih =>
    by_cases hq : q a = true
    · rw [List.filter_cons_of_pos hq, List.filter_cons_of_pos (hpq a hq)]
      exact ih.cons₂ a
    · rw [List.filter_cons_of_neg (by simpa using hq)]
      by_cases hpa : p a = true
      · rw [List.filter_cons_of_pos hpa]
        exact ih.cons a
      · rw [List.filter_cons_of_neg (by simpa using hpa)]
        exact ih

lemma unseen_pred_imp (h : Heap) {ext ext' : List Nat}
    (hsub : ∀ x ∈ ext, x ∈ ext') :
    ∀ a : Nat × StateData,
      (!(namePresent h ext' a.2.name)) = true →
      (!(namePresent h ext a.2.name)) = true := by
  intro a ha
  rw [Bool.not_eq_true'] at ha ⊢
  cases hb : namePresent h ext a.2.name
  · rfl
  · have hmono := namePresent_mono hsub hb
    rw [hmono] at ha
    exact Bool.noConfusion ha

lemma unseen_mono (h : Heap) {ext ext' : List Nat}
    (hsub : ∀ x ∈ ext, x ∈ ext') : unseen h ext' ≤ unseen h ext :=
  List.Sublist.length_le (filter_sublist_of_imp _ _ (unseen_pred_imp h hsub) h.states)

lemma stateName_entry {h : Heap} {i : Nat} (hdom : i ∈ h.dom) :
    ∃ e ∈ h.states, e.1 = i ∧ e.2.name = stateName h i := by
  rcases hf : h.states.find? (fun p => p.1 = i) with - | e
  · exfalso
    rcases List.mem_map.mp hdom with ⟨e, he, hei⟩
    have := List.find?_eq_none.mp hf e he
    simp [hei] at this
  · have hmem := List.mem_of_find?_eq_some hf
    have hei : e.1 = i := by simpa using List.find?_some hf
    refine ⟨e, hmem, hei, ?_⟩
    unfold stateName Heap.find?
    rw [hf]
    rfl

lemma unseen_strict (h : Heap) {ext ext' : List Nat}
    (hsub : ∀ x ∈ ext, x ∈ ext') {i : Nat} (hdom : i ∈ h.dom)
    (habs : ¬ namePresent h ext (stateName h i) = true)
    (hpres : namePresent h ext' (stateName h i) = true) :
    unseen h ext' < unseen h ext := by
  have hsl := filter_sublist_of_imp _ _ (unseen_pred_imp h hsub) h.states
  unfold unseen
  refine Nat.lt_of_le_of_ne (List.Sublist.length_le hsl) (fun heq => ?_)
  have hlists := hsl.eq_of_length heq
  rcases stateName_entry hdom with ⟨e, he, -, hname⟩
  have habs2 : namePresent h ext (stateName h i) = false := by
    cases hb : namePresent h ext (stateName h i)
    · rfl
    · exact absurd hb habs
  have hein : e ∈ h.states.filter (fun p => !(namePresent h ext p.2.name)) :=
    List.mem_filter.mpr ⟨he, by rw [hname, habs2]; rfl⟩
  rw [← hlists] at hein
  have hein2 := (List.mem_filter.mp hein).2
  rw [hname, hpres] at hein2
  exact Bool.noConfusion hein2

lemma extInsertAll_unseen (h : Heap) : ∀ (cs ext : List Nat),
    (∀ c ∈ cs, c ∈ h.dom) →
    unseen h (extInsertAll h ext cs).1 + (extInsertAll h ext cs).2.length ≤
      unseen h ext := by
  intro cs
  induction cs with
  | nil =>
    intro ext _
    show unseen h ext + ([] : List Nat).length ≤ unseen h ext
    simp
  | cons c cs ih =>
    intro ext hdom
    by_cases hp : namePresent h ext (stateName h c) = true
    · rw [extInsertAll_cons_present cs hp]
      exact ih ext (fun d hd => hdom d (List.mem_cons_of_mem _ hd))
    · rw [extInsertAll_cons_absent cs hp]
      have hsub : ∀ x ∈ ext, x ∈ extSortedInsert h c ext := fun x hx =>
        mem_extSortedInsert.mpr (Or.inr hx)
      have hstrict : unseen h (extSortedInsert h c ext) < unseen h ext :=
        unseen_strict h hsub (hdom c (List.mem_cons_self _ _)) hp
          (namePresent_iff.mpr ⟨c, mem_extSortedInsert.mpr (Or.inl rfl), rfl⟩)
      have hih := ih (extSortedInsert h c ext)
        (fun d hd => hdom d (List.mem_cons_of_mem _ hd))
      simp only [List.length_cons]
      omega

lemma epsAux_spec (h : Heap) (hcc : childrenClosed h) :
    ∀ (fuel : Nat) (result queue : List Nat),
      2 * unseen h result + queue.length + 1 ≤ fuel →
      (∀ y ∈ result, y ∈ queue ∨ coveredAt h result y) →
      (epsAux h fuel result queue).2 = [] ∧
      ClosedUnder h (epsAux h fuel result queue).1 ∧
      ∀ x ∈ result, x ∈ (epsAux h fuel result queue).1 := by
  intro fuel
  induction fuel with
  | zero => intro result queue hf _; omega
  | succ n ih =>
    intro result queue hf hinv
    match queue with
    | [] =>
      refine ⟨rfl, ?_, fun x hx => hx⟩
      intro y hy
      rcases hinv y hy with hq | hcov
      · cases hq
      · exact hcov
    | cur :: rest =>
      have hstep : epsAux h (n + 1) result (cur :: rest) =
          epsAux h n (extInsertAll h result (getChildren h cur EPSILON)).1
            (rest ++ (extInsertAll h result (getChildren h cur EPSILON)).2) := rfl
      rw [hstep]
      obtain ⟨f1, f2, f3, f4, f5⟩ :=
        extInsertAll_spec h (getChildren h cur EPSILON) result
      have hunseen := extInsertAll_unseen h (getChildren h cur EPSILON) result
        (getChildren_closed hcc cur EPSILON)
      have hfuel : 2 * unseen h (extInsertAll h result (getChildren h cur EPSILON)).1 +
          (rest ++ (extInsertAll h result (getChildren h cur EPSILON)).2).length + 1 ≤ n := by
        rw [List.length_append]
        simp only [List.length_cons] at hf
        omega
      have hinv2 : ∀ y ∈ (extInsertAll h result (getChildren h cur EPSILON)).1,
          y ∈ rest ++ (extInsertAll h result (getChildren h cur EPSILON)).2 ∨
          coveredAt h (extInsertAll h result (getChildren h cur EPSILON)).1 y := by
        intro y hy
        rcases f2 y hy with hy2 | hy2
        · rcases hinv y hy2 with hq | hcov
          · rcases List.mem_cons.mp hq with rfl | hq2
            · exact Or.inr (fun c hc => f5 c hc)
            · exact Or.inl (List.mem_append_left _ hq2)
          · exact Or.inr (fun c hc => f4 _ (hcov c hc))
        · exact Or.inl (List.mem_append_right _ hy2)
      obtain ⟨g1, g2, g3⟩ := ih _ _ hfuel hinv2
      exact ⟨g1, g2, fun x hx => g3 x (f1 x hx)⟩

lemma extInsertAll_no_op (h : Heap) : ∀ (cs ext : List Nat),
    (∀ c ∈ cs, namePresent h ext (stateName h c) = true) →
    extInsertAll h ext cs = (ext, []) := by
  intro cs
  induction cs with
  | nil => intro ext _; rfl
  | cons c cs ih =>
    intro ext hp
    rw [extInsertAll_cons_present cs (hp c (List.mem_cons_self _ _))]
    exact ih ext (fun d hd => hp d (List.mem_cons_of_mem _ hd))

lemma epsAux_no_op (h : Heap) : ∀ (queue : List Nat) (fuel : Nat)
    (result : List Nat), ClosedUnder h result →
    (∀ x ∈ queue, x ∈ result) → queue.length + 1 ≤ fuel →
    epsAux h fuel result queue = (result, []) := by
  intro queue
  induction queue with
  | nil =>
    intro fuel result _ _ hf
    match fuel, hf with
    | n + 1, _ => rfl
  | cons cur rest ih =>
    intro fuel result hcl hq hf
    match fuel, hf with
    | n + 1, hf =>
      have hno : extInsertAll h result (getChildren h cur EPSILON) = (result, []) :=
        extInsertAll_no_op h _ _ (hcl cur (hq cur (List.mem_cons_self _ _)))
      have hstep : epsAux h (n + 1) result (cur :: rest) =
          epsAux h n (extInsertAll h result (getChildren h cur EPSILON)).1
            (rest ++ (extInsertAll h result (getChildren h cur EPSILON)).2) := rfl
      rw [hstep, hno, List.append_nil]
      exact ih n result hcl (fun x hx => hq x (List.mem_cons_of_mem _ hx))
        (by simp only [List.length_cons] at hf; omega)

/-! ## Claim C9 -/

/-- Claim C9: `ConstructedState::computeEpsilonClosure` is idempotent — for
every extension `X` over an arena whose transitions stay inside the arena
(as C++ pointer graphs always do), closing the closure returns the closure
unchanged. -/
theorem c9_computeEpsilonClosure_idempotent (h : Heap) (X : List Nat)
    (hcc : childrenClosed h) :
    computeEpsilonClosure h (computeEpsilonClosure h X) =
      computeEpsilonClosure h X := by
  have hN : unseen h X ≤ h.states.length := List.length_filter_le _ _
  obtain ⟨-, hclosed, -⟩ := epsAux_spec h hcc (epsFuel h X.length) X X
    (by unfold epsFuel; omega) (fun y hy => Or.inl hy)
  show computeEpsilonClosure h ((epsAux h (epsFuel h X.length) X X).1) = _
  unfold computeEpsilonClosure
  rw [epsAux_no_op h _ _ _ hclosed (fun x hx => hx) (by unfold epsFuel; omega)]

/-- Witness for claim C9 at a concrete input: a two-state arena with an
epsilon transition `0 → 1`; the closure of `[0]` is `[0, 1]` and closing
again is the identity. -/
theorem c9_computeEpsilonClosure_idempotent_witness :
    computeEpsilonClosure
        ⟨[(0, { name := "q0", final := false, level := 0, mark := false,
                extension := [], exiting := [("", [1])], incoming := [] }),
          (1, { name := "q1", final := true, level := 1, mark := false,
                extension := [], exiting := [], incoming := [] })], 2⟩
        (computeEpsilonClosure
          ⟨[(0, { name := "q0", final := false, level := 0, mark := false,
                  extension := [], exiting := [("", [1])], incoming := [] }),
            (1, { name := "q1", final := true, level := 1, mark := false,
                  extension := [], exiting := [], incoming := [] })], 2⟩ [0]) =
      computeEpsilonClosure
        ⟨[(0, { name := "q0", final := false, level := 0, mark := false,
                extension := [], exiting := [("", [1])], incoming := [] }),
          (1, { name := "q1", final := true, level := 1, mark := false,
                extension := [], exiting := [], incoming := [] })], 2⟩ [0] :=
  c9_computeEpsilonClosure_idempotent _ [0] (by decide)

/-! ## Distance-relocation lemmas (towards claim C7) -/

lemma assocSet_decomp {i : Nat} {e : Nat × StateData} :
    ∀ {l : List (Nat × StateData)}, l.find? (fun p => p.1 = i) = some e →
    ∀ sd', ∃ l1 l2, l = l1 ++ e :: l2 ∧
      assocSet i sd' l = l1 ++ (i, sd') :: l2 ∧ e.1 = i := by
  intro l
  induction l with
  | nil => intro hf; simp [List.find?] at hf
  | cons p rest ih =>
    intro hf sd'
    by_cases hp : p.1 = i
    · rw [List.find?_cons_of_pos _ (by simpa using hp)] at hf
      obtain rfl : p = e := by injection hf
      refine ⟨[], rest, by simp, ?_, hp⟩
      show assocSet i sd' (p :: rest) = (i, sd') :: rest
      unfold assocSet
      rw [if_pos hp]
    · rw [List.find?_cons_of_neg _ (by simpa using hp)] at hf
      obtain ⟨l1, l2, heq, hset, hei⟩ := ih hf sd'
      refine ⟨p :: l1, l2, by simp [heq], ?_, hei⟩
      show assocSet i sd' (p :: rest) = p :: (l1 ++ (i, sd') :: l2)
      unfold assocSet
      rw [if_neg hp, hset]

lemma setLevel_none {h : Heap} {i : Nat} (hf : h.find? i = none) (v : Nat) :
    setLevel h i v = h := by
  unfold setLevel
  rw [hf]

lemma allChildren_none {h : Heap} {i : Nat} (hf : h.find? i = none) :
    allChildren h i = [] := by
  unfold allChildren getExitingTransitions
  rw [hf]
  rfl

lemma stateLevel_of_find? {h : Heap} {i : Nat} {sd : StateData}
    (hf : h.find? i = some sd) : stateLevel h i = sd.level := by
  unfold stateLevel
  rw [hf]
  rfl

lemma setLevel_sum_edges {h : Heap} {i : Nat} {sd : StateData}
    (hf : h.find? i = some sd) (v : Nat) :
    heapLevelSum (setLevel h i v) + sd.level = heapLevelSum h + v ∧
    heapEdges (setLevel h i v) = heapEdges h := by
  have hfind := hf
  unfold Heap.find? at hfind
  rcases Option.map_eq_some'.mp hfind with ⟨e, he, hesd⟩
  obtain ⟨l1, l2, heq, hset, -⟩ := assocSet_decomp he { sd with level := v }
  have hsl : setLevel h i v =
      { h with states := assocSet i { sd with level := v } h.states } := by
    unfold setLevel
    rw [hf]
    rfl
  rw [hsl]
  constructor
  · show ((assocSet i { sd with level := v } h.states).map (fun p => p.2.level)).sum
        + sd.level = (h.states.map (fun p => p.2.level)).sum + v
    rw [hset, heq]
    simp only [List.map_append, List.sum_append, List.map_cons, List.sum_cons]
    rw [← hesd]
    omega
  · show ((assocSet i { sd with level := v } h.states).map
          (fun p => (p.2.exiting.map (·.2.length)).sum)).sum =
        (h.states.map (fun p => (p.2.exiting.map (·.2.length)).sum)).sum
    rw [hset, heq]
    simp only [List.map_append, List.sum_append, List.map_cons, List.sum_cons]
    rw [← hesd]

lemma foldl_append_length (m : List (String × List Nat)) :
    ∀ acc : List Nat,
      (m.foldl (fun a p => a ++ p.2) acc).length =
        acc.length + (m.map (·.2.length)).sum := by
  induction m with
  | nil => intro acc; simp
  | cons p rest ih =>
    intro acc
    show (rest.foldl (fun a p => a ++ p.2) (acc ++ p.2)).length = _
    rw [ih (acc ++ p.2)]
    simp
    omega

lemma allChildren_length_le (h : Heap) (i : Nat) :
    (allChildren h i).length ≤ heapEdges h := by
  unfold allChildren getExitingTransitions
  rcases hf : h.find? i with - | sd
  · exact Nat.zero_le _
  · show ((sd.exiting).foldl (fun a p => a ++ p.2) []).length ≤ heapEdges h
    rw [foldl_append_length]
    simp only [List.length_nil, Nat.zero_add]
    unfold Heap.find? at hf
    rcases Option.map_eq_some'.mp hf with ⟨e, he, hesd⟩
    unfold heapEdges
    have hmem : (sd.exiting.map (·.2.length)).sum ∈
        h.states.map (fun p => (p.2.exiting.map (·.2.length)).sum) := by
      refine List.mem_map.mpr ⟨e, List.mem_of_find?_eq_some he, ?_⟩
      rw [hesd]
    exact List.single_le_sum (fun x _ => Nat.zero_le x) _ hmem

lemma relocAux_cons_pos {h : Heap} {cur : Nat} {cand : Int}
    {rest : List (Nat × Int)} {n : Nat}
    (hg : stateLevel h cur > u32 cand) :
    relocAux (n + 1) h ((cur, cand) :: rest) =
      relocAux n (setLevel h cur (u32 cand))
        (rest ++ (allChildren (setLevel h cur (u32 cand)) cur).map
          (fun c => (c, cand + 1))) := by
  show (if stateLevel h cur > u32 cand then
          relocAux n (setLevel h cur (u32 cand))
            (rest ++ (allChildren (setLevel h cur (u32 cand)) cur).map
              (fun c => (c, cand + 1)))
        else relocAux n h rest) = _
  rw [if_pos hg]

lemma relocAux_cons_neg {h : Heap} {cur : Nat} {cand : Int}
    {rest : List (Nat × Int)} {n : Nat}
    (hg : ¬ stateLevel h cur > u32 cand) :
    relocAux (n + 1) h ((cur, cand) :: rest) = relocAux n h rest := by
  show (if stateLevel h cur > u32 cand then
          relocAux n (setLevel h cur (u32 cand))
            (rest ++ (allChildren (setLevel h cur (u32 cand)) cur).map
              (fun c => (c, cand + 1)))
        else relocAux n h rest) = _
  rw [if_neg hg]

lemma relocAux_drains : ∀ (fuel : Nat) (h : Heap) (queue : List (Nat × Int)),
    (heapEdges h + 1) * heapLevelSum h + queue.length + 1 ≤ fuel →
    (relocAux fuel h queue).2 = [] := by
  intro fuel
  induction fuel with
  | zero => intro h queue hf; omega
  | succ n ih =>
    intro h queue hf
    match queue with
    | [] => rfl
    | (cur, cand) :: rest =>
      by_cases hg : stateLevel h cur > u32 cand
      · rw [relocAux_cons_pos hg]
        rcases hfind : h.find? cur with - | sd
        · rw [setLevel_none hfind] at *
          rw [allChildren_none hfind]
          simp only [List.map_nil, List.append_nil]
          refine ih h rest ?_
          simp only [List.length_cons] at hf
          omega
        · obtain ⟨hsum, hedges⟩ := setLevel_sum_edges hfind (u32 cand)
          have hlev := stateLevel_of_find? hfind
          have hpush := allChildren_length_le (setLevel h cur (u32 cand)) cur
          rw [hedges] at hpush
          refine ih _ _ ?_
          rw [hedges, List.length_append, List.length_map]
          simp only [List.length_cons] at hf
          have hS2 : heapLevelSum (setLevel h cur (u32 cand)) + 1 ≤
              heapLevelSum h := by omega
          have hmul : (heapEdges h + 1) *
              heapLevelSum (setLevel h cur (u32 cand)) + (heapEdges h + 1) ≤
              (heapEdges h + 1) * heapLevelSum h := by
            calc (heapEdges h + 1) * heapLevelSum (setLevel h cur (u32 cand)) +
                  (heapEdges h + 1)
                = (heapEdges h + 1) *
                    (heapLevelSum (setLevel h cur (u32 cand)) + 1) := by ring
              _ ≤ (heapEdges h + 1) * heapLevelSum h :=
                  Nat.mul_le_mul_left _ hS2
          omega
      · rw [relocAux_cons_neg hg]
        refine ih h rest ?_
        simp only [List.length_cons] at hf
        omega

/-! ## Claim C7 -/

/-- Claim C7: `QuickSubsetConstruction::runDistanceRelocation` terminates on
every arena and every input list of (state, candidateDistance) pairs: the
loop — which sets a state's distance to the candidate only when the candidate
is strictly smaller and then enqueues every child with `candidate + 1` — always
empties its queue (within the explicitly computed fuel `relocFuel`, so
`runDistanceRelocation` returns after finitely many iterations). -/
theorem c7_runDistanceRelocation_terminates (h : Heap) (l : List (Nat × Int)) :
    (relocAux (relocFuel h l) h l).2 = [] :=
  relocAux_drains (relocFuel h l) h l (by unfold relocFuel; exact Nat.le_refl _)

/-! ## Read-after-write lemmas for the arena (towards claim C6) -/

lemma assocSet_find?_self {i : Nat} (sd : StateData) :
    ∀ l : List (Nat × StateData), (l.find? (fun p => p.1 = i)).isSome →
      (assocSet i sd l).find? (fun p => p.1 = i) = some (i, sd) := by
  intro l
  induction l with
  | nil => intro hf; simp [List.find?] at hf
  | cons p rest ih =>
    intro hf
    by_cases hp : p.1 = i
    · show (if p.1 = i then (i, sd) :: rest
            else p :: assocSet i sd rest).find? (fun p => p.1 = i) = _
      rw [if_pos hp]
      exact List.find?_cons_of_pos _ (by simp)
    · show (if p.1 = i then (i, sd) :: rest
            else p :: assocSet i sd rest).find? (fun p => p.1 = i) = _
      rw [if_neg hp, List.find?_cons_of_neg _ (by simpa using hp)]
      refine ih ?_
      rw [List.find?_cons_of_neg _ (by simpa using hp)] at hf
      exact hf

lemma assocSet_find?_other {i j : Nat} (hji : j ≠ i) (sd : StateData) :
    ∀ l : List (Nat × StateData),
      (assocSet i sd l).find? (fun p => p.1 = j) = l.find? (fun p => p.1 = j) := by
  intro l
  induction l with
  | nil => rfl
  | cons p rest ih =>
    by_cases hp : p.1 = i
    · show (if p.1 = i then (i, sd) :: rest
            else p :: assocSet i sd rest).find? (fun p => p.1 = j) = _
      rw [if_pos hp]
      rw [List.find?_cons_of_neg _ (by simp [Ne.symm hji]),
        List.find?_cons_of_neg _ (by simp [hp, Ne.symm hji])]
    · show (if p.1 = i then (i, sd) :: rest
            else p :: assocSet i sd rest).find? (fun p => p.1 = j) = _
      rw [if_neg hp]
      by_cases hpj : p.1 = j
      · rw [List.find?_cons_of_pos _ (by simpa using hpj),
          List.find?_cons_of_pos _ (by simpa using hpj)]
      · rw [List.find?_cons_of_neg _ (by simpa using hpj),
          List.find?_cons_of_neg _ (by simpa using hpj)]
        exact ih

lemma Heap.find?_set_self {h : Heap} {i : Nat} {sd0 : StateData}
    (hf : h.find? i = some sd0) (sd : StateData) :
    (h.set i sd).find? i = some sd := by
  unfold Heap.find? at hf ⊢
  show ((assocSet i sd h.states).find? (fun p => p.1 = i)).map (·.2) = some sd
  rw [assocSet_find?_self sd h.states (by
    rcases Option.map_eq_some'.mp hf with ⟨e, he, -⟩
    rw [he]
    rfl)]
  rfl

lemma Heap.find?_set_other {h : Heap} {i j : Nat} (hji : j ≠ i)
    (sd : StateData) : (h.set i sd).find? j = h.find? j := by
  unfold Heap.find?
  show ((assocSet i sd h.states).find? (fun p => p.1 = j)).map (·.2) = _
  rw [assocSet_find?_other hji sd h.states]

lemma assocSet_none_id {i : Nat} (sd : StateData) :
    ∀ l : List (Nat × StateData), l.find? (fun p => p.1 = i) = none →
      assocSet i sd l = l := by
  intro l
  induction l with
  | nil => intro _; rfl
  | cons p rest ih =>
    intro hnone
    by_cases hp : p.1 = i
    · rw [List.find?_cons_of_pos _ (by simpa using hp)] at hnone
      exact Option.noConfusion hnone
    · rw [List.find?_cons_of_neg _ (by simpa using hp)] at hnone
      show (if p.1 = i then (i, sd) :: rest else p :: assocSet i sd rest) = _
      rw [if_neg hp, ih hnone]

lemma Heap.set_of_none {h : Heap} {i : Nat} (hf : h.find? i = none)
    (sd : StateData) : h.set i sd = h := by
  unfold Heap.find? at hf
  have hnone : h.states.find? (fun p => p.1 = i) = none := by
    rcases hx : h.states.find? (fun p => p.1 = i) with - | e
    · exact hx
    · rw [hx] at hf
      exact Option.noConfusion hf
  show { h with states := assocSet i sd h.states } = h
  rw [assocSet_none_id sd h.states hnone]

lemma getChildren_set_eq (h : Heap) (i : Nat) (sd : StateData)
    (hsome : ∃ sd0, h.find? i = some sd0) (j : Nat) (l : String) :
    getChildren (h.set i sd) j l =
      if j = i then tmGet sd.exiting l else getChildren h j l := by
  rcases hsome with ⟨sd0, hf⟩
  unfold getChildren
  by_cases hji : j = i
  · subst hji
    rw [Heap.find?_set_self hf sd, if_pos rfl]
    rfl
  · rw [Heap.find?_set_other hji sd, if_neg hji]

lemma getParents_set_eq (h : Heap) (i : Nat) (sd : StateData)
    (hsome : ∃ sd0, h.find? i = some sd0) (j : Nat) (l : String) :
    getParents (h.set i sd) j l =
      if j = i then tmGet sd.incoming l else getParents h j l := by
  rcases hsome with ⟨sd0, hf⟩
  unfold getParents
  by_cases hji : j = i
  · subst hji
    rw [Heap.find?_set_self hf sd, if_pos rfl]
    rfl
  · rw [Heap.find?_set_other hji sd, if_neg hji]

lemma mem_idErase {x c : Nat} {lst : List Nat} :
    x ∈ idErase c lst ↔ x ∈ lst ∧ x ≠ c := by
  unfold idErase
  rw [List.mem_filter]
  simp

lemma tmGet_cons (x : String × List Nat) (xs : List (String × List Nat))
    (lq : String) :
    tmGet (x :: xs) lq = if x.1 = lq then x.2 else tmGet xs lq := by
  unfold tmGet
  by_cases hx : x.1 = lq
  · rw [List.find?_cons_of_pos _ (by simpa using hx), if_pos hx]
    rfl
  · rw [List.find?_cons_of_neg _ (by simpa using hx), if_neg hx]

lemma tmGet_tmErase (m : List (String × List Nat)) (l : String) (c : Nat)
    (lq : String) :
    tmGet (tmErase m l c) lq = if lq = l then idErase c (tmGet m lq)
      else tmGet m lq := by
  induction m with
  | nil =>
    show tmGet [] lq = if lq = l then idErase c (tmGet [] lq) else tmGet [] lq
    split <;> rfl
  | cons p rest ih =>
    show tmGet ((if p.1 = l then (p.1, idErase c p.2) else p) :: tmErase rest l c)
        lq = _
    by_cases hpl : p.1 = l
    · rw [if_pos hpl, tmGet_cons]
      by_cases hplq : p.1 = lq
      · rw [if_pos hplq]
        have hlql : lq = l := hplq ▸ hpl
        rw [if_pos hlql, tmGet_cons, if_pos hplq]
      · rw [if_neg hplq, ih, tmGet_cons, if_neg hplq]
    · rw [if_neg hpl, tmGet_cons]
      by_cases hplq : p.1 = lq
      · rw [if_pos hplq]
        have hlql : ¬ lq = l := fun hc => hpl (hplq.trans hc)
        rw [if_neg hlql, tmGet_cons, if_pos hplq]
      · rw [if_neg hplq, ih, tmGet_cons, if_neg hplq]

lemma tmGet_mem_entry {m : List (String × List Nat)} {l : String} {c : Nat}
    (hc : c ∈ tmGet m l) : ∃ q ∈ m, q.1 = l ∧ c ∈ q.2 := by
  unfold tmGet at hc
  rcases hfind : m.find? (fun p => p.1 = l) with - | q
  · rw [hfind] at hc
    exact absurd hc (List.not_mem_nil c)
  · rw [hfind] at hc
    exact ⟨q, List.mem_of_find?_eq_some hfind, by simpa using List.find?_some hfind, hc⟩

lemma getChildren_of_find? {h : Heap} {p : Nat} {sd : StateData}
    (hf : h.find? p = some sd) (lq : String) :
    getChildren h p lq = tmGet sd.exiting lq := by
  unfold getChildren
  rw [hf]
  rfl

lemma getParents_of_find? {h : Heap} {p : Nat} {sd : StateData}
    (hf : h.find? p = some sd) (lq : String) :
    getParents h p lq = tmGet sd.incoming lq := by
  unfold getParents
  rw [hf]
  rfl

lemma getChildren_of_none {h : Heap} {p : Nat} (hf : h.find? p = none)
    (lq : String) : getChildren h p lq = [] := by
  unfold getChildren
  rw [hf]
  rfl

lemma getParents_of_none {h : Heap} {p : Nat} (hf : h.find? p = none)
    (lq : String) : getParents h p lq = [] := by
  unfold getParents
  rw [hf]
  rfl

lemma disconnectChild_none {h : Heap} {p : Nat} {l : String} {c : Nat}
    (hf : h.find? p = none) (b : Bool) : disconnectChild b h p l c = h := by
  unfold disconnectChild
  rw [hf]

lemma disconnectChild_guard_false {h : Heap} {p : Nat} {l : String} {c : Nat}
    {sd : StateData} (hf : h.find? p = some sd)
    (hg : (tmGet sd.exiting l).contains c = false) (b : Bool) :
    disconnectChild b h p l c = h := by
  unfold disconnectChild
  simp only [hf]
  rw [if_neg (by rw [hg]; simp)]

lemma disconnectChild_guard_true {h : Heap} {p : Nat} {l : String} {c : Nat}
    {sd : StateData} (hf : h.find? p = some sd)
    (hg : (tmGet sd.exiting l).contains c = true) :
    disconnectChild true h p l c =
      match (h.set p { sd with exiting := tmErase sd.exiting l c }).find? c with
      | none => h.set p { sd with exiting := tmErase sd.exiting l c }
      | some cd => (h.set p { sd with exiting := tmErase sd.exiting l c }).set c
          { cd with incoming := tmErase cd.incoming l p } := by
  unfold disconnectChild
  simp only [hf]
  have hcond : (!(tmGet sd.exiting l).isEmpty &&
      (tmGet sd.exiting l).contains c) = true := by
    rcases hlist : tmGet sd.exiting l with - | ⟨a, as⟩
    · rw [hlist] at hg
      simp at hg
    · rw [hlist] at hg
      simpa using hg
  rw [if_pos hcond]
  simp

/-- The complete read behavior of a bidirectional `disconnectChild`: either
the edge was present and both indexes lose exactly that edge, or the call is
a no-op on an absent edge. -/
lemma disconnect_reads (h : Heap) (p : Nat) (l : String) (c : Nat) :
    ((∀ pq lq, getChildren (disconnectChild true h p l c) pq lq =
        if pq = p ∧ lq = l then idErase c (getChildren h p l)
        else getChildren h pq lq) ∧
     (∀ xq lq, getParents (disconnectChild true h p l c) xq lq =
        if xq = c ∧ lq = l then idErase p (getParents h c l)
        else getParents h xq lq) ∧
     exEdge h p l c) ∨
    (disconnectChild true h p l c = h ∧ ¬ exEdge h p l c) := by
  rcases hf : h.find? p with - | sd
  · right
    refine ⟨disconnectChild_none hf true, ?_⟩
    unfold exEdge
    rw [getChildren_of_none hf]
    exact List.not_mem_nil c
  · rcases hg : (tmGet sd.exiting l).contains c with - | -
    · right
      refine ⟨disconnectChild_guard_false hf hg true, ?_⟩
      unfold exEdge
      rw [getChildren_of_find? hf]
      intro hmem
      simp [hmem] at hg
    · left
      have hex : exEdge h p l c := by
        unfold exEdge
        rw [getChildren_of_find? hf]
        simpa using hg
      have hrw := disconnectChild_guard_true hf hg
      have hsome : ∃ sd0, h.find? p = some sd0 := ⟨sd, hf⟩
      have hch1 : ∀ pq lq,
          getChildren (h.set p { sd with exiting := tmErase sd.exiting l c }) pq lq =
          if pq = p ∧ lq = l then idErase c (getChildren h p l)
          else getChildren h pq lq := by
        intro pq lq
        rw [getChildren_set_eq h p _ hsome pq lq]
        by_cases hpq : pq = p
        · subst hpq
          rw [if_pos rfl]
          show tmGet (tmErase sd.exiting l c) lq = _
          rw [tmGet_tmErase]
          by_cases hlq : lq = l
          · subst hlq
            rw [if_pos rfl, if_pos ⟨rfl, rfl⟩, getChildren_of_find? hf lq]
          · rw [if_neg hlq, if_neg (fun hand => hlq hand.2),
              getChildren_of_find? hf lq]
        · rw [if_neg hpq, if_neg (fun hand => hpq hand.1)]
      have hpa1 : ∀ xq lq,
          getParents (h.set p { sd with exiting := tmErase sd.exiting l c }) xq lq =
          getParents h xq lq := by
        intro xq lq
        rw [getParents_set_eq h p _ hsome xq lq]
        by_cases hxq : xq = p
        · rw [if_pos hxq, hxq, getParents_of_find? hf lq]
        · rw [if_neg hxq]
      rcases hc1 : (h.set p { sd with exiting := tmErase sd.exiting l c }).find? c
        with - | cd
      · -- the child object is absent (so it is not `p` and carries no index)
        have hcp : c ≠ p := by
          intro hcp
          rw [hcp, Heap.find?_set_self hf] at hc1
          exact Option.noConfusion hc1
        have hcnone : h.find? c = none := by
          rw [← Heap.find?_set_other hcp
            { sd with exiting := tmErase sd.exiting l c }]
          exact hc1
        have hfin : disconnectChild true h p l c =
            h.set p { sd with exiting := tmErase sd.exiting l c } := by
          rw [hrw, hc1]
        refine ⟨?_, ?_, hex⟩
        · intro pq lq
          rw [hfin]
          exact hch1 pq lq
        · intro xq lq
          rw [hfin, hpa1 xq lq]
          by_cases hx : xq = c ∧ lq = l
          · rw [if_pos hx, hx.1, hx.2, getParents_of_none hcnone]
            rfl
          · rw [if_neg hx]
      · have hfin : disconnectChild true h p l c =
            (h.set p { sd with exiting := tmErase sd.exiting l c }).set c
              { cd with incoming := tmErase cd.incoming l p } := by
          rw [hrw, hc1]
        have hsome1 : ∃ sd0,
            (h.set p { sd with exiting := tmErase sd.exiting l c }).find? c =
              some sd0 := ⟨cd, hc1⟩
        have hcd_of_p : c = p → cd = { sd with exiting := tmErase sd.exiting l c } := by
          intro hcp
          subst hcp
          rw [Heap.find?_set_self hf] at hc1
          exact (Option.some.inj hc1).symm
        have hcd_of_ne : c ≠ p → h.find? c = some cd := by
          intro hcp
          rw [← Heap.find?_set_other hcp
            { sd with exiting := tmErase sd.exiting l c }]
          exact hc1
        have hcdin : ∀ lq, tmGet cd.incoming lq = getParents h c lq := by
          intro lq
          by_cases hcp : c = p
          · rw [hcd_of_p hcp]
            show tmGet sd.incoming lq = _
            rw [hcp, getParents_of_find? hf lq]
          · rw [getParents_of_find? (hcd_of_ne hcp) lq]
        have hcdex : ∀ lq, tmGet cd.exiting lq =
            if c = p ∧ lq = l then idErase c (getChildren h p l)
            else getChildren h c lq := by
          intro lq
          by_cases hcp : c = p
          · rw [hcd_of_p hcp]
            show tmGet (tmErase sd.exiting l c) lq = _
            rw [tmGet_tmErase]
            by_cases hlq : lq = l
            · rw [if_pos hlq, if_pos ⟨hcp, hlq⟩, hlq, getChildren_of_find? hf l]
            · rw [if_neg hlq, if_neg (fun hand => hlq hand.2), hcp,
                getChildren_of_find? hf lq]
          · rw [if_neg (fun hand => hcp hand.1),
              getChildren_of_find? (hcd_of_ne hcp) lq]
        refine ⟨?_, ?_, hex⟩
        · intro pq lq
          rw [hfin, getChildren_set_eq _ c _ hsome1 pq lq]
          by_cases hpqc : pq = c
          · subst hpqc
            rw [if_pos rfl]
            show tmGet cd.exiting lq = _
            rw [hcdex lq]
          · rw [if_neg hpqc, hch1 pq lq]
        · intro xq lq
          rw [hfin, getParents_set_eq _ c _ hsome1 xq lq]
          by_cases hxqc : xq = c
          · subst hxqc
            rw [if_pos rfl]
            show tmGet (tmErase cd.incoming l p) lq = _
            rw [tmGet_tmErase]
            by_cases hlq : lq = l
            · rw [if_pos hlq, if_pos ⟨rfl, hlq⟩, hlq, hcdin l]
            · rw [if_neg hlq, if_neg (fun hand => hlq hand.2), hcdin lq]
          · rw [if_neg hxqc, if_neg (fun hand => hxqc hand.1), hpa1 xq lq]

lemma disconnect_antitone_ex (h : Heap) (p : Nat) (l : String) (c : Nat)
    (pq : Nat) (lq : String) (cq : Nat) :
    exEdge (disconnectChild true h p l c) pq lq cq → exEdge h pq lq cq := by
  rcases disconnect_reads h p l c with ⟨hch, -, -⟩ | ⟨heq, -⟩
  · unfold exEdge
    rw [hch pq lq]
    split
    · rename_i hand
      intro hm
      rw [hand.1, hand.2]
      exact (mem_idErase.mp hm).1
    · exact id
  · rw [heq]
    exact id

lemma disconnect_antitone_in (h : Heap) (p : Nat) (l : String) (c : Nat)
    (xq : Nat) (lq : String) (tq : Nat) :
    inEdge (disconnectChild true h p l c) xq lq tq → inEdge h xq lq tq := by
  rcases disconnect_reads h p l c with ⟨-, hpa, -⟩ | ⟨heq, -⟩
  · unfold inEdge
    rw [hpa xq lq]
    split
    · rename_i hand
      intro hm
      rw [hand.1, hand.2]
      exact (mem_idErase.mp hm).1
    · exact id
  · rw [heq]
    exact id

lemma disconnect_not_exEdge (h : Heap) (p : Nat) (l : String) (c : Nat) :
    ¬ exEdge (disconnectChild true h p l c) p l c := by
  rcases disconnect_reads h p l c with ⟨hch, -, -⟩ | ⟨heq, hne⟩
  · unfold exEdge
    rw [hch p l, if_pos ⟨rfl, rfl⟩]
    intro hm
    exact (mem_idErase.mp hm).2 rfl
  · rw [heq]
    exact hne

lemma disconnect_kills_in (h : Heap) (p : Nat) (l : String) (c : Nat)
    (hex : exEdge h p l c) :
    ¬ inEdge (disconnectChild true h p l c) c l p := by
  rcases disconnect_reads h p l c with ⟨-, hpa, -⟩ | ⟨-, hne⟩
  · unfold inEdge
    rw [hpa c l, if_pos ⟨rfl, rfl⟩]
    intro hm
    exact (mem_idErase.mp hm).2 rfl
  · exact absurd hex hne

lemma disconnect_preserve_ex (h : Heap) (p : Nat) (l : String) (c : Nat)
    (pq : Nat) (lq : String) (cq : Nat)
    (hne : ¬(pq = p ∧ lq = l ∧ cq = c)) :
    exEdge h pq lq cq → exEdge (disconnectChild true h p l c) pq lq cq := by
  rcases disconnect_reads h p l c with ⟨hch, -, -⟩ | ⟨heq, -⟩
  · unfold exEdge
    rw [hch pq lq]
    split
    · rename_i hand
      intro hm
      rw [mem_idErase]
      rw [hand.1, hand.2] at hm
      exact ⟨hm, fun hcq => hne ⟨hand.1, hand.2, hcq⟩⟩
    · exact id
  · rw [heq]
    exact id

lemma disconnect_preserve_in (h : Heap) (p : Nat) (l : String) (c : Nat)
    (xq : Nat) (lq : String) (tq : Nat)
    (hne : ¬(xq = c ∧ lq = l ∧ tq = p)) :
    inEdge h xq lq tq → inEdge (disconnectChild true h p l c) xq lq tq := by
  rcases disconnect_reads h p l c with ⟨-, hpa, -⟩ | ⟨heq, -⟩
  · unfold inEdge
    rw [hpa xq lq]
    split
    · rename_i hand
      intro hm
      rw [mem_idErase]
      rw [hand.1, hand.2] at hm
      exact ⟨hm, fun htq => hne ⟨hand.1, hand.2, htq⟩⟩
    · exact id
  · rw [heq]
    exact id

lemma discFold_cons (h : Heap) (st : Nat × String × Nat)
    (rest : List (Nat × String × Nat)) :
    discFold h (st :: rest) =
      discFold (disconnectChild true h st.1 st.2.1 st.2.2) rest := rfl

lemma discFold_antitone : ∀ (steps : List (Nat × String × Nat)) (h0 : Heap),
    (∀ pq lq cq, exEdge (discFold h0 steps) pq lq cq → exEdge h0 pq lq cq) ∧
    (∀ xq lq tq, inEdge (discFold h0 steps) xq lq tq → inEdge h0 xq lq tq) := by
  intro steps
  induction steps with
  | nil => exact fun h0 => ⟨fun _ _ _ => id, fun _ _ _ => id⟩
  | cons st rest ih =>
    intro h0
    rw [discFold_cons]
    constructor
    · intro pq lq cq hq
      exact disconnect_antitone_ex h0 st.1 st.2.1 st.2.2 pq lq cq
        ((ih _).1 pq lq cq hq)
    · intro xq lq tq hq
      exact disconnect_antitone_in h0 st.1 st.2.1 st.2.2 xq lq tq
        ((ih _).2 xq lq tq hq)

lemma discFold_establish : ∀ (steps : List (Nat × String × Nat)) (h0 : Heap)
    (st : Nat × String × Nat), st ∈ steps →
    ¬ exEdge (discFold h0 steps) st.1 st.2.1 st.2.2 := by
  intro steps
  induction steps with
  | nil => intro h0 st hst; exact absurd hst (List.not_mem_nil st)
  | cons st0 rest ih =>
    intro h0 st hst
    rw [discFold_cons]
    rcases List.mem_cons.mp hst with rfl | hst2
    · intro hq
      exact disconnect_not_exEdge h0 st.1 st.2.1 st.2.2
        ((discFold_antitone rest _).1 st.1 st.2.1 st.2.2 hq)
    · exact ih _ st hst2

lemma discFold_preserve_in : ∀ (steps : List (Nat × String × Nat)) (h0 : Heap)
    (xq : Nat) (lq : String) (tq : Nat),
    (∀ st ∈ steps, ¬(xq = st.2.2 ∧ lq = st.2.1 ∧ tq = st.1)) →
    inEdge h0 xq lq tq → inEdge (discFold h0 steps) xq lq tq := by
  intro steps
  induction steps with
  | nil => intro h0 xq lq tq _ hq; exact hq
  | cons st0 rest ih =>
    intro h0 xq lq tq hcond hq
    rw [discFold_cons]
    refine ih _ xq lq tq (fun st hst => hcond st (List.mem_cons_of_mem _ hst)) ?_
    exact disconnect_preserve_in h0 st0.1 st0.2.1 st0.2.2 xq lq tq
      (hcond st0 (List.mem_cons_self _ _)) hq

lemma discFold_preserve_ex : ∀ (steps : List (Nat × String × Nat)) (h0 : Heap)
    (pq : Nat) (lq : String) (cq : Nat),
    (∀ st ∈ steps, ¬(pq = st.1 ∧ lq = st.2.1 ∧ cq = st.2.2)) →
    exEdge h0 pq lq cq → exEdge (discFold h0 steps) pq lq cq := by
  intro steps
  induction steps with
  | nil => intro h0 pq lq cq _ hq; exact hq
  | cons st0 rest ih =>
    intro h0 pq lq cq hcond hq
    rw [discFold_cons]
    refine ih _ pq lq cq (fun st hst => hcond st (List.mem_cons_of_mem _ hst)) ?_
    exact disconnect_preserve_ex h0 st0.1 st0.2.1 st0.2.2 pq lq cq
      (hcond st0 (List.mem_cons_self _ _)) hq

lemma discFold_establish_in : ∀ (steps : List (Nat × String × Nat)) (h0 : Heap),
    steps.Nodup → ∀ st ∈ steps, exEdge h0 st.1 st.2.1 st.2.2 →
    ¬ inEdge (discFold h0 steps) st.2.2 st.2.1 st.1 := by
  intro steps
  induction steps with
  | nil => intro h0 _ st hst; exact absurd hst (List.not_mem_nil st)
  | cons st0 rest ih =>
    intro h0 hnd st hst hex
    obtain ⟨hst0, hndrest⟩ := List.nodup_cons.mp hnd
    rw [discFold_cons]
    rcases List.mem_cons.mp hst with rfl | hst2
    · intro hq
      exact disconnect_kills_in h0 st.1 st.2.1 st.2.2 hex
        ((discFold_antitone rest _).2 st.2.2 st.2.1 st.1 hq)
    · have hne : st ≠ st0 := fun he => hst0 (he ▸ hst2)
      refine ih _ hndrest st hst2 ?_
      refine disconnect_preserve_ex h0 st0.1 st0.2.1 st0.2.2 st.1 st.2.1 st.2.2
        ?_ hex
      rintro ⟨h1, h2, h3⟩
      apply hne
      have hfst : st.2 = st0.2 := Prod.ext h2 h3
      exact Prod.ext h1 hfst

lemma mirrored_ex_in {h : Heap} (hmir : mirroredDec h) {p : Nat} {l : String}
    {c : Nat} (he : exEdge h p l c) : inEdge h c l p := by
  unfold exEdge at he
  rcases hf : h.find? p with - | sd
  · rw [getChildren_of_none hf] at he
    exact absurd he (List.not_mem_nil c)
  · rw [getChildren_of_find? hf] at he
    rcases tmGet_mem_entry he with ⟨q, hq, hql, hcq⟩
    unfold Heap.find? at hf
    rcases Option.map_eq_some'.mp hf with ⟨e, he2, hesd⟩
    have hep : e.1 = p := by simpa using List.find?_some he2
    have hres := hmir.1 e (List.mem_of_find?_eq_some he2) q
      (by rw [hesd]; exact hq) c hcq
    rw [hql, hep] at hres
    exact hres

lemma mirrored_in_ex {h : Heap} (hmir : mirroredDec h) {c : Nat} {l : String}
    {p : Nat} (he : inEdge h c l p) : exEdge h p l c := by
  unfold inEdge at he
  rcases hf : h.find? c with - | sd
  · rw [getParents_of_none hf] at he
    exact absurd he (List.not_mem_nil p)
  · rw [getParents_of_find? hf] at he
    rcases tmGet_mem_entry he with ⟨q, hq, hql, hpq⟩
    unfold Heap.find? at hf
    rcases Option.map_eq_some'.mp hf with ⟨e, he2, hesd⟩
    have hec : e.1 = c := by simpa using List.find?_some he2
    have hres := hmir.2 e (List.mem_of_find?_eq_some he2) q
      (by rw [hesd]; exact hq) p hpq
    rw [hql, hec] at hres
    exact hres

lemma nested_fold_ex (s : Nat) : ∀ (m : List (String × List Nat)) (h0 : Heap),
    m.foldl (fun acc q => q.2.foldl
      (fun a c => disconnectChild true a s q.1 c) acc) h0 =
      discFold h0 (flattenEx s m) := by
  intro m
  induction m with
  | nil => intro h0; rfl
  | cons q rest ih =>
    intro h0
    rw [List.foldl_cons, ih]
    unfold flattenEx
    rw [List.flatMap_cons]
    unfold discFold
    rw [List.foldl_append, List.foldl_map]

lemma foldl_if_filter (s : Nat) (l : String) : ∀ (ps : List Nat) (h0 : Heap),
    ps.foldl (fun a parent =>
      if parent ≠ s then disconnectChild true a parent l s else a) h0 =
      (ps.filter (fun t => t ≠ s)).foldl
        (fun a parent => disconnectChild true a parent l s) h0 := by
  intro ps
  induction ps with
  | nil => intro h0; rfl
  | cons p rest ih =>
    intro h0
    rw [List.foldl_cons]
    by_cases hp : p ≠ s
    · rw [List.filter_cons_of_pos (by simpa using hp), List.foldl_cons,
        if_pos hp, ih]
    · rw [List.filter_cons_of_neg (by simpa using hp), if_neg hp, ih]

lemma nested_fold_in (s : Nat) : ∀ (m : List (String × List Nat)) (h0 : Heap),
    m.foldl (fun acc q => q.2.foldl
      (fun a parent =>
        if parent ≠ s then disconnectChild true a parent q.1 s else a) acc) h0 =
      discFold h0 (flattenIn s m) := by
  intro m
  induction m with
  | nil => intro h0; rfl
  | cons q rest ih =>
    intro h0
    rw [List.foldl_cons, ih, foldl_if_filter s q.1 q.2 h0]
    unfold flattenIn
    rw [List.flatMap_cons]
    unfold discFold
    rw [List.foldl_append, List.foldl_map]

lemma detachExiting_none {h : Heap} {s : Nat} (hf : h.find? s = none) :
    detachExiting true h s = h := by
  unfold detachExiting
  rw [hf]

lemma detachExiting_eq {h : Heap} {s : Nat} {sd : StateData}
    (hf : h.find? s = some sd) :
    detachExiting true h s = discFold h (flattenEx s sd.exiting) := by
  unfold detachExiting
  simp only [hf]
  exact nested_fold_ex s sd.exiting h

lemma detachAll_of_none1 {h : Heap} {s : Nat}
    (hf1 : (detachExiting true h s).find? s = none) :
    detachAllTransitions true h s = detachExiting true h s := by
  unfold detachAllTransitions
  simp only [hf1, if_true]

lemma detachAll_of_some1 {h : Heap} {s : Nat} {sd1 : StateData}
    (hf1 : (detachExiting true h s).find? s = some sd1) :
    detachAllTransitions true h s =
      discFold (detachExiting true h s) (flattenIn s sd1.incoming) := by
  unfold detachAllTransitions
  simp only [hf1, if_true]
  exact nested_fold_in s sd1.incoming _

lemma mem_flattenEx_intro {s : Nat} {m : List (String × List Nat)} {l : String}
    {t : Nat} (q : String × List Nat) (hq : q ∈ m) (hql : q.1 = l)
    (ht : t ∈ q.2) : (s, l, t) ∈ flattenEx s m := by
  unfold flattenEx
  rw [List.mem_flatMap]
  exact ⟨q, hq, List.mem_map.mpr ⟨t, ht, by rw [hql]⟩⟩

lemma flattenEx_fst {s : Nat} {m : List (String × List Nat)} :
    ∀ st ∈ flattenEx s m, st.1 = s := by
  intro st hst
  unfold flattenEx at hst
  rw [List.mem_flatMap] at hst
  rcases hst with ⟨q, -, hst⟩
  rcases List.mem_map.mp hst with ⟨c, -, rfl⟩
  rfl

lemma mem_flattenIn_intro {s : Nat} {m : List (String × List Nat)} {l : String}
    {t : Nat} (q : String × List Nat) (hq : q ∈ m) (hql : q.1 = l)
    (ht : t ∈ q.2) (hts : t ≠ s) : (t, l, s) ∈ flattenIn s m := by
  unfold flattenIn
  rw [List.mem_flatMap]
  refine ⟨q, hq, List.mem_map.mpr ⟨t, ?_, by rw [hql]⟩⟩
  rw [List.mem_filter]
  exact ⟨ht, by simpa using hts⟩

lemma flattenEx_nodup {s : Nat} : ∀ {m : List (String × List Nat)},
    (m.map (·.1)).Nodup → (∀ q ∈ m, q.2.Nodup) → (flattenEx s m).Nodup := by
  intro m
  induction m with
  | nil => intro _ _; exact List.nodup_nil
  | cons q rest ih =>
    intro hlab hkids
    obtain ⟨hq1, hlabrest⟩ := List.nodup_cons.mp hlab
    unfold flattenEx
    rw [List.flatMap_cons]
    refine List.Nodup.append ?_ ?_ ?_
    · refine List.Nodup.map ?_ (hkids q (List.mem_cons_self _ _))
      intro a b hab
      injection hab with h1 h2
      injection h2 with h3 h4
    · exact ih hlabrest (fun r hr => hkids r (List.mem_cons_of_mem _ hr))
    · intro x hx1 hx2
      rcases List.mem_map.mp hx1 with ⟨c, -, rfl⟩
      rw [List.mem_flatMap] at hx2
      rcases hx2 with ⟨r, hr, hx2⟩
      rcases List.mem_map.mp hx2 with ⟨d, -, heq⟩
      apply hq1
      have hqr : q.1 = r.1 := by
        injection heq with h1 h2
        injection h2 with h3 h4
        exact h3.symm
      show q.1 ∈ List.map (fun x => x.1) rest
      rw [hqr]
      exact List.mem_map.mpr ⟨r, hr, rfl⟩

/-- After `detachAllTransitions` on a bidirectional, mirror-coherent graph,
no other state keeps a transition to or from `s`. -/
lemma detachAll_no_links (h : Heap) (s : Nat) (hmir : mirroredDec h)
    (hwf : sExitingWf h s) (t : Nat) (l : String) (hts : t ≠ s) :
    ¬ exEdge (detachAllTransitions true h s) t l s ∧
    ¬ inEdge (detachAllTransitions true h s) t l s := by
  rcases hf : h.find? s with - | sd
  · -- `s` is not even a live object: coherence makes both directions empty
    have h1eq : detachExiting true h s = h := detachExiting_none hf
    have h2eq : detachAllTransitions true h s = h := by
      rcases hf1 : (detachExiting true h s).find? s with - | sd1
      · rw [detachAll_of_none1 hf1, h1eq]
      · rw [detachAll_of_some1 hf1]
        rw [h1eq] at hf1
        rw [hf1] at hf
        exact absurd hf (by simp)
    rw [h2eq]
    constructor
    · intro hex
      have := mirrored_ex_in hmir hex
      unfold inEdge at this
      rw [getParents_of_none hf] at this
      exact absurd this (List.not_mem_nil t)
    · intro hin
      have := mirrored_in_ex hmir hin
      unfold exEdge at this
      rw [getChildren_of_none hf] at this
      exact absurd this (List.not_mem_nil t)
  · have h1eq : detachExiting true h s = discFold h (flattenEx s sd.exiting) :=
      detachExiting_eq hf
    have hwf2 : (sd.exiting.map (·.1)).Nodup ∧ ∀ q ∈ sd.exiting, q.2.Nodup := by
      unfold sExitingWf getExitingTransitions at hwf
      rw [hf] at hwf
      exact hwf
    have hAE := (discFold_antitone (flattenEx s sd.exiting) h).1
    have hAI := (discFold_antitone (flattenEx s sd.exiting) h).2
    rw [← h1eq] at hAE hAI
    -- pushing an incoming edge of `s` (from a non-`s` parent) through the
    -- exiting loop: every step there has `s` as its source
    have hpresIn : inEdge h s l t → inEdge (detachExiting true h s) s l t := by
      intro hin
      rw [h1eq]
      refine discFold_preserve_in (flattenEx s sd.exiting) h s l t ?_ hin
      intro st hst hand
      exact hts (hand.2.2.trans (flattenEx_fst st hst))
    -- the exiting loop kills the incoming index entry of every child of `s`
    have hkillIn : inEdge h t l s → ¬ inEdge (detachExiting true h s) t l s := by
      intro hinh
      have hexh : exEdge h s l t := mirrored_in_ex hmir hinh
      have hmem : (s, l, t) ∈ flattenEx s sd.exiting := by
        have hexh2 := hexh
        unfold exEdge at hexh2
        rw [getChildren_of_find? hf] at hexh2
        rcases tmGet_mem_entry hexh2 with ⟨q, hq, hql, htq⟩
        exact mem_flattenEx_intro q hq hql htq
      have hkill := discFold_establish_in (flattenEx s sd.exiting) h
        (flattenEx_nodup hwf2.1 hwf2.2) (s, l, t) hmem hexh
      rw [← h1eq] at hkill
      exact hkill
    rcases hf1 : (detachExiting true h s).find? s with - | sd1
    · rw [detachAll_of_none1 hf1]
      constructor
      · intro hex
        have hinh : inEdge h s l t := mirrored_ex_in hmir (hAE t l s hex)
        have hin1 := hpresIn hinh
        unfold inEdge at hin1
        rw [getParents_of_none hf1] at hin1
        exact absurd hin1 (List.not_mem_nil t)
      · intro hin
        exact hkillIn (hAI t l s hin) hin
    · rw [detachAll_of_some1 hf1]
      have hAE2 := (discFold_antitone (flattenIn s sd1.incoming)
        (detachExiting true h s)).1
      have hAI2 := (discFold_antitone (flattenIn s sd1.incoming)
        (detachExiting true h s)).2
      constructor
      · intro hex
        have hinh : inEdge h s l t :=
          mirrored_ex_in hmir (hAE t l s (hAE2 t l s hex))
        have hin1 := hpresIn hinh
        have hin1m : t ∈ tmGet sd1.incoming l := by
          unfold inEdge at hin1
          rw [getParents_of_find? hf1] at hin1
          exact hin1
        rcases tmGet_mem_entry hin1m with ⟨q, hq, hql, htq⟩
        have hmem : (t, l, s) ∈ flattenIn s sd1.incoming :=
          mem_flattenIn_intro q hq hql htq hts
        exact discFold_establish (flattenIn s sd1.incoming)
          (detachExiting true h s) (t, l, s) hmem hex
      · intro hin
        have hin1 : inEdge (detachExiting true h s) t l s := hAI2 t l s hin
        exact hkillIn (hAI t l s hin1) hin1

/-! ## Claim C6 -/

/-- Counterexample for claim C6: with the plain (non-bidirectional) `State`
variant, `removeState(s)` cannot detach the transitions INTO `s` (a plain
state keeps no record of its incoming transitions — see the comment on
`State::detachAllTransitions` in `State.cpp`): removing state `1` from a
two-state automaton with the edge `0 --a--> 1` leaves the dangling edge
`0 --a--> 1` on the remaining state `0`. -/
theorem c6_counterexample :
    ((removeState false
        ⟨[(0, { name := "t", final := false, level := 0, mark := false,
                extension := [], exiting := [("a", [1])], incoming := [] }),
          (1, { name := "s", final := false, level := 1, mark := false,
                extension := [], exiting := [], incoming := [] })], 2⟩
        ⟨[0, 1], some 0⟩ 1).2.1.members = [0]) ∧
    exEdge (removeState false
        ⟨[(0, { name := "t", final := false, level := 0, mark := false,
                extension := [], exiting := [("a", [1])], incoming := [] }),
          (1, { name := "s", final := false, level := 1, mark := false,
                extension := [], exiting := [], incoming := [] })], 2⟩
        ⟨[0, 1], some 0⟩ 1).1 0 "a" 1 := by
  constructor
  · rfl
  · show (1 : Nat) ∈ getChildren _ 0 "a"
    decide

/-- Claim C6 (amended): for the bidirectional state variant, on a
mirror-coherent graph whose removed state has a well-formed transition map,
`Automaton::removeState(s)` detaches all of `s`'s transitions in both
directions before removing `s` from the state collection, so that afterwards
no remaining member has a transition to or from `s`.  (For the plain variant
the incoming side cannot be detached, see the counterexample.) -/
theorem c6_removeState_no_dangling (h : Heap) (a : Automaton) (s : Nat)
    (hmir : mirroredDec h) (hwf : sExitingWf h s) :
    ∀ t ∈ (removeState true h a s).2.1.members, ∀ l,
      ¬ exEdge (removeState true h a s).1 t l s ∧
      ¬ inEdge (removeState true h a s).1 t l s := by
  intro t ht l
  have hts : t ≠ s := by
    have hmem : t ∈ idErase s a.members := ht
    exact (mem_idErase.mp hmem).2
  exact detachAll_no_links h s hmir hwf t l hts

/-- Witness for claim C6 at a concrete input: a bidirectional two-state
graph with the doubly-indexed edge `0 --a--> 1`; removing state `1` leaves
state `0` with no transition to or from `1`. -/
theorem c6_removeState_no_dangling_witness :
    ¬ exEdge (removeState true
        ⟨[(0, { name := "t", final := false, level := 0, mark := false,
                extension := [], exiting := [("a", [1])], incoming := [] }),
          (1, { name := "s", final := false, level := 1, mark := false,
                extension := [], exiting := [], incoming := [("a", [0])] })], 2⟩
        ⟨[0, 1], some 0⟩ 1).1 0 "a" 1 ∧
    ¬ inEdge (removeState true
        ⟨[(0, { name := "t", final := false, level := 0, mark := false,
                extension := [], exiting := [("a", [1])], incoming := [] }),
          (1, { name := "s", final := false, level := 1, mark := false,
                extension := [], exiting := [], incoming := [("a", [0])] })], 2⟩
        ⟨[0, 1], some 0⟩ 1).1 0 "a" 1 :=
  c6_removeState_no_dangling
    ⟨[(0, { name := "t", final := false, level := 0, mark := false,
            extension := [], exiting := [("a", [1])], incoming := [] }),
      (1, { name := "s", final := false, level := 1, mark := false,
            extension := [], exiting := [], incoming := [("a", [0])] })], 2⟩
    ⟨[0, 1], some 0⟩ 1 (by decide) (by decide) 0 (by decide) "a"

/-! ## Read-after-write lemmas for `connectChild` and allocation
(towards claim C3) -/

lemma mem_idInsert {x c : Nat} : ∀ {lst : List Nat},
    x ∈ idInsert c lst ↔ x = c ∨ x ∈ lst := by
  intro lst
  induction lst with
  | nil => simp [idInsert]
  | cons j rest ih =>
    unfold idInsert
    by_cases h1 : c < j
    · rw [if_pos h1]
      simp
    · rw [if_neg h1]
      by_cases h2 : c = j
      · rw [if_pos h2]
        subst h2
        simp only [List.mem_cons]
        tauto
      · rw [if_neg h2]
        simp only [List.mem_cons, ih]
        tauto

lemma idInsert_append_of_big {c : Nat} : ∀ {lst : List Nat},
    (∀ y ∈ lst, y < c) → idInsert c lst = lst ++ [c] := by
  intro lst
  induction lst with
  | nil => intro _; rfl
  | cons j rest ih =>
    intro hbig
    unfold idInsert
    have hj : j < c := hbig j (List.mem_cons_self _ _)
    rw [if_neg (by omega), if_neg (by omega)]
    rw [ih (fun y hy => hbig y (List.mem_cons_of_mem _ hy))]
    rfl

lemma tmGet_tmSet (l : String) (v : List Nat) :
    ∀ (m : List (String × List Nat)) (lq : String),
      tmGet (tmSet l v m) lq = if lq = l then v else tmGet m lq := by
  intro m
  induction m with
  | nil =>
    intro lq
    show tmGet [(l, v)] lq = _
    rw [tmGet_cons]
    by_cases hlq : lq = l
    · rw [if_pos (show (l, v).1 = lq from hlq.symm), if_pos hlq]
    · rw [if_neg (show ¬(l, v).1 = lq from fun hc => hlq hc.symm), if_neg hlq]
  | cons p rest ih =>
    intro lq
    show tmGet (if l < p.1 then (l, v) :: p :: rest
          else if l = p.1 then (l, v) :: rest
          else p :: tmSet l v rest) lq = _
    by_cases h1 : l < p.1
    · rw [if_pos h1, tmGet_cons]
      by_cases hlq : lq = l
      · rw [if_pos (by rw [hlq]), if_pos hlq]
      · rw [if_neg (fun hc => hlq hc.symm), if_neg hlq, tmGet_cons]
    · rw [if_neg h1]
      by_cases h2 : l = p.1
      · rw [if_pos h2, tmGet_cons, tmGet_cons]
        by_cases hlq : lq = l
        · rw [if_pos (by rw [hlq]), if_pos hlq]
        · rw [if_neg (fun hc => hlq hc.symm), if_neg hlq,
            if_neg (fun hc => hlq (h2.trans hc).symm)]
      · rw [if_neg h2, tmGet_cons, tmGet_cons]
        by_cases hp : p.1 = lq
        · rw [if_pos hp, if_pos hp]
          rw [if_neg (fun hc => h2 (hc ▸ hp).symm)]
        · rw [if_neg hp, if_neg hp, ih lq]

lemma tmGet_tmInsert (m : List (String × List Nat)) (l : String) (c : Nat)
    (lq : String) :
    tmGet (tmInsert m l c) lq =
      if lq = l then idInsert c (tmGet m l) else tmGet m lq := by
  unfold tmInsert
  rw [tmGet_tmSet]

lemma find?_isSome_set (h : Heap) (i : Nat) (sd : StateData) (x : Nat) :
    ((h.set i sd).find? x).isSome = (h.find? x).isSome := by
  by_cases hx : x = i
  · subst hx
    rcases hfx : h.find? x with - | sd0
    · rw [Heap.set_of_none hfx, hfx]
    · rw [Heap.find?_set_self hfx sd]
      rfl
  · rw [Heap.find?_set_other hx]

/-- Scalar fields (name, finality, level, mark, extension) are untouched by a
write that only swaps transition maps. -/
lemma set_preserves_scalars {h : Heap} {i : Nat} {sd0 sd : StateData}
    (hf : h.find? i = some sd0) (hlv : sd.level = sd0.level)
    (hnm : sd.name = sd0.name) (hfn : sd.final = sd0.final)
    (hex : sd.extension = sd0.extension) (hmk : sd.mark = sd0.mark) :
    (∀ x, stateLevel (h.set i sd) x = stateLevel h x) ∧
    (∀ x, stateName (h.set i sd) x = stateName h x) ∧
    (∀ x, stateFinal (h.set i sd) x = stateFinal h x) ∧
    (∀ x, stateExtension (h.set i sd) x = stateExtension h x) ∧
    (∀ x, stateMark (h.set i sd) x = stateMark h x) := by
  have hcase : ∀ x, (h.set i sd).find? x = h.find? x ∨
      (x = i ∧ (h.set i sd).find? x = some sd ∧ h.find? x = some sd0) := by
    intro x
    by_cases hx : x = i
    · subst hx
      exact Or.inr ⟨rfl, Heap.find?_set_self hf sd, hf⟩
    · exact Or.inl (Heap.find?_set_other hx sd)
  refine ⟨fun x => ?_, fun x => ?_, fun x => ?_, fun x => ?_, fun x => ?_⟩ <;>
    rcases hcase x with heq | ⟨-, h1, h2⟩
  · unfold stateLevel; rw [heq]
  · unfold stateLevel; rw [h1, h2]; simpa using hlv
  · unfold stateName; rw [heq]
  · unfold stateName; rw [h1, h2]; simpa using hnm
  · unfold stateFinal; rw [heq]
  · unfold stateFinal; rw [h1, h2]; simpa using hfn
  · unfold stateExtension; rw [heq]
  · unfold stateExtension; rw [h1, h2]; simpa using hex
  · unfold stateMark; rw [heq]
  · unfold stateMark; rw [h1, h2]; simpa using hmk

lemma connectChild_of_none {h : Heap} {p : Nat} {l : String} {c : Nat}
    (hf : h.find? p = none) (b : Bool) : connectChild b h p l c = h := by
  unfold connectChild
  rw [hf]

/-- The complete read behavior of a bidirectional `connectChild` from a live
parent: the parent's `(l)`-set receives the child (deduplicated), every scalar
field is untouched, and no id appears or disappears. -/
lemma connect_reads (h : Heap) (p : Nat) (l : String) (c : Nat)
    {sd : StateData} (hf : h.find? p = some sd) :
    (∀ pq lq, getChildren (connectChild true h p l c) pq lq =
      if pq = p ∧ lq = l then
        (if (getChildren h p l).contains c then getChildren h p l
         else idInsert c (getChildren h p l))
      else getChildren h pq lq) ∧
    (∀ x, stateLevel (connectChild true h p l c) x = stateLevel h x) ∧
    (∀ x, stateName (connectChild true h p l c) x = stateName h x) ∧
    (∀ x, stateFinal (connectChild true h p l c) x = stateFinal h x) ∧
    (∀ x, stateExtension (connectChild true h p l c) x = stateExtension h x) ∧
    (∀ x, ((connectChild true h p l c).find? x).isSome = (h.find? x).isSome) := by
  have hchp : getChildren h p l = tmGet sd.exiting l := getChildren_of_find? hf l
  unfold connectChild
  simp only [hf]
  by_cases hcont : (tmGet sd.exiting l).contains c
  · rw [if_pos hcont]
    refine ⟨fun pq lq => ?_, fun x => rfl, fun x => rfl, fun x => rfl,
      fun x => rfl, fun x => rfl⟩
    by_cases hx : pq = p ∧ lq = l
    · rw [if_pos hx, if_pos (by rw [hchp]; exact hcont), hx.1, hx.2]
    · rw [if_neg hx]
  · rw [if_neg hcont]
    simp only [if_true]
    have hnotc : (getChildren h p l).contains c = false := by
      rw [hchp]
      cases hb : (tmGet sd.exiting l).contains c
      · rfl
      · exact absurd hb hcont
    have hinner : (if (getChildren h p l).contains c = true then getChildren h p l
        else idInsert c (getChildren h p l)) = idInsert c (getChildren h p l) := by
      rw [hnotc]
      rfl
    simp only [hinner]
    -- the first write: the parent's exiting map
    have hch1 : ∀ pq lq,
        getChildren (h.set p { sd with exiting := tmInsert sd.exiting l c }) pq lq =
        if pq = p ∧ lq = l then idInsert c (getChildren h p l)
        else getChildren h pq lq := by
      intro pq lq
      rw [getChildren_set_eq h p _ ⟨sd, hf⟩ pq lq]
      by_cases hpq : pq = p
      · subst hpq
        rw [if_pos rfl]
        show tmGet (tmInsert sd.exiting l c) lq = _
        rw [tmGet_tmInsert]
        by_cases hlq : lq = l
        · subst hlq
          rw [if_pos rfl, if_pos ⟨rfl, rfl⟩, hchp]
        · rw [if_neg hlq, if_neg (fun hand => hlq hand.2),
            getChildren_of_find? hf lq]
      · rw [if_neg hpq, if_neg (fun hand => hpq hand.1)]
    have hsc1 := @set_preserves_scalars h p sd
      { sd with exiting := tmInsert sd.exiting l c } hf rfl rfl rfl rfl rfl
    have hdom1 := find?_isSome_set h p { sd with exiting := tmInsert sd.exiting l c }
    rcases hc1 : (h.set p { sd with exiting := tmInsert sd.exiting l c }).find? c
      with - | cd
    · -- missing child: only the first write happens
      simp only [hc1]
      refine ⟨hch1, hsc1.1, hsc1.2.1, hsc1.2.2.1, hsc1.2.2.2.1, hdom1⟩
    · simp only [hc1]
      have hsome1 : ∃ sd1,
          (h.set p { sd with exiting := tmInsert sd.exiting l c }).find? c =
            some sd1 := ⟨cd, hc1⟩
      have hch2 : ∀ pq lq,
          getChildren ((h.set p { sd with exiting := tmInsert sd.exiting l c }).set c
            { cd with incoming := tmInsert cd.incoming l p }) pq lq =
          getChildren (h.set p { sd with exiting := tmInsert sd.exiting l c }) pq lq := by
        intro pq lq
        rw [getChildren_set_eq _ c _ hsome1 pq lq]
        by_cases hpq : pq = c
        · subst hpq
          rw [if_pos rfl]
          show tmGet cd.exiting lq = _
          rw [getChildren_of_find? hc1 lq]
        · rw [if_neg hpq]
      have hsc2 := @set_preserves_scalars _ c cd
        { cd with incoming := tmInsert cd.incoming l p } hc1 rfl rfl rfl rfl rfl
      have hdom2 := find?_isSome_set
        (h.set p { sd with exiting := tmInsert sd.exiting l c }) c
        { cd with incoming := tmInsert cd.incoming l p }
      refine ⟨fun pq lq => ?_, fun x => (hsc2.1 x).trans (hsc1.1 x),
        fun x => (hsc2.2.1 x).trans (hsc1.2.1 x),
        fun x => (hsc2.2.2.1 x).trans (hsc1.2.2.1 x),
        fun x => (hsc2.2.2.2.1 x).trans (hsc1.2.2.2.1 x),
        fun x => (hdom2 x).trans (hdom1 x)⟩
      rw [hch2 pq lq, hch1 pq lq]

lemma find?_key_append_single (i : Nat) (sd : StateData) (j : Nat)
    (hj : j ≠ i) : ∀ (l : List (Nat × StateData)),
    (l ++ [(i, sd)]).find? (fun p => p.1 = j) = l.find? (fun p => p.1 = j) := by
  intro l
  induction l with
  | nil =>
    show ([(i, sd)]).find? (fun p => p.1 = j) = none
    rw [List.find?_cons_of_neg]
    · rfl
    · simp
      exact fun hc => hj hc.symm
  | cons e rest ih =>
    by_cases he : e.1 = j
    · rw [List.cons_append, List.find?_cons_of_pos _ (by simpa using he),
        List.find?_cons_of_pos _ (by simpa using he)]
    · rw [List.cons_append, List.find?_cons_of_neg _ (by simpa using he),
        List.find?_cons_of_neg _ (by simpa using he), ih]

lemma find?_key_append_fresh (i : Nat) (sd : StateData) :
    ∀ (l : List (Nat × StateData)), (∀ e ∈ l, e.1 ≠ i) →
    (l ++ [(i, sd)]).find? (fun p => p.1 = i) = some (i, sd) := by
  intro l
  induction l with
  | nil =>
    intro _
    show ([(i, sd)]).find? (fun p => p.1 = i) = some (i, sd)
    rw [List.find?_cons_of_pos _ (by simp)]
  | cons e rest ih =>
    intro hne
    rw [List.cons_append,
      List.find?_cons_of_neg _ (by simpa using hne e (List.mem_cons_self _ _)),
      ih (fun x hx => hne x (List.mem_cons_of_mem _ hx))]

lemma alloc_find?_old {h : Heap} (sd : StateData) {j : Nat} (hj : j ≠ h.next) :
    (h.alloc sd).1.find? j = h.find? j := by
  unfold Heap.alloc Heap.find?
  simp only
  rw [find?_key_append_single h.next sd j hj]

lemma mem_dom_of_mem_states {h : Heap} {e : Nat × StateData}
    (he : e ∈ h.states) : e.1 ∈ h.dom := List.mem_map.mpr ⟨e, he, rfl⟩

lemma alloc_find?_new {h : Heap} (hfr : freshHeap h) (sd : StateData) :
    (h.alloc sd).1.find? h.next = some sd := by
  unfold Heap.alloc Heap.find?
  simp only
  rw [find?_key_append_fresh h.next sd h.states
    (fun e he hc => by
      have := hfr e.1 (mem_dom_of_mem_states he)
      omega)]
  rfl

lemma alloc_next (h : Heap) (sd : StateData) :
    (h.alloc sd).1.next = h.next + 1 := rfl

lemma alloc_dom (h : Heap) (sd : StateData) :
    (h.alloc sd).1.dom = h.dom ++ [h.next] := by
  unfold Heap.alloc Heap.dom
  simp

lemma assocSet_map_fst (i : Nat) (sd : StateData) :
    ∀ (l : List (Nat × StateData)),
      (assocSet i sd l).map (·.1) = l.map (·.1) := by
  intro l
  induction l with
  | nil => rfl
  | cons e rest ih =>
    unfold assocSet
    by_cases he : e.1 = i
    · rw [if_pos he]
      simp only [List.map_cons]
      rw [he]
    · rw [if_neg he]
      simp only [List.map_cons]
      rw [ih]

lemma set_dom (h : Heap) (i : Nat) (sd : StateData) :
    (h.set i sd).dom = h.dom := by
  unfold Heap.set Heap.dom
  simp only
  exact assocSet_map_fst i sd h.states

lemma set_next (h : Heap) (i : Nat) (sd : StateData) :
    (h.set i sd).next = h.next := rfl

lemma freshHeap_alloc {h : Heap} (hfr : freshHeap h) (sd : StateData) :
    freshHeap (h.alloc sd).1 := by
  intro i hi
  rw [alloc_dom] at hi
  rw [alloc_next]
  rcases List.mem_append.mp hi with hold | hnew
  · have := hfr i hold
    omega
  · have : i = h.next := by simpa using hnew
    omega

lemma freshHeap_set {h : Heap} (hfr : freshHeap h) (i : Nat) (sd : StateData) :
    freshHeap (h.set i sd) := by
  intro j hj
  rw [set_dom] at hj
  rw [set_next]
  exact hfr j hj

lemma setLevel_next (h : Heap) (i v : Nat) : (setLevel h i v).next = h.next := by
  unfold setLevel
  rcases h.find? i with - | sd
  · rfl
  · rfl

lemma setLevel_dom (h : Heap) (i v : Nat) : (setLevel h i v).dom = h.dom := by
  unfold setLevel
  rcases h.find? i with - | sd
  · rfl
  · exact set_dom h i _

lemma freshHeap_setLevel {h : Heap} (hfr : freshHeap h) (i v : Nat) :
    freshHeap (setLevel h i v) := by
  intro j hj
  rw [setLevel_dom] at hj
  rw [setLevel_next]
  exact hfr j hj

lemma setLevel_find?_self {h : Heap} {i : Nat} {sd0 : StateData}
    (hf : h.find? i = some sd0) (v : Nat) :
    (setLevel h i v).find? i = some { sd0 with level := v } := by
  unfold setLevel
  rw [hf]
  exact Heap.find?_set_self hf _

lemma setLevel_find?_other {h : Heap} {i j : Nat} (hj : j ≠ i) (v : Nat) :
    (setLevel h i v).find? j = h.find? j := by
  unfold setLevel
  rcases hf : h.find? i with - | sd0
  · rfl
  · exact Heap.find?_set_other hj _

lemma createName_singleton (h : Heap) (i : Nat) :
    createNameFromExtension h [i] = "\x7b" ++ stateName h i ++ "\x7d" := rfl

lemma hasFinalStates_singleton (h : Heap) (i : Nat) :
    hasFinalStates h [i] = stateFinal h i := by
  unfold hasFinalStates
  simp

/-- The record describing the clone of NFA state `i` built by phase 1 (before
any transition is attached): singleton extension, copied name decoration,
copied finality and level, empty transition maps. -/
lemma cloneStep_reads {h : Heap} (hfr : freshHeap h) {i : Nat}
    (hi : i ∈ h.dom) :
    let r := newConstructedState h [i]
    let h2 := setLevel r.1 r.2 (stateLevel r.1 i)
    r.2 = h.next ∧ h2.next = h.next + 1 ∧
    h2.find? h.next = some
      { name := "\x7b" ++ stateName h i ++ "\x7d", final := stateFinal h i,
        level := stateLevel h i, mark := false, extension := [i],
        exiting := [], incoming := [] } ∧
    (∀ j, j ≠ h.next → h2.find? j = h.find? j) ∧ freshHeap h2 := by
  have hne : i ≠ h.next := by
    have := hfr i hi
    omega
  have halloc : (newConstructedState h [i]).1.find? h.next = some
      { name := createNameFromExtension h [i], final := hasFinalStates h [i],
        level := DEFAULT_VOID_LEVEL, mark := false, extension := [i],
        exiting := [], incoming := [] } := alloc_find?_new hfr _
  have hold : ∀ j, j ≠ h.next →
      (newConstructedState h [i]).1.find? j = h.find? j :=
    fun j hj => alloc_find?_old _ hj
  have hlvl : stateLevel (newConstructedState h [i]).1 i = stateLevel h i := by
    unfold stateLevel
    rw [hold i hne]
  have h2v : (newConstructedState h [i]).2 = h.next := rfl
  refine ⟨rfl, ?_, ?_, ?_, ?_⟩
  · show (setLevel (newConstructedState h [i]).1 (newConstructedState h [i]).2
      (stateLevel (newConstructedState h [i]).1 i)).next = h.next + 1
    rw [setLevel_next]
    rfl
  · show (setLevel (newConstructedState h [i]).1 (newConstructedState h [i]).2
      (stateLevel (newConstructedState h [i]).1 i)).find? h.next = _
    rw [hlvl, h2v, setLevel_find?_self halloc (stateLevel h i)]
    rw [createName_singleton, hasFinalStates_singleton]
  · intro j hj
    show (setLevel (newConstructedState h [i]).1 (newConstructedState h [i]).2
      (stateLevel (newConstructedState h [i]).1 i)).find? j = h.find? j
    rw [h2v, setLevel_find?_other hj, hold j hj]
  · exact freshHeap_setLevel (freshHeap_alloc hfr _) _ _

/-- Full specification of the cloning loop of phase 1. -/
lemma qscCloneStatesGo_spec :
    ∀ (todo : List Nat) (h : Heap) (dfa : Automaton) (m : List (Nat × Nat)),
      freshHeap h →
      (∀ i ∈ todo, i ∈ h.dom) →
      (∀ x ∈ dfa.members, x < h.next) →
      ∃ madd : List (Nat × Nat),
        (qscCloneStatesGo h dfa m todo).2.2 = m ++ madd ∧
        madd.map (·.1) = todo ∧
        (qscCloneStatesGo h dfa m todo).2.1.members =
          dfa.members ++ madd.map (·.2) ∧
        (∀ j, j < h.next → (qscCloneStatesGo h dfa m todo).1.find? j = h.find? j) ∧
        (∀ pr ∈ madd, h.next ≤ pr.2 ∧
          (qscCloneStatesGo h dfa m todo).1.find? pr.2 = some
            { name := "\x7b" ++ stateName h pr.1 ++ "\x7d",
              final := stateFinal h pr.1, level := stateLevel h pr.1,
              mark := false, extension := [pr.1], exiting := [], incoming := [] }) ∧
        (madd.map (·.2)).Nodup ∧
        freshHeap (qscCloneStatesGo h dfa m todo).1 ∧
        h.next ≤ (qscCloneStatesGo h dfa m todo).1.next ∧
        (∀ pr ∈ madd, pr.2 < (qscCloneStatesGo h dfa m todo).1.next) := by
  intro todo
  induction todo with
  | nil =>
    intro h dfa m hfr _ _
    exact ⟨[], by simp [qscCloneStatesGo], rfl, by simp [qscCloneStatesGo],
      fun j _ => rfl, by simp, by simp, hfr, Nat.le_refl _, by simp⟩
  | cons i rest ih =>
    intro h dfa m hfr htodo hmem
    have hstep := cloneStep_reads hfr (htodo i (List.mem_cons_self _ _))
    rcases hstep with ⟨-, hnext2, hfind2, hold2, hfr2⟩
    set r := newConstructedState h [i] with hr
    set h2 := setLevel r.1 r.2 (stateLevel r.1 i) with hh2
    have hrv : r.2 = h.next := rfl
    have hrec := ih h2 (dfa.addState r.2) (m ++ [(i, r.2)]) hfr2
      (fun j hj => by
        have hjdom : j ∈ h.dom := htodo j (List.mem_cons_of_mem _ hj)
        have hd2 : h2.dom = h.dom ++ [h.next] := by
          rw [hh2, setLevel_dom, hr]
          exact alloc_dom h _
        rw [hd2]
        exact List.mem_append.mpr (Or.inl hjdom))
      (fun x hx => by
        show x < h2.next
        have : x ∈ idInsert r.2 dfa.members := hx
        rcases mem_idInsert.mp this with hx2 | hx2
        · omega
        · have := hmem x hx2
          omega)
    rcases hrec with ⟨madd, hm, hfst, hmembers, holdrec, hrecs, hnd, hfrr, hle, hbound⟩
    refine ⟨(i, r.2) :: madd, ?_, ?_, ?_, ?_, ?_, ?_, ?_, ?_, ?_⟩
    · show (qscCloneStatesGo h2 (dfa.addState r.2) (m ++ [(i, r.2)]) rest).2.2 = _
      rw [hm]
      simp
    · simp only [List.map_cons, hfst]
    · show (qscCloneStatesGo h2 (dfa.addState r.2) (m ++ [(i, r.2)]) rest).2.1.members = _
      rw [hmembers]
      show idInsert r.2 dfa.members ++ _ = _
      rw [idInsert_append_of_big (c := r.2) (fun y hy => hmem y hy)]
      simp
    · intro j hj
      show (qscCloneStatesGo h2 (dfa.addState r.2) (m ++ [(i, r.2)]) rest).1.find? j = _
      have h2n : j < h2.next := by omega
      rw [holdrec j h2n, hold2 j (by omega)]
    · intro pr hpr
      rcases List.mem_cons.mp hpr with hpr1 | hpr1
      · subst hpr1
        refine ⟨Nat.le_refl _, ?_⟩
        show (qscCloneStatesGo h2 (dfa.addState r.2) (m ++ [(i, r.2)]) rest).1.find? h.next = _
        rw [holdrec h.next (by omega), hfind2]
      · rcases hrecs pr hpr1 with ⟨hge, hfd⟩
        refine ⟨by omega, ?_⟩
        show (qscCloneStatesGo h2 (dfa.addState r.2) (m ++ [(i, r.2)]) rest).1.find? pr.2 = _
        rw [hfd]
        have hprne : pr.1 ≠ h.next := by
          have : pr.1 ∈ rest := by
            rw [← hfst]
            exact List.mem_map.mpr ⟨pr, hpr1, rfl⟩
          have := hfr pr.1 (htodo pr.1 (List.mem_cons_of_mem _ this))
          omega
        unfold stateName stateFinal stateLevel
        rw [hold2 pr.1 hprne]
    · simp only [List.map_cons, List.nodup_cons]
      constructor
      · intro hc
        rcases List.mem_map.mp hc with ⟨pr, hpr, hpr2⟩
        have := (hrecs pr hpr).1
        omega
      · exact hnd
    · exact hfrr
    · show h.next ≤ (qscCloneStatesGo h2 (dfa.addState r.2) (m ++ [(i, r.2)]) rest).1.next
      omega
    · intro pr hpr
      rcases List.mem_cons.mp hpr with hpr1 | hpr1
      · subst hpr1
        show (r.2 : Nat) <
          (qscCloneStatesGo h2 (dfa.addState r.2) (m ++ [(i, r.2)]) rest).1.next
        omega
      · exact hbound pr hpr1


lemma mapLookup_eq_of_mem {m : List (Nat × Nat)} (hnd : (m.map (·.1)).Nodup)
    {pr : Nat × Nat} (hpr : pr ∈ m) : mapLookup m pr.1 = pr.2 := by
  induction m with
  | nil => cases hpr
  | cons q rest ih =>
    rcases List.mem_cons.mp hpr with h1 | h1
    · subst h1
      unfold mapLookup
      rw [List.find?_cons_of_pos _ (by simp)]
      rfl
    · have hnd2 : q.1 ∉ rest.map (·.1) ∧ (rest.map (·.1)).Nodup := by
        rw [List.map_cons, List.nodup_cons] at hnd
        exact hnd
      have hq : q.1 ≠ pr.1 := by
        intro hc
        exact hnd2.1 (hc ▸ List.mem_map.mpr ⟨pr, h1, rfl⟩)
      unfold mapLookup
      rw [List.find?_cons_of_neg _ (by simpa using hq)]
      exact ih hnd2.2 h1

lemma mapLookup_mem {m : List (Nat × Nat)} {c : Nat}
    (hc : c ∈ m.map (·.1)) : (c, mapLookup m c) ∈ m := by
  induction m with
  | nil => cases hc
  | cons q rest ih =>
    by_cases hq : q.1 = c
    · have hval : mapLookup (q :: rest) c = q.2 := by
        unfold mapLookup
        rw [List.find?_cons_of_pos _ (by simpa using hq)]
        rfl
      rw [hval, ← hq]
      exact List.mem_cons_self _ _
    · have hval : mapLookup (q :: rest) c = mapLookup rest c := by
        unfold mapLookup
        rw [List.find?_cons_of_neg _ (by simpa using hq)]
      rw [hval]
      have hc2 : c ∈ rest.map (·.1) := by
        rcases List.mem_map.mp hc with ⟨pr, hpr, he⟩
        rcases List.mem_cons.mp hpr with h1 | h1
        · exact absurd (h1 ▸ he) hq
        · exact List.mem_map.mpr ⟨pr, h1, he⟩
      exact List.mem_cons_of_mem _ (ih hc2)

lemma ite_pair_fst {α β : Type} (b : Prop) [hd : Decidable b] (p : α × β)
    (y : β) : (if b then (p.1, y) else p).1 = p.1 := by
  by_cases hb : b
  · rw [if_pos hb]
  · rw [if_neg hb]

/-- The heap component of the inner child loop of phase 1 is the fold of the
pure step. -/
lemma phase1_child_fold_fst (nfa : Automaton) (m : List (Nat × Nat))
    (i d : Nat) (lab : String) (fl : Bool) :
    ∀ (cs : List Nat) (acc : Heap × List (Nat × String)),
      (cs.foldl
        (fun (acc : Heap × List (Nat × String)) nfa_child =>
          if nfa_child = i ∧ lab = EPSILON then acc
          else
            let h2 := connectChild true acc.1 d lab (mapLookup m nfa_child)
            if !fl && !(decide (lab = EPSILON)) &&
                hasExitingTransition h2 nfa_child EPSILON &&
                (getChildren h2 nfa_child EPSILON).any (fun g => g ≠ nfa_child) then
              (h2, addSingularityToList h2 acc.2 d lab)
            else (h2, acc.2))
        acc).1 =
      cs.foldl (phase1Step m i d lab) acc.1 := by
  intro cs
  induction cs with
  | nil => intro acc; rfl
  | cons c crest ih =>
    intro acc
    simp only [List.foldl_cons]
    rw [ih]
    unfold phase1Step
    by_cases hskip : c = i ∧ lab = EPSILON
    · rw [if_pos hskip, if_pos hskip]
    · rw [if_neg hskip, if_neg hskip]
      by_cases hcond : (!fl && !(decide (lab = EPSILON)) &&
          hasExitingTransition (connectChild true acc.1 d lab (mapLookup m c)) c
            EPSILON &&
          (getChildren (connectChild true acc.1 d lab (mapLookup m c)) c
            EPSILON).any (fun g => g ≠ c)) = true
      · rw [if_pos hcond]
      · rw [if_neg hcond]

/-- The heap component of `qscPhase1Label`. -/
lemma qscPhase1Label_fst (nfa : Automaton) (m : List (Nat × Nat))
    (i d : Nat) (h : Heap) (sl : List (Nat × String))
    (pair : String × List Nat) :
    (qscPhase1Label nfa m i d h sl pair).1 =
      pair.2.foldl (phase1Step m i d pair.1) h := by
  unfold qscPhase1Label
  simp only
  rw [ite_pair_fst]
  exact phase1_child_fold_fst nfa m i d pair.1 _ pair.2 _

/-- The heap component of `qscPhase1State` is `phase1StateHeap`. -/
lemma qscPhase1State_fst (nfa : Automaton) (m : List (Nat × Nat)) (i : Nat) :
    ∀ (ps : List (String × List Nat)) (acc : Heap × List (Nat × String)),
      (ps.foldl
        (fun acc pair => qscPhase1Label nfa m i (mapLookup m i) acc.1 acc.2 pair)
        acc).1 =
      ps.foldl
        (fun hh pair => pair.2.foldl (phase1Step m i (mapLookup m i) pair.1) hh)
        acc.1 := by
  intro ps
  induction ps with
  | nil => intro acc; rfl
  | cons p prest ih =>
    intro acc
    simp only [List.foldl_cons]
    rw [ih, qscPhase1Label_fst]

lemma qscPhase1State_heap (nfa : Automaton) (m : List (Nat × Nat)) (h : Heap)
    (sl : List (Nat × String)) (i : Nat) :
    (qscPhase1State nfa m h sl i).1 = phase1StateHeap m i h := by
  unfold qscPhase1State phase1StateHeap
  exact qscPhase1State_fst nfa m i (getExitingTransitions h i) (h, sl)

lemma mem_tmGet_of_entry {m : List (String × List Nat)}
    (hnd : (m.map (·.1)).Nodup) {l : String} {q : String × List Nat}
    (hq : q ∈ m) (hl : q.1 = l) {c : Nat} (hc : c ∈ q.2) : c ∈ tmGet m l := by
  induction m with
  | nil => cases hq
  | cons e rest ih =>
    have hnd2 : e.1 ∉ rest.map (·.1) ∧ (rest.map (·.1)).Nodup := by
      rw [List.map_cons, List.nodup_cons] at hnd
      exact hnd
    rcases List.mem_cons.mp hq with h1 | h1
    · subst h1
      unfold tmGet
      rw [List.find?_cons_of_pos _ (by simpa using hl)]
      simpa using hc
    · have hne : e.1 ≠ l := by
        intro hc2
        exact hnd2.1 (by
          rw [hc2, ← hl]
          exact List.mem_map.mpr ⟨q, h1, rfl⟩)
      unfold tmGet
      rw [List.find?_cons_of_neg _ (by simpa using hne)]
      exact ih hnd2.2 h1

lemma mem_ite_insert (lst : List Nat) (e x : Nat) :
    x ∈ (if lst.contains e then lst else idInsert e lst) ↔ x ∈ lst ∨ x = e := by
  by_cases hcase : lst.contains e
  · rw [if_pos hcase]
    constructor
    · exact Or.inl
    · rintro (hx | rfl)
      · exact hx
      · simpa using hcase
  · rw [if_neg hcase]
    rw [mem_idInsert]
    tauto

lemma getChildren_eq_tmGet_exiting (h : Heap) (i : Nat) (l : String) :
    getChildren h i l = tmGet (getExitingTransitions h i) l := by
  unfold getChildren getExitingTransitions
  rcases h.find? i with - | sd
  · rfl
  · rfl

/-- A bidirectional `connectChild` leaves the exiting map of every state other
than the parent unchanged (the child write touches its incoming side only). -/
lemma connect_exiting (h : Heap) (p : Nat) (l : String) (c : Nat) (x : Nat)
    (hx : x ≠ p) :
    getExitingTransitions (connectChild true h p l c) x =
      getExitingTransitions h x := by
  rcases hf : h.find? p with - | sd
  · rw [connectChild_of_none hf]
  · unfold connectChild
    simp only [hf]
    by_cases hcont : (tmGet sd.exiting l).contains c
    · rw [if_pos hcont]
    · rw [if_neg hcont]
      simp only [if_true]
      rcases hc1 : (h.set p { sd with exiting := tmInsert sd.exiting l c }).find? c
        with - | cd
      · simp only [hc1]
        unfold getExitingTransitions
        rw [Heap.find?_set_other hx]
      · simp only [hc1]
        unfold getExitingTransitions
        by_cases hxc : x = c
        · rw [hxc, Heap.find?_set_self hc1]
          have hhc : h.find? c = some cd := by
            rw [← Heap.find?_set_other (show c ≠ p by rw [← hxc]; exact hx)
              ({ sd with exiting := tmInsert sd.exiting l c } : StateData)]
            exact hc1
          rw [hhc]
          rfl
        · rw [Heap.find?_set_other hxc, Heap.find?_set_other hx]

/-- Effect of the inner child loop of phase 1 on every read: the clone's
`lab`-children gain exactly the mapped, non-skipped children, everything else
is untouched. -/
lemma phase1Step_fold_reads (m : List (Nat × Nat)) (i d : Nat) (lab : String) :
    ∀ (cs : List Nat) (h : Heap), (h.find? d).isSome = true →
      (∀ pq lq, ¬(pq = d ∧ lq = lab) →
        getChildren (cs.foldl (phase1Step m i d lab) h) pq lq =
          getChildren h pq lq) ∧
      (∀ x, x ∈ getChildren (cs.foldl (phase1Step m i d lab) h) d lab ↔
        (x ∈ getChildren h d lab ∨
          ∃ c ∈ cs, ¬(c = i ∧ lab = EPSILON) ∧ x = mapLookup m c)) ∧
      (∀ x, stateLevel (cs.foldl (phase1Step m i d lab) h) x = stateLevel h x) ∧
      (∀ x, stateName (cs.foldl (phase1Step m i d lab) h) x = stateName h x) ∧
      (∀ x, stateFinal (cs.foldl (phase1Step m i d lab) h) x = stateFinal h x) ∧
      (∀ x, stateExtension (cs.foldl (phase1Step m i d lab) h) x =
        stateExtension h x) ∧
      (∀ x, ((cs.foldl (phase1Step m i d lab) h).find? x).isSome =
        (h.find? x).isSome) ∧
      (∀ x, x ≠ d → getExitingTransitions (cs.foldl (phase1Step m i d lab) h) x =
        getExitingTransitions h x) := by
  intro cs
  induction cs with
  | nil =>
    intro h _
    refine ⟨fun pq lq _ => rfl, fun x => ?_, fun x => rfl, fun x => rfl,
      fun x => rfl, fun x => rfl, fun x => rfl, fun x _ => rfl⟩
    simp
  | cons c crest ih =>
    intro h hd
    by_cases hskip : c = i ∧ lab = EPSILON
    · have hstep : phase1Step m i d lab h c = h := by
        unfold phase1Step
        rw [if_pos hskip]
      rw [List.foldl_cons, hstep]
      rcases ih h hd with ⟨h1, h2, h3, h4, h5, h6, h7, h8⟩
      refine ⟨h1, fun x => ?_, h3, h4, h5, h6, h7, h8⟩
      rw [h2 x]
      constructor
      · rintro (hx | ⟨c2, hc2, hcond, hval⟩)
        · exact Or.inl hx
        · exact Or.inr ⟨c2, List.mem_cons_of_mem _ hc2, hcond, hval⟩
      · rintro (hx | ⟨c2, hc2, hcond, hval⟩)
        · exact Or.inl hx
        · rcases List.mem_cons.mp hc2 with h1c | h1c
          · exact absurd (by rw [h1c]; exact hskip) hcond
          · exact Or.inr ⟨c2, h1c, hcond, hval⟩
    · rcases Option.isSome_iff_exists.mp hd with ⟨sd, hsd⟩
      have hstep : phase1Step m i d lab h c =
          connectChild true h d lab (mapLookup m c) := by
        unfold phase1Step
        rw [if_neg hskip]
      rcases connect_reads h d lab (mapLookup m c) hsd with
        ⟨hch, hlv, hnm, hfn, hex, hdm⟩
      have hd1 : ((connectChild true h d lab (mapLookup m c)).find? d).isSome
          = true := by
        rw [hdm d, hsd]
        rfl
      rcases ih (connectChild true h d lab (mapLookup m c)) hd1 with
        ⟨h1, h2, h3, h4, h5, h6, h7, h8⟩
      rw [List.foldl_cons, hstep]
      refine ⟨?_, ?_, ?_, ?_, ?_, ?_, ?_, ?_⟩
      · intro pq lq hne
        rw [h1 pq lq hne, hch pq lq, if_neg hne]
      · intro x
        rw [h2 x]
        have hmem1 : x ∈ getChildren
            (connectChild true h d lab (mapLookup m c)) d lab ↔
            x ∈ getChildren h d lab ∨ x = mapLookup m c := by
          rw [hch d lab, if_pos ⟨rfl, rfl⟩]
          exact mem_ite_insert _ _ _
        rw [hmem1]
        constructor
        · rintro ((hx | hv) | ⟨c2, hc2, hcond, hval⟩)
          · exact Or.inl hx
          · exact Or.inr ⟨c, List.mem_cons_self _ _, hskip, hv⟩
          · exact Or.inr ⟨c2, List.mem_cons_of_mem _ hc2, hcond, hval⟩
        · rintro (hx | ⟨c2, hc2, hcond, hval⟩)
          · exact Or.inl (Or.inl hx)
          · rcases List.mem_cons.mp hc2 with h1c | h1c
            · subst h1c
              exact Or.inl (Or.inr hval)
            · exact Or.inr ⟨c2, h1c, hcond, hval⟩
      · intro x
        rw [h3 x, hlv x]
      · intro x
        rw [h4 x, hnm x]
      · intro x
        rw [h5 x, hfn x]
      · intro x
        rw [h6 x, hex x]
      · intro x
        rw [h7 x, hdm x]
      · intro x hxd
        rw [h8 x hxd, connect_exiting h d lab (mapLookup m c) x hxd]

/-- Effect of processing one NFA state's whole transition map in phase 1. -/
lemma phase1Pairs_fold_reads (m : List (Nat × Nat)) (i d : Nat) :
    ∀ (ps : List (String × List Nat)) (h : Heap), (h.find? d).isSome = true →
      (∀ pq lq, pq ≠ d →
        getChildren (ps.foldl (fun hh pair =>
          pair.2.foldl (phase1Step m i d pair.1) hh) h) pq lq =
          getChildren h pq lq) ∧
      (∀ l x, x ∈ getChildren (ps.foldl (fun hh pair =>
          pair.2.foldl (phase1Step m i d pair.1) hh) h) d l ↔
        (x ∈ getChildren h d l ∨
          ∃ q ∈ ps, q.1 = l ∧ ∃ c ∈ q.2, ¬(c = i ∧ l = EPSILON) ∧
            x = mapLookup m c)) ∧
      (∀ x, stateLevel (ps.foldl (fun hh pair =>
        pair.2.foldl (phase1Step m i d pair.1) hh) h) x = stateLevel h x) ∧
      (∀ x, stateName (ps.foldl (fun hh pair =>
        pair.2.foldl (phase1Step m i d pair.1) hh) h) x = stateName h x) ∧
      (∀ x, stateFinal (ps.foldl (fun hh pair =>
        pair.2.foldl (phase1Step m i d pair.1) hh) h) x = stateFinal h x) ∧
      (∀ x, stateExtension (ps.foldl (fun hh pair =>
        pair.2.foldl (phase1Step m i d pair.1) hh) h) x = stateExtension h x) ∧
      (∀ x, ((ps.foldl (fun hh pair =>
        pair.2.foldl (phase1Step m i d pair.1) hh) h).find? x).isSome =
        (h.find? x).isSome) ∧
      (∀ x, x ≠ d → getExitingTransitions (ps.foldl (fun hh pair =>
        pair.2.foldl (phase1Step m i d pair.1) hh) h) x =
        getExitingTransitions h x) := by
  intro ps
  induction ps with
  | nil =>
    intro h _
    refine ⟨fun pq lq _ => rfl, fun l x => ?_, fun x => rfl, fun x => rfl,
      fun x => rfl, fun x => rfl, fun x => rfl, fun x _ => rfl⟩
    simp
  | cons q qrest ih =>
    intro h hd
    rcases phase1Step_fold_reads m i d q.1 q.2 h hd with
      ⟨f1, f2, f3, f4, f5, f6, f7, f8⟩
    have hd1 : ((q.2.foldl (phase1Step m i d q.1) h).find? d).isSome = true := by
      rw [f7 d]
      exact hd
    rcases ih (q.2.foldl (phase1Step m i d q.1) h) hd1 with
      ⟨g1, g2, g3, g4, g5, g6, g7, g8⟩
    rw [List.foldl_cons]
    refine ⟨?_, ?_, ?_, ?_, ?_, ?_, ?_, ?_⟩
    · intro pq lq hne
      rw [g1 pq lq hne, f1 pq lq (fun hand => hne hand.1)]
    · intro l x
      rw [g2 l x]
      by_cases hl : l = q.1
      · subst hl
        have hmemf := f2 x
        constructor
        · rintro (hx | ⟨q2, hq2, hql, c2, hc2, hcond, hval⟩)
          · rcases hmemf.mp hx with hx2 | ⟨c2, hc2, hcond, hval⟩
            · exact Or.inl hx2
            · exact Or.inr ⟨q, List.mem_cons_self _ _, rfl, c2, hc2, hcond, hval⟩
          · exact Or.inr ⟨q2, List.mem_cons_of_mem _ hq2, hql, c2, hc2, hcond, hval⟩
        · rintro (hx | ⟨q2, hq2, hql, c2, hc2, hcond, hval⟩)
          · exact Or.inl (hmemf.mpr (Or.inl hx))
          · rcases List.mem_cons.mp hq2 with h1q | h1q
            · subst h1q
              exact Or.inl (hmemf.mpr (Or.inr ⟨c2, hc2, hcond, hval⟩))
            · exact Or.inr ⟨q2, h1q, hql, c2, hc2, hcond, hval⟩
      · rw [f1 d l (fun hand => hl hand.2)]
        constructor
        · rintro (hx | ⟨q2, hq2, hql, c2, hc2, hcond, hval⟩)
          · exact Or.inl hx
          · exact Or.inr ⟨q2, List.mem_cons_of_mem _ hq2, hql, c2, hc2, hcond, hval⟩
        · rintro (hx | ⟨q2, hq2, hql, c2, hc2, hcond, hval⟩)
          · exact Or.inl hx
          · rcases List.mem_cons.mp hq2 with h1q | h1q
            · exact absurd (by rw [h1q] at hql; exact hql.symm) hl
            · exact Or.inr ⟨q2, h1q, hql, c2, hc2, hcond, hval⟩
    · intro x
      rw [g3 x, f3 x]
    · intro x
      rw [g4 x, f4 x]
    · intro x
      rw [g5 x, f5 x]
    · intro x
      rw [g6 x, f6 x]
    · intro x
      rw [g7 x, f7 x]
    · intro x hxd
      rw [g8 x hxd, f8 x hxd]

lemma pair_eq_of_snd_nodup {m : List (Nat × Nat)} (hnd : (m.map (·.2)).Nodup) :
    ∀ {a b : Nat × Nat}, a ∈ m → b ∈ m → a.2 = b.2 → a = b := by
  induction m with
  | nil =>
    intro a b ha
    cases ha
  | cons q rest ih =>
    have hnd2 : q.2 ∉ rest.map (·.2) ∧ (rest.map (·.2)).Nodup := by
      rw [List.map_cons, List.nodup_cons] at hnd
      exact hnd
    intro a b ha hb he
    rcases List.mem_cons.mp ha with ha1 | ha1 <;>
      rcases List.mem_cons.mp hb with hb1 | hb1
    · rw [ha1, hb1]
    · exfalso
      refine hnd2.1 (List.mem_map.mpr ⟨b, hb1, ?_⟩)
      rw [← he, ha1]
    · exfalso
      refine hnd2.1 (List.mem_map.mpr ⟨a, ha1, ?_⟩)
      rw [he, hb1]
    · exact ih hnd2.2 ha1 hb1 he

/-- Full specification of phase 1's transition-copying loop: NFA states keep
all their readable attributes, clone scalars are stable, untouched clones keep
their children, and each processed clone's children are exactly the mapped,
non-(epsilon-self-loop) children of its NFA original. -/
lemma qscPhase1TransGo_spec (nfa : Automaton) (m : List (Nat × Nat))
    (h0 : Heap) (hN : Nat)
    (hfstnd : (m.map (·.1)).Nodup) (hsndnd : (m.map (·.2)).Nodup)
    (hdlarge : ∀ pr ∈ m, hN ≤ pr.2)
    (hmemfst : ∀ j ∈ nfa.members, j ∈ m.map (·.1))
    (hjlt : ∀ j ∈ nfa.members, j < hN)
    (hwf : ∀ j ∈ nfa.members, ((getExitingTransitions h0 j).map (·.1)).Nodup) :
    ∀ (todo : List Nat) (hcur : Heap) (sl : List (Nat × String)),
      (∀ j ∈ todo, j ∈ nfa.members) → todo.Nodup →
      (∀ j, j < hN →
        getExitingTransitions hcur j = getExitingTransitions h0 j ∧
        stateLevel hcur j = stateLevel h0 j ∧
        stateName hcur j = stateName h0 j ∧
        stateFinal hcur j = stateFinal h0 j ∧
        stateExtension hcur j = stateExtension h0 j) →
      (∀ pr ∈ m,
        stateName hcur pr.2 = "\x7b" ++ stateName h0 pr.1 ++ "\x7d" ∧
        stateFinal hcur pr.2 = stateFinal h0 pr.1 ∧
        stateLevel hcur pr.2 = stateLevel h0 pr.1 ∧
        stateExtension hcur pr.2 = [pr.1] ∧
        (hcur.find? pr.2).isSome = true) →
      (∀ pr ∈ m, pr.1 ∈ todo → ∀ l, getChildren hcur pr.2 l = []) →
      ((∀ j, j < hN →
        getExitingTransitions (qscPhase1TransGo nfa m hcur sl todo).1 j =
          getExitingTransitions h0 j ∧
        stateLevel (qscPhase1TransGo nfa m hcur sl todo).1 j = stateLevel h0 j ∧
        stateName (qscPhase1TransGo nfa m hcur sl todo).1 j = stateName h0 j ∧
        stateFinal (qscPhase1TransGo nfa m hcur sl todo).1 j = stateFinal h0 j ∧
        stateExtension (qscPhase1TransGo nfa m hcur sl todo).1 j =
          stateExtension h0 j) ∧
       (∀ pr ∈ m,
        stateName (qscPhase1TransGo nfa m hcur sl todo).1 pr.2 =
          "\x7b" ++ stateName h0 pr.1 ++ "\x7d" ∧
        stateFinal (qscPhase1TransGo nfa m hcur sl todo).1 pr.2 =
          stateFinal h0 pr.1 ∧
        stateLevel (qscPhase1TransGo nfa m hcur sl todo).1 pr.2 =
          stateLevel h0 pr.1 ∧
        stateExtension (qscPhase1TransGo nfa m hcur sl todo).1 pr.2 = [pr.1] ∧
        ((qscPhase1TransGo nfa m hcur sl todo).1.find? pr.2).isSome = true) ∧
       (∀ pr ∈ m, pr.1 ∉ todo → ∀ l,
         getChildren (qscPhase1TransGo nfa m hcur sl todo).1 pr.2 l =
           getChildren hcur pr.2 l) ∧
       (∀ pr ∈ m, pr.1 ∈ todo → ∀ l x,
         x ∈ getChildren (qscPhase1TransGo nfa m hcur sl todo).1 pr.2 l ↔
           ∃ c ∈ getChildren h0 pr.1 l, ¬(c = pr.1 ∧ l = EPSILON) ∧
             x = mapLookup m c)) := by
  intro todo
  induction todo with
  | nil =>
    intro hcur sl _ _ hI1 hI2 _
    exact ⟨hI1, hI2, fun pr _ _ l => rfl,
      fun pr _ hmem => absurd hmem (List.not_mem_nil _)⟩
  | cons i rest ih =>
    intro hcur sl htodomem htodond hI1 hI2 hI3
    have himem : i ∈ nfa.members := htodomem i (List.mem_cons_self _ _)
    have hilt : i < hN := hjlt i himem
    have hpri : (i, mapLookup m i) ∈ m := mapLookup_mem (hmemfst i himem)
    have hdge : hN ≤ mapLookup m i := hdlarge _ hpri
    have hinotr : i ∉ rest := (List.nodup_cons.mp htodond).1
    have hdsome : (hcur.find? (mapLookup m i)).isSome = true :=
      (hI2 _ hpri).2.2.2.2
    have hsh : phase1StateHeap m i hcur =
        (getExitingTransitions hcur i).foldl
          (fun hh pair =>
            pair.2.foldl (phase1Step m i (mapLookup m i) pair.1) hh) hcur := rfl
    rcases phase1Pairs_fold_reads m i (mapLookup m i)
      (getExitingTransitions hcur i) hcur hdsome with
      ⟨p1, p2, p3, p4, p5, p6, p7, p8⟩
    rw [← hsh] at p1 p2 p3 p4 p5 p6 p7 p8
    have heq : qscPhase1TransGo nfa m hcur sl (i :: rest) =
        qscPhase1TransGo nfa m (phase1StateHeap m i hcur)
          (qscPhase1State nfa m hcur sl i).2 rest := by
      show qscPhase1TransGo nfa m (qscPhase1State nfa m hcur sl i).1
        (qscPhase1State nfa m hcur sl i).2 rest = _
      rw [qscPhase1State_heap]
    rw [heq]
    -- the clone of any pair whose first component differs from `i` is not the
    -- current write target
    have hother : ∀ pr ∈ m, pr.1 ≠ i → pr.2 ≠ mapLookup m i := by
      intro pr hpr hne hc
      exact hne (congrArg (·.1) (pair_eq_of_snd_nodup hsndnd hpr hpri hc))
    have hrec := ih (phase1StateHeap m i hcur) (qscPhase1State nfa m hcur sl i).2
      (fun j hj => htodomem j (List.mem_cons_of_mem _ hj))
      (List.nodup_cons.mp htodond).2
      (fun j hj => by
        have hjne : j ≠ mapLookup m i := by omega
        rcases hI1 j hj with ⟨a1, a2, a3, a4, a5⟩
        exact ⟨(p8 j hjne).trans a1, (p3 j).trans a2, (p4 j).trans a3,
          (p5 j).trans a4, (p6 j).trans a5⟩)
      (fun pr hpr => by
        rcases hI2 pr hpr with ⟨a1, a2, a3, a4, a5⟩
        exact ⟨(p4 pr.2).trans a1, (p5 pr.2).trans a2, (p3 pr.2).trans a3,
          (p6 pr.2).trans a4, (p7 pr.2).trans a5⟩)
      (fun pr hpr hprr l => by
        have hne : pr.1 ≠ i := fun hc => hinotr (hc ▸ hprr)
        rw [p1 pr.2 l (hother pr hpr hne)]
        exact hI3 pr hpr (List.mem_cons_of_mem _ hprr) l)
    rcases hrec with ⟨r1, r2, r3, r4⟩
    refine ⟨r1, r2, ?_, ?_⟩
    · intro pr hpr hnmem l
      have hnr : pr.1 ∉ rest := fun hc => hnmem (List.mem_cons_of_mem _ hc)
      have hne : pr.1 ≠ i := fun hc => hnmem (hc ▸ List.mem_cons_self _ _)
      rw [r3 pr hpr hnr l, p1 pr.2 l (hother pr hpr hne)]
    · intro pr hpr hmem l x
      rcases List.mem_cons.mp hmem with hpi | hpi
      · -- the state processed in this step
        have hpr2 : pr.2 = mapLookup m i := by
          rw [← hpi]
          exact (mapLookup_eq_of_mem hfstnd hpr).symm
        have hnr : pr.1 ∉ rest := fun hc => hinotr (hpi ▸ hc)
        rw [r3 pr hpr hnr l]
        have hempty : getChildren hcur pr.2 l = [] := hI3 pr hpr hmem l
        have hsnap : getExitingTransitions hcur i = getExitingTransitions h0 i :=
          (hI1 i hilt).1
        rw [hpr2, p2 l x, ← hpr2, hempty]
        rw [hsnap, hpi]
        constructor
        · rintro (hx | ⟨q, hq, hql, c, hc, hcond, hval⟩)
          · exact absurd hx (List.not_mem_nil _)
          · refine ⟨c, ?_, hcond, hval⟩
            rw [getChildren_eq_tmGet_exiting]
            exact mem_tmGet_of_entry (hwf i himem) hq hql hc
        · rintro ⟨c, hc, hcond, hval⟩
          rw [getChildren_eq_tmGet_exiting] at hc
          rcases tmGet_mem_entry hc with ⟨q, hq, hql, hcq⟩
          exact Or.inr ⟨q, hq, hql, c, hcq, hcond, hval⟩
      · exact r4 pr hpr hpi l x

lemma getExitingTransitions_setLevel (h : Heap) (r v x : Nat) :
    getExitingTransitions (setLevel h r v) x = getExitingTransitions h x := by
  by_cases hx : x = r
  · subst hx
    rcases hf : h.find? x with - | sd
    · unfold setLevel
      rw [hf]
    · unfold getExitingTransitions
      rw [setLevel_find?_self hf, hf]
      rfl
  · unfold getExitingTransitions
    rw [setLevel_find?_other hx]

lemma allChildren_setLevel (h : Heap) (r v x : Nat) :
    allChildren (setLevel h r v) x = allChildren h x := by
  unfold allChildren
  rw [getExitingTransitions_setLevel]

lemma getChildren_setLevel (h : Heap) (r v x : Nat) (l : String) :
    getChildren (setLevel h r v) x l = getChildren h x l := by
  rw [getChildren_eq_tmGet_exiting, getChildren_eq_tmGet_exiting,
    getExitingTransitions_setLevel]

lemma stateLevel_setLevel_self {h : Heap} {r : Nat} {sd : StateData}
    (hf : h.find? r = some sd) (v : Nat) : stateLevel (setLevel h r v) r = v := by
  unfold stateLevel
  rw [setLevel_find?_self hf]
  rfl

lemma stateLevel_setLevel_other {h : Heap} {r x : Nat} (hx : x ≠ r) (v : Nat) :
    stateLevel (setLevel h r v) x = stateLevel h x := by
  unfold stateLevel
  rw [setLevel_find?_other hx]

lemma scalars_setLevel (h : Heap) (r v x : Nat) :
    stateName (setLevel h r v) x = stateName h x ∧
    stateFinal (setLevel h r v) x = stateFinal h x ∧
    stateExtension (setLevel h r v) x = stateExtension h x ∧
    ((setLevel h r v).find? x).isSome = (h.find? x).isSome := by
  by_cases hx : x = r
  · subst hx
    rcases hf : h.find? x with - | sd
    · have hsl : setLevel h x v = h := by
        unfold setLevel
        rw [hf]
      rw [hsl]
      exact ⟨rfl, rfl, rfl, by rw [hf]⟩
    · unfold stateName stateFinal stateExtension
      rw [setLevel_find?_self hf, hf]
      exact ⟨rfl, rfl, rfl, rfl⟩
  · unfold stateName stateFinal stateExtension
    rw [setLevel_find?_other hx]
    exact ⟨rfl, rfl, rfl, rfl⟩

lemma mem_foldl_append :
    ∀ (ps : List (String × List Nat)) (acc : List Nat) (c : Nat),
      c ∈ ps.foldl (fun a p => a ++ p.2) acc ↔ c ∈ acc ∨ ∃ q ∈ ps, c ∈ q.2 := by
  intro ps
  induction ps with
  | nil =>
    intro acc c
    simp
  | cons p prest ih =>
    intro acc c
    rw [List.foldl_cons, ih]
    constructor
    · rintro (hc | ⟨q, hq, hcq⟩)
      · rcases List.mem_append.mp hc with h1 | h1
        · exact Or.inl h1
        · exact Or.inr ⟨p, List.mem_cons_self _ _, h1⟩
      · exact Or.inr ⟨q, List.mem_cons_of_mem _ hq, hcq⟩
    · rintro (hc | ⟨q, hq, hcq⟩)
      · exact Or.inl (List.mem_append.mpr (Or.inl hc))
      · rcases List.mem_cons.mp hq with h1 | h1
        · exact Or.inl (List.mem_append.mpr (Or.inr (by rw [← h1]; exact hcq)))
        · exact Or.inr ⟨q, h1, hcq⟩

lemma levels_fold_noop (cur : Nat) (h : Heap) :
    ∀ (cs : List Nat) (q : List Nat),
      (∀ c ∈ cs, stateLevel h c ≠ DEFAULT_VOID_LEVEL) →
      cs.foldl (fun (acc : Heap × List Nat) c =>
        if stateLevel acc.1 c = DEFAULT_VOID_LEVEL then
          (setLevel acc.1 c (stateLevel acc.1 cur + 1), acc.2 ++ [c])
        else acc) (h, q) = (h, q) := by
  intro cs
  induction cs with
  | nil =>
    intro q _
    rfl
  | cons c crest ih =>
    intro q hnv
    simp only [List.foldl_cons]
    rw [if_neg (hnv c (List.mem_cons_self _ _))]
    exact ih q (fun c2 hc2 => hnv c2 (List.mem_cons_of_mem _ hc2))

/-- When every child of the (single) enqueued state already carries a
non-`VOID` level, the breadth-first level pass does nothing. -/
lemma initLevelsAux_noop_single (h : Heap) (cur : Nat)
    (hnv : ∀ c ∈ allChildren h cur, stateLevel h c ≠ DEFAULT_VOID_LEVEL) :
    ∀ fuel, 2 ≤ fuel → (initLevelsAux fuel h [cur]).1 = h := by
  intro fuel h2
  rcases fuel with - | n
  · omega
  rcases n with - | k
  · omega
  show (initLevelsAux (k + 2) h [cur]).1 = h
  have hfold := levels_fold_noop cur h (allChildren h cur) [] hnv
  have hstep : initLevelsAux (k + 2) h [cur] = initLevelsAux (k + 1) h [] := by
    show initLevelsAux (k + 1)
      ((allChildren h cur).foldl
        (fun (acc : Heap × List Nat) c =>
          if stateLevel acc.1 c = DEFAULT_VOID_LEVEL then
            (setLevel acc.1 c (stateLevel acc.1 cur + 1), acc.2 ++ [c])
          else acc) (h, [])).1
      ([] ++ ((allChildren h cur).foldl
        (fun (acc : Heap × List Nat) c =>
          if stateLevel acc.1 c = DEFAULT_VOID_LEVEL then
            (setLevel acc.1 c (stateLevel acc.1 cur + 1), acc.2 ++ [c])
          else acc) (h, [])).2) = _
    rw [hfold]
    rfl
  rw [hstep]
  rfl

lemma mem_tmSet {l : String} {v : List Nat} :
    ∀ {tm : List (String × List Nat)} {q : String × List Nat},
      q ∈ tmSet l v tm → q = (l, v) ∨ q ∈ tm := by
  intro tm
  induction tm with
  | nil =>
    intro q hq
    rcases List.mem_cons.mp hq with h1 | h1
    · exact Or.inl h1
    · exact absurd h1 (List.not_mem_nil _)
  | cons p rest ih =>
    intro q hq
    show q = (l, v) ∨ q ∈ p :: rest
    revert hq
    show q ∈ (if l < p.1 then (l, v) :: p :: rest
      else if l = p.1 then (l, v) :: rest
      else p :: tmSet l v rest) → _
    by_cases h1 : l < p.1
    · rw [if_pos h1]
      intro hq
      rcases List.mem_cons.mp hq with h2 | h2
      · exact Or.inl h2
      · exact Or.inr h2
    · rw [if_neg h1]
      by_cases h2 : l = p.1
      · rw [if_pos h2]
        intro hq
        rcases List.mem_cons.mp hq with h3 | h3
        · exact Or.inl h3
        · exact Or.inr (List.mem_cons_of_mem _ h3)
      · rw [if_neg h2]
        intro hq
        rcases List.mem_cons.mp hq with h3 | h3
        · exact Or.inr (List.mem_cons.mpr (Or.inl h3))
        · rcases ih h3 with h4 | h4
          · exact Or.inl h4
          · exact Or.inr (List.mem_cons_of_mem _ h4)

lemma tmInsert_targets {tm : List (String × List Nat)} {l : String} {c : Nat}
    {L : Nat → Prop} (hall : ∀ q ∈ tm, ∀ t ∈ q.2, L t) (hc : L c) :
    ∀ q ∈ tmInsert tm l c, ∀ t ∈ q.2, L t := by
  intro q hq t ht
  rcases mem_tmSet hq with h1 | h1
  · rw [h1] at ht
    rcases mem_idInsert.mp ht with h2 | h2
    · rw [h2]
      exact hc
    · rcases tmGet_mem_entry h2 with ⟨q2, hq2, -, htq2⟩
      exact hall q2 hq2 t htq2
  · exact hall q h1 t ht

/-- The exiting map of the parent after a `connectChild` is either unchanged
or the `tmInsert` of the new edge. -/
lemma connect_exiting_self (h : Heap) (p : Nat) (l : String) (c : Nat) :
    getExitingTransitions (connectChild true h p l c) p =
      getExitingTransitions h p ∨
    getExitingTransitions (connectChild true h p l c) p =
      tmInsert (getExitingTransitions h p) l c := by
  rcases hf : h.find? p with - | sd
  · left
    rw [connectChild_of_none hf]
  · have hexp : getExitingTransitions h p = sd.exiting := by
      unfold getExitingTransitions
      rw [hf]
      rfl
    unfold connectChild
    simp only [hf]
    by_cases hcont : (tmGet sd.exiting l).contains c
    · left
      rw [if_pos hcont]
    · right
      rw [if_neg hcont]
      simp only [if_true]
      rw [hexp]
      rcases hc1 : (h.set p { sd with exiting := tmInsert sd.exiting l c }).find? c
        with - | cd
      · simp only [hc1]
        unfold getExitingTransitions
        rw [Heap.find?_set_self hf]
        rfl
      · simp only [hc1]
        by_cases hcp : c = p
        · subst hcp
          unfold getExitingTransitions
          rw [Heap.find?_set_self hc1]
          have hw : (h.set c { sd with exiting := tmInsert sd.exiting l c }).find? c =
              some { sd with exiting := tmInsert sd.exiting l c } :=
            Heap.find?_set_self hf _
          rw [hw] at hc1
          injection hc1 with hcd
          rw [← hcd]
          rfl
        · unfold getExitingTransitions
          rw [Heap.find?_set_other (Ne.symm hcp), Heap.find?_set_self hf]
          rfl

lemma phase1Step_fold_exits (m : List (Nat × Nat)) (i d : Nat) (lab : String) :
    ∀ (cs : List Nat) (h : Heap) (x : Nat), x ≠ d →
      getExitingTransitions (cs.foldl (phase1Step m i d lab) h) x =
        getExitingTransitions h x := by
  intro cs
  induction cs with
  | nil =>
    intro h x _
    rfl
  | cons c crest ih =>
    intro h x hx
    rw [List.foldl_cons, ih _ x hx]
    unfold phase1Step
    by_cases hskip : c = i ∧ lab = EPSILON
    · rw [if_pos hskip]
    · rw [if_neg hskip]
      exact connect_exiting h d lab (mapLookup m c) x hx

lemma phase1Pairs_fold_exits (m : List (Nat × Nat)) (i d : Nat) :
    ∀ (ps : List (String × List Nat)) (h : Heap) (x : Nat), x ≠ d →
      getExitingTransitions (ps.foldl (fun hh pair =>
        pair.2.foldl (phase1Step m i d pair.1) hh) h) x =
        getExitingTransitions h x := by
  intro ps
  induction ps with
  | nil =>
    intro h x _
    rfl
  | cons p prest ih =>
    intro h x hx
    rw [List.foldl_cons, ih _ x hx]
    exact phase1Step_fold_exits m i d p.1 p.2 h x hx

lemma phase1Step_fold_targets (m : List (Nat × Nat)) (i d : Nat) (lab : String)
    {L : Nat → Prop} :
    ∀ (cs : List Nat) (h : Heap),
      (∀ c ∈ cs, L (mapLookup m c)) →
      (∀ q ∈ getExitingTransitions h d, ∀ t ∈ q.2, L t) →
      ∀ q ∈ getExitingTransitions (cs.foldl (phase1Step m i d lab) h) d,
        ∀ t ∈ q.2, L t := by
  intro cs
  induction cs with
  | nil =>
    intro h _ hall
    exact hall
  | cons c crest ih =>
    intro h hcs hall
    rw [List.foldl_cons]
    apply ih
    · exact fun c2 hc2 => hcs c2 (List.mem_cons_of_mem _ hc2)
    · show ∀ q ∈ getExitingTransitions (phase1Step m i d lab h c) d, ∀ t ∈ q.2, L t
      unfold phase1Step
      by_cases hskip : c = i ∧ lab = EPSILON
      · rw [if_pos hskip]
        exact hall
      · rw [if_neg hskip]
        rcases connect_exiting_self h d lab (mapLookup m c) with heq | heq
        · rw [heq]
          exact hall
        · rw [heq]
          exact tmInsert_targets hall (hcs c (List.mem_cons_self _ _))

lemma phase1Pairs_fold_targets (m : List (Nat × Nat)) (i d : Nat)
    {L : Nat → Prop} :
    ∀ (ps : List (String × List Nat)) (h : Heap),
      (∀ q ∈ ps, ∀ c ∈ q.2, L (mapLookup m c)) →
      (∀ q ∈ getExitingTransitions h d, ∀ t ∈ q.2, L t) →
      ∀ q ∈ getExitingTransitions (ps.foldl (fun hh pair =>
          pair.2.foldl (phase1Step m i d pair.1) hh) h) d, ∀ t ∈ q.2, L t := by
  intro ps
  induction ps with
  | nil =>
    intro h _ hall
    exact hall
  | cons p prest ih =>
    intro h hps hall
    rw [List.foldl_cons]
    apply ih
    · exact fun q hq c hc => hps q (List.mem_cons_of_mem _ hq) c hc
    · exact phase1Step_fold_targets m i d p.1 p.2 h
        (fun c hc => hps p (List.mem_cons_self _ _) c hc) hall

/-- Throughout phase 1's transition loop, every transition target of a clone
is itself a clone. -/
lemma qscPhase1TransGo_targets (nfa : Automaton) (m : List (Nat × Nat))
    (h0 : Heap) (hN : Nat)
    (hdlarge : ∀ pr ∈ m, hN ≤ pr.2)
    (hmemfst : ∀ j ∈ nfa.members, j ∈ m.map (·.1))
    (hjlt : ∀ j ∈ nfa.members, j < hN)
    (hwf : ∀ j ∈ nfa.members, ((getExitingTransitions h0 j).map (·.1)).Nodup)
    (hclosed : ∀ i ∈ nfa.members, ∀ l c, c ∈ getChildren h0 i l →
      c ∈ nfa.members) :
    ∀ (todo : List Nat) (hcur : Heap) (sl : List (Nat × String)),
      (∀ j ∈ todo, j ∈ nfa.members) →
      (∀ j, j < hN →
        getExitingTransitions hcur j = getExitingTransitions h0 j) →
      (∀ pr ∈ m, ∀ q ∈ getExitingTransitions hcur pr.2, ∀ t ∈ q.2,
        ∃ pr2 ∈ m, t = pr2.2) →
      (∀ pr ∈ m, ∀ q ∈ getExitingTransitions
          (qscPhase1TransGo nfa m hcur sl todo).1 pr.2, ∀ t ∈ q.2,
        ∃ pr2 ∈ m, t = pr2.2) := by
  intro todo
  induction todo with
  | nil =>
    intro hcur sl _ _ htar
    exact htar
  | cons i rest ih =>
    intro hcur sl htodomem hexits htar
    have himem : i ∈ nfa.members := htodomem i (List.mem_cons_self _ _)
    have hilt : i < hN := hjlt i himem
    have hpri : (i, mapLookup m i) ∈ m := mapLookup_mem (hmemfst i himem)
    have hdge : hN ≤ mapLookup m i := hdlarge _ hpri
    have heq : qscPhase1TransGo nfa m hcur sl (i :: rest) =
        qscPhase1TransGo nfa m (phase1StateHeap m i hcur)
          (qscPhase1State nfa m hcur sl i).2 rest := by
      show qscPhase1TransGo nfa m (qscPhase1State nfa m hcur sl i).1
        (qscPhase1State nfa m hcur sl i).2 rest = _
      rw [qscPhase1State_heap]
    rw [heq]
    have hshexits : ∀ x, x ≠ mapLookup m i →
        getExitingTransitions (phase1StateHeap m i hcur) x =
          getExitingTransitions hcur x := by
      intro x hx
      show getExitingTransitions ((getExitingTransitions hcur i).foldl
        (fun hh pair =>
          pair.2.foldl (phase1Step m i (mapLookup m i) pair.1) hh) hcur) x = _
      exact phase1Pairs_fold_exits m i (mapLookup m i)
        (getExitingTransitions hcur i) hcur x hx
    apply ih (phase1StateHeap m i hcur) (qscPhase1State nfa m hcur sl i).2
      (fun j hj => htodomem j (List.mem_cons_of_mem _ hj))
    · intro j hj
      rw [hshexits j (by omega)]
      exact hexits j hj
    · intro pr hpr q hq t ht
      by_cases hprd : pr.2 = mapLookup m i
      · rw [hprd] at hq
        have hps : ∀ q2 ∈ getExitingTransitions hcur i, ∀ c ∈ q2.2,
            ∃ pr2 ∈ m, mapLookup m c = pr2.2 := by
          intro q2 hq2 c hc
          rw [hexits i hilt] at hq2
          have hcch : c ∈ getChildren h0 i q2.1 := by
            rw [getChildren_eq_tmGet_exiting]
            exact mem_tmGet_of_entry (hwf i himem) hq2 rfl hc
          have hcm : c ∈ nfa.members := hclosed i himem q2.1 c hcch
          exact ⟨(c, mapLookup m c), mapLookup_mem (hmemfst c hcm), rfl⟩
        have htard : ∀ q2 ∈ getExitingTransitions hcur (mapLookup m i),
            ∀ t2 ∈ q2.2, ∃ pr2 ∈ m, t2 = pr2.2 := htar _ hpri
        exact phase1Pairs_fold_targets m i (mapLookup m i)
          (getExitingTransitions hcur i) hcur hps htard q hq t ht
      · rw [hshexits pr.2 hprd] at hq
        exact htar pr hpr q hq t ht

/-- **C3** (amended).  After phase 1 of `QuickSubsetConstruction::run` (the
cloning phase, before any restructuring), on a well-formed NFA arena whose
levels are initialized (no state at `DEFAULT_VOID_LEVEL`, initial state at
level 0), the produced automaton has exactly one `ConstructedState` per NFA
state with a singleton extension containing that state, the decorated name,
the same finality and the same distance, and its labeled transitions are the
mapped transitions of the NFA state *except that epsilon self-loops are
dropped* (the loop at `QuickSubsetConstruction.cpp:168` skips them); the
cloned initial state is marked initial, and the NFA's own states are left
untouched. -/
theorem c3_phase1_builds_marked_copy (h0 : Heap) (nfa : Automaton) (i0 : Nat)
    (hfr : freshHeap h0)
    (hmemdom : ∀ i ∈ nfa.members, i ∈ h0.dom)
    (hmnd : nfa.members.Nodup)
    (hclosedE : ∀ i ∈ nfa.members, ∀ q ∈ getExitingTransitions h0 i,
      ∀ c ∈ q.2, c ∈ nfa.members)
    (hwf : ∀ i ∈ nfa.members, ((getExitingTransitions h0 i).map (·.1)).Nodup)
    (hlevels : ∀ i ∈ nfa.members, stateLevel h0 i ≠ DEFAULT_VOID_LEVEL)
    (hinit : nfa.initial = some i0) (hi0 : i0 ∈ nfa.members)
    (hlvl0 : stateLevel h0 i0 = 0) :
    ((qscPhase1 h0 nfa).2.2.1.map (·.1) = nfa.members) ∧
    ((qscPhase1 h0 nfa).2.1.members = (qscPhase1 h0 nfa).2.2.1.map (·.2)) ∧
    ((qscPhase1 h0 nfa).2.2.1.map (·.2)).Nodup ∧
    ((qscPhase1 h0 nfa).2.1.initial =
      some (mapLookup (qscPhase1 h0 nfa).2.2.1 i0)) ∧
    (∀ pr ∈ (qscPhase1 h0 nfa).2.2.1,
      stateName (qscPhase1 h0 nfa).1 pr.2 =
        "\x7b" ++ stateName h0 pr.1 ++ "\x7d" ∧
      stateFinal (qscPhase1 h0 nfa).1 pr.2 = stateFinal h0 pr.1 ∧
      stateLevel (qscPhase1 h0 nfa).1 pr.2 = stateLevel h0 pr.1 ∧
      stateExtension (qscPhase1 h0 nfa).1 pr.2 = [pr.1]) ∧
    (∀ pr ∈ (qscPhase1 h0 nfa).2.2.1, ∀ l x,
      x ∈ getChildren (qscPhase1 h0 nfa).1 pr.2 l ↔
        ∃ c ∈ getChildren h0 pr.1 l, ¬(c = pr.1 ∧ l = EPSILON) ∧
          x = mapLookup (qscPhase1 h0 nfa).2.2.1 c) ∧
    (∀ j ∈ nfa.members,
      getExitingTransitions (qscPhase1 h0 nfa).1 j =
        getExitingTransitions h0 j ∧
      stateLevel (qscPhase1 h0 nfa).1 j = stateLevel h0 j ∧
      stateName (qscPhase1 h0 nfa).1 j = stateName h0 j ∧
      stateFinal (qscPhase1 h0 nfa).1 j = stateFinal h0 j ∧
      stateExtension (qscPhase1 h0 nfa).1 j = stateExtension h0 j) := by
  have hclosed : ∀ i ∈ nfa.members, ∀ l c, c ∈ getChildren h0 i l →
      c ∈ nfa.members := by
    intro i hi l c hc
    rw [getChildren_eq_tmGet_exiting] at hc
    rcases tmGet_mem_entry hc with ⟨q, hq, -, hcq⟩
    exact hclosedE i hi q hq c hcq
  rcases qscCloneStatesGo_spec nfa.members h0 ⟨[], none⟩ [] hfr hmemdom
    (fun x hx => absurd hx (List.not_mem_nil _)) with
    ⟨madd, hm, hfst, hmembers, hold, hrecs, hndsnd, hfresh, hnextle, hbound⟩
  set R1 := qscCloneStatesGo h0 ⟨[], none⟩ [] nfa.members with hR1def
  have hm' : R1.2.2 = madd := by
    rw [hm]
    rfl
  have hmembers' : R1.2.1.members = madd.map (·.2) := by
    rw [hmembers]
    rfl
  set HT := qscPhase1TransGo nfa R1.2.2 R1.1 [] nfa.members with hHTdef
  have hHTm : HT = qscPhase1TransGo nfa madd R1.1 [] nfa.members := by
    rw [hHTdef, hm']
  set D0 := mapLookup R1.2.2 i0 with hD0def
  have hD0m : D0 = mapLookup madd i0 := by
    rw [hD0def, hm']
  have hqsc : qscPhase1 h0 nfa =
      ((setInitialState HT.1 R1.2.1 D0).1, (setInitialState HT.1 R1.2.1 D0).2,
        R1.2.2, HT.2) := by
    unfold qscPhase1
    rw [hinit]
  have hP1 : (qscPhase1 h0 nfa).1 = (setInitialState HT.1 R1.2.1 D0).1 := by
    rw [hqsc]
  have hPdfa : (qscPhase1 h0 nfa).2.1 = (setInitialState HT.1 R1.2.1 D0).2 := by
    rw [hqsc]
  have hPm : (qscPhase1 h0 nfa).2.2.1 = madd := by
    rw [hqsc]
    exact hm'
  have hfstnd : (madd.map (·.1)).Nodup := by
    rw [hfst]
    exact hmnd
  have hdlarge : ∀ pr ∈ madd, h0.next ≤ pr.2 := fun pr hpr => (hrecs pr hpr).1
  have hmemfst : ∀ j ∈ nfa.members, j ∈ madd.map (·.1) := by
    intro j hj
    rw [hfst]
    exact hj
  have hjlt : ∀ j ∈ nfa.members, j < h0.next := fun j hj => hfr j (hmemdom j hj)
  have hI1 : ∀ j, j < h0.next →
      getExitingTransitions R1.1 j = getExitingTransitions h0 j ∧
      stateLevel R1.1 j = stateLevel h0 j ∧
      stateName R1.1 j = stateName h0 j ∧
      stateFinal R1.1 j = stateFinal h0 j ∧
      stateExtension R1.1 j = stateExtension h0 j := by
    intro j hj
    have hfd := hold j hj
    refine ⟨?_, ?_, ?_, ?_, ?_⟩
    · unfold getExitingTransitions
      rw [hfd]
    · unfold stateLevel
      rw [hfd]
    · unfold stateName
      rw [hfd]
    · unfold stateFinal
      rw [hfd]
    · unfold stateExtension
      rw [hfd]
  have hI2 : ∀ pr ∈ madd,
      stateName R1.1 pr.2 = "\x7b" ++ stateName h0 pr.1 ++ "\x7d" ∧
      stateFinal R1.1 pr.2 = stateFinal h0 pr.1 ∧
      stateLevel R1.1 pr.2 = stateLevel h0 pr.1 ∧
      stateExtension R1.1 pr.2 = [pr.1] ∧
      (R1.1.find? pr.2).isSome = true := by
    intro pr hpr
    have hfd := (hrecs pr hpr).2
    refine ⟨?_, ?_, ?_, ?_, ?_⟩
    · unfold stateName
      rw [hfd]
      rfl
    · unfold stateFinal
      rw [hfd]
      rfl
    · unfold stateLevel
      rw [hfd]
      rfl
    · unfold stateExtension
      rw [hfd]
      rfl
    · rw [hfd]
      rfl
  have hI3 : ∀ pr ∈ madd, pr.1 ∈ nfa.members → ∀ l,
      getChildren R1.1 pr.2 l = [] := by
    intro pr hpr _ l
    have hfd := (hrecs pr hpr).2
    unfold getChildren
    rw [hfd]
    rfl
  rcases qscPhase1TransGo_spec nfa madd h0 h0.next hfstnd hndsnd hdlarge hmemfst
    hjlt hwf nfa.members R1.1 [] (fun j hj => hj) hmnd hI1 hI2 hI3 with
    ⟨r1c, r2c, r3c, r4c⟩
  rw [← hHTm] at r1c r2c r3c r4c
  have htar0 : ∀ pr ∈ madd, ∀ q ∈ getExitingTransitions R1.1 pr.2, ∀ t ∈ q.2,
      ∃ pr2 ∈ madd, t = pr2.2 := by
    intro pr hpr q hq
    have hfd := (hrecs pr hpr).2
    unfold getExitingTransitions at hq
    rw [hfd] at hq
    simp only [Option.map_some', Option.getD_some] at hq
    exact absurd hq (List.not_mem_nil _)
  have htargets := qscPhase1TransGo_targets nfa madd h0 h0.next hdlarge hmemfst
    hjlt hwf hclosed nfa.members R1.1 [] (fun j hj => hj)
    (fun j hj => (hI1 j hj).1) htar0
  rw [← hHTm] at htargets
  have hpr0 : (i0, mapLookup madd i0) ∈ madd := mapLookup_mem (hmemfst i0 hi0)
  have hD0ge : h0.next ≤ D0 := by
    rw [hD0m]
    exact hdlarge _ hpr0
  have hd0mem : D0 ∈ R1.2.1.members := by
    rw [hmembers', hD0m]
    exact List.mem_map.mpr ⟨(i0, mapLookup madd i0), hpr0, rfl⟩
  have hhas : R1.2.1.hasState D0 = true := by
    unfold Automaton.hasState
    simpa using hd0mem
  have hsi : setInitialState HT.1 R1.2.1 D0 =
      (initLevelsRecursively HT.1 D0 0,
        { R1.2.1 with initial := some D0 }) := by
    unfold setInitialState
    rw [hhas]
    rfl
  have hd0some : (HT.1.find? D0).isSome = true := by
    rw [hD0m]
    exact (r2c _ hpr0).2.2.2.2
  have hnv : ∀ c ∈ allChildren (setLevel HT.1 D0 0) D0,
      stateLevel (setLevel HT.1 D0 0) c ≠ DEFAULT_VOID_LEVEL := by
    intro c hc
    rw [allChildren_setLevel] at hc
    have hc2 : ∃ q ∈ getExitingTransitions HT.1 D0, c ∈ q.2 := by
      unfold allChildren at hc
      rcases (mem_foldl_append _ [] c).mp hc with h1 | h1
      · exact absurd h1 (List.not_mem_nil _)
      · exact h1
    rcases hc2 with ⟨q, hq, hcq⟩
    have hcl : ∃ pr2 ∈ madd, c = pr2.2 := by
      apply htargets (i0, mapLookup madd i0) hpr0 q ?_ c hcq
      rw [← hD0m]
      exact hq
    rcases hcl with ⟨pr2, hpr2, hcpr2⟩
    by_cases hcD0 : c = D0
    · rw [hcD0]
      rcases Option.isSome_iff_exists.mp hd0some with ⟨sd, hsd⟩
      rw [stateLevel_setLevel_self hsd]
      decide
    · rw [stateLevel_setLevel_other hcD0]
      have hlv := (r2c pr2 hpr2).2.2.1
      rw [hcpr2, hlv]
      have hp2m : pr2.1 ∈ nfa.members := by
        rw [← hfst]
        exact List.mem_map.mpr ⟨pr2, hpr2, rfl⟩
      exact hlevels pr2.1 hp2m
  have hbfs : initLevelsRecursively HT.1 D0 0 = setLevel HT.1 D0 0 := by
    unfold initLevelsRecursively
    apply initLevelsAux_noop_single _ _ hnv
    unfold levelsFuel
    omega
  have hHQ : (qscPhase1 h0 nfa).1 = setLevel HT.1 D0 0 := by
    rw [hP1, hsi]
    exact hbfs
  have hDFA : (qscPhase1 h0 nfa).2.1 = { R1.2.1 with initial := some D0 } := by
    rw [hPdfa, hsi]
  rw [hPm, hHQ, hDFA]
  refine ⟨hfst, ?_, hndsnd, ?_, ?_, ?_, ?_⟩
  · show R1.2.1.members = madd.map (·.2)
    exact hmembers'
  · show some D0 = some (mapLookup madd i0)
    rw [hD0m]
  · intro pr hpr
    rcases scalars_setLevel HT.1 D0 0 pr.2 with ⟨s1, s2, s3, s4⟩
    refine ⟨?_, ?_, ?_, ?_⟩
    · rw [s1]
      exact (r2c pr hpr).1
    · rw [s2]
      exact (r2c pr hpr).2.1
    · by_cases hpos : pr.2 = D0
      · have hpe : pr = (i0, mapLookup madd i0) :=
          pair_eq_of_snd_nodup hndsnd hpr hpr0 (by rw [hpos, hD0m])
        rw [hpos]
        rcases Option.isSome_iff_exists.mp hd0some with ⟨sd, hsd⟩
        rw [stateLevel_setLevel_self hsd]
        have hpe1 : pr.1 = i0 := by
          rw [hpe]
        rw [hpe1, hlvl0]
      · rw [stateLevel_setLevel_other hpos]
        exact (r2c pr hpr).2.2.1
    · rw [s3]
      exact (r2c pr hpr).2.2.2.1
  · intro pr hpr l x
    rw [getChildren_setLevel]
    have hp1m : pr.1 ∈ nfa.members := by
      rw [← hfst]
      exact List.mem_map.mpr ⟨pr, hpr, rfl⟩
    exact r4c pr hpr hp1m l x
  · intro j hj
    have hjn : j < h0.next := hjlt j hj
    have hjne : j ≠ D0 := by omega
    rcases scalars_setLevel HT.1 D0 0 j with ⟨s1, s2, s3, s4⟩
    refine ⟨?_, ?_, ?_, ?_, ?_⟩
    · rw [getExitingTransitions_setLevel]
      exact (r1c j hjn).1
    · rw [stateLevel_setLevel_other hjne]
      exact (r1c j hjn).2.1
    · rw [s1]
      exact (r1c j hjn).2.2.1
    · rw [s2]
      exact (r1c j hjn).2.2.2.1
    · rw [s3]
      exact (r1c j hjn).2.2.2.2

/-- Claim C3 as frozen is false: phase 1 does not copy transitions verbatim,
because the transition loop (`QuickSubsetConstruction.cpp:168`) skips epsilon
self-loops.  On a one-state NFA whose state has an epsilon self-loop, the
clone produced by phase 1 has no epsilon transition at all, so it is not
isomorphic to the input. -/
theorem c3_counterexample :
    (qscPhase1
        ⟨[(0, ⟨"s", false, 0, false, [], [("", [0])], [("", [0])]⟩)], 1⟩
        ⟨[0], some 0⟩).2.2.1 = [(0, 1)] ∧
    getChildren
      (⟨[(0, ⟨"s", false, 0, false, [], [("", [0])], [("", [0])]⟩)], 1⟩ : Heap)
      0 EPSILON = [0] ∧
    getChildren
      (qscPhase1
        ⟨[(0, ⟨"s", false, 0, false, [], [("", [0])], [("", [0])]⟩)], 1⟩
        ⟨[0], some 0⟩).1 1 EPSILON = [] := by
  decide

theorem c3_phase1_builds_marked_copy_witness :
    freshHeap (⟨[(0, ⟨"s", true, 0, false, [], [], []⟩)], 1⟩ : Heap) ∧
    (((qscPhase1 ⟨[(0, ⟨"s", true, 0, false, [], [], []⟩)], 1⟩
        ⟨[0], some 0⟩).2.2.1.map (·.1) = Automaton.members ⟨[0], some 0⟩) ∧
     ((qscPhase1 ⟨[(0, ⟨"s", true, 0, false, [], [], []⟩)], 1⟩
        ⟨[0], some 0⟩).2.1.members =
       (qscPhase1 ⟨[(0, ⟨"s", true, 0, false, [], [], []⟩)], 1⟩
        ⟨[0], some 0⟩).2.2.1.map (·.2)) ∧
     ((qscPhase1 ⟨[(0, ⟨"s", true, 0, false, [], [], []⟩)], 1⟩
        ⟨[0], some 0⟩).2.2.1.map (·.2)).Nodup ∧
     ((qscPhase1 ⟨[(0, ⟨"s", true, 0, false, [], [], []⟩)], 1⟩
        ⟨[0], some 0⟩).2.1.initial =
       some (mapLookup (qscPhase1 ⟨[(0, ⟨"s", true, 0, false, [], [], []⟩)], 1⟩
        ⟨[0], some 0⟩).2.2.1 0)) ∧
     (∀ pr ∈ (qscPhase1 ⟨[(0, ⟨"s", true, 0, false, [], [], []⟩)], 1⟩
        ⟨[0], some 0⟩).2.2.1,
       stateName (qscPhase1 ⟨[(0, ⟨"s", true, 0, false, [], [], []⟩)], 1⟩
        ⟨[0], some 0⟩).1 pr.2 =
         "\x7b" ++ stateName ⟨[(0, ⟨"s", true, 0, false, [], [], []⟩)], 1⟩
           pr.1 ++ "\x7d" ∧
       stateFinal (qscPhase1 ⟨[(0, ⟨"s", true, 0, false, [], [], []⟩)], 1⟩
        ⟨[0], some 0⟩).1 pr.2 =
         stateFinal ⟨[(0, ⟨"s", true, 0, false, [], [], []⟩)], 1⟩ pr.1 ∧
       stateLevel (qscPhase1 ⟨[(0, ⟨"s", true, 0, false, [], [], []⟩)], 1⟩
        ⟨[0], some 0⟩).1 pr.2 =
         stateLevel ⟨[(0, ⟨"s", true, 0, false, [], [], []⟩)], 1⟩ pr.1 ∧
       stateExtension (qscPhase1 ⟨[(0, ⟨"s", true, 0, false, [], [], []⟩)], 1⟩
        ⟨[0], some 0⟩).1 pr.2 = [pr.1]) ∧
     (∀ pr ∈ (qscPhase1 ⟨[(0, ⟨"s", true, 0, false, [], [], []⟩)], 1⟩
        ⟨[0], some 0⟩).2.2.1, ∀ l x,
       x ∈ getChildren (qscPhase1 ⟨[(0, ⟨"s", true, 0, false, [], [], []⟩)], 1⟩
        ⟨[0], some 0⟩).1 pr.2 l ↔
         ∃ c ∈ getChildren ⟨[(0, ⟨"s", true, 0, false, [], [], []⟩)], 1⟩
            pr.1 l, ¬(c = pr.1 ∧ l = EPSILON) ∧
           x = mapLookup (qscPhase1 ⟨[(0, ⟨"s", true, 0, false, [], [], []⟩)], 1⟩
            ⟨[0], some 0⟩).2.2.1 c) ∧
     (∀ j ∈ Automaton.members ⟨[0], some 0⟩,
       getExitingTransitions
           (qscPhase1 ⟨[(0, ⟨"s", true, 0, false, [], [], []⟩)], 1⟩
            ⟨[0], some 0⟩).1 j =
         getExitingTransitions ⟨[(0, ⟨"s", true, 0, false, [], [], []⟩)], 1⟩ j ∧
       stateLevel (qscPhase1 ⟨[(0, ⟨"s", true, 0, false, [], [], []⟩)], 1⟩
        ⟨[0], some 0⟩).1 j =
         stateLevel ⟨[(0, ⟨"s", true, 0, false, [], [], []⟩)], 1⟩ j ∧
       stateName (qscPhase1 ⟨[(0, ⟨"s", true, 0, false, [], [], []⟩)], 1⟩
        ⟨[0], some 0⟩).1 j =
         stateName ⟨[(0, ⟨"s", true, 0, false, [], [], []⟩)], 1⟩ j ∧
       stateFinal (qscPhase1 ⟨[(0, ⟨"s", true, 0, false, [], [], []⟩)], 1⟩
        ⟨[0], some 0⟩).1 j =
         stateFinal ⟨[(0, ⟨"s", true, 0, false, [], [], []⟩)], 1⟩ j ∧
       stateExtension (qscPhase1 ⟨[(0, ⟨"s", true, 0, false, [], [], []⟩)], 1⟩
        ⟨[0], some 0⟩).1 j =
         stateExtension ⟨[(0, ⟨"s", true, 0, false, [], [], []⟩)], 1⟩ j)) :=
  ⟨by decide,
   c3_phase1_builds_marked_copy
     ⟨[(0, ⟨"s", true, 0, false, [], [], []⟩)], 1⟩ ⟨[0], some 0⟩ 0
     (by decide) (by decide) (by decide) (by decide) (by decide) (by decide)
     (by decide) (by decide) (by decide)⟩

/-! ## Reachability and shortest distances (towards claim C5) -/

lemma mem_reachSet_succ {h : Heap} {u t : Nat} {n : Nat} :
    t ∈ reachSet h u (n + 1) ↔ ∃ v ∈ reachSet h u n, t ∈ allChildren h v := by
  show t ∈ (reachSet h u n).flatMap (allChildren h) ↔ _
  exact List.mem_flatMap

lemma mem_reachSet_zero {h : Heap} {u t : Nat} :
    t ∈ reachSet h u 0 ↔ t = u := by
  show t ∈ [u] ↔ t = u
  simp

lemma reachSet_compose {h : Heap} {u v : Nat} :
    ∀ {m k t : Nat}, v ∈ reachSet h u k → t ∈ reachSet h v m →
      t ∈ reachSet h u (k + m) := by
  intro m
  induction m with
  | zero =>
    intro k t hv ht
    have hteq : t = v := mem_reachSet_zero.mp ht
    rw [hteq]
    exact hv
  | succ m ih =>
    intro k t hv ht
    rcases mem_reachSet_succ.mp ht with ⟨w, hw, htw⟩
    exact mem_reachSet_succ.mpr ⟨w, ih hv hw, htw⟩

lemma find?_entry {h : Heap} {x : Nat} {sd : StateData}
    (hf : h.find? x = some sd) : (x, sd) ∈ h.states := by
  unfold Heap.find? at hf
  rcases hx : h.states.find? (fun p => p.1 = x) with - | e
  · rw [hx] at hf
    exact absurd hf (by simp)
  · rw [hx] at hf
    have he : e.2 = sd := by simpa using hf
    have hkey : e.1 = x := by simpa using List.find?_some hx
    have : (x, sd) = e := by
      rw [← he, ← hkey]
    rw [this]
    exact List.mem_of_find?_eq_some hx

lemma allChildren_mem_dom {h : Heap} (hcl : childrenClosed h) {x c : Nat}
    (hc : c ∈ allChildren h x) : c ∈ h.dom := by
  unfold allChildren at hc
  rcases (mem_foldl_append _ [] c).mp hc with h1 | ⟨q, hq, hcq⟩
  · exact absurd h1 (List.not_mem_nil _)
  · unfold getExitingTransitions at hq
    rcases hf : h.find? x with - | sd
    · rw [hf] at hq
      exact absurd hq (by simp)
    · rw [hf] at hq
      simp only [Option.map_some', Option.getD_some] at hq
      exact (hcl (x, sd) (find?_entry hf)).1 q hq c hcq

lemma reachSet_dom {h : Heap} (hcl : childrenClosed h) {u : Nat}
    (hu : u ∈ h.dom) : ∀ {n t}, t ∈ reachSet h u n → t ∈ h.dom := by
  intro n
  induction n with
  | zero =>
    intro t ht
    rw [mem_reachSet_zero.mp ht]
    exact hu
  | succ n ih =>
    intro t ht
    rcases mem_reachSet_succ.mp ht with ⟨v, hv, htv⟩
    exact allChildren_mem_dom hcl htv

lemma minDist_unique {h : Heap} {s t : Nat} {n n' : Nat}
    (h1 : t ∈ reachSet h s n ∧ ∀ k < n, t ∉ reachSet h s k)
    (h2 : t ∈ reachSet h s n' ∧ ∀ k < n', t ∉ reachSet h s k) : n = n' := by
  rcases Nat.lt_trichotomy n n' with hlt | heq | hgt
  · exact absurd h1.1 (h2.2 n hlt)
  · exact heq
  · exact absurd h2.1 (h1.2 n' hgt)

lemma exists_minDist {h : Heap} {s t : Nat} {n : Nat}
    (ht : t ∈ reachSet h s n) :
    ∃ k, t ∈ reachSet h s k ∧ ∀ j < k, t ∉ reachSet h s j := by
  have hex : ∃ k, t ∈ reachSet h s k := ⟨n, ht⟩
  exact ⟨Nat.find hex, Nat.find_spec hex, fun j hj => Nat.find_min hex hj⟩

lemma prefix_reach {h : Heap} {s : Nat} :
    ∀ {n t}, t ∈ reachSet h s n → ∀ k, k ≤ n →
      ∃ x, x ∈ reachSet h s k ∧ t ∈ reachSet h x (n - k) := by
  intro n
  induction n with
  | zero =>
    intro t ht k hk
    have hk0 : k = 0 := Nat.le_zero.mp hk
    subst hk0
    exact ⟨s, mem_reachSet_zero.mpr rfl, ht⟩
  | succ n ih =>
    intro t ht k hk
    rcases Nat.lt_or_ge k (n + 1) with hlt | hge
    · have hkn : k ≤ n := by omega
      rcases mem_reachSet_succ.mp ht with ⟨u, hu, htu⟩
      rcases ih hu k hkn with ⟨x, hx, hux⟩
      refine ⟨x, hx, ?_⟩
      have hstep : t ∈ reachSet h x (n - k + 1) :=
        mem_reachSet_succ.mpr ⟨u, hux, htu⟩
      have heq : n + 1 - k = n - k + 1 := by omega
      rw [heq]
      exact hstep
    · have hk1 : k = n + 1 := by omega
      subst hk1
      refine ⟨t, ht, ?_⟩
      have heq : n + 1 - (n + 1) = 0 := by omega
      rw [heq]
      exact mem_reachSet_zero.mpr rfl

/-- Pigeonhole: a shortest path visits pairwise distinct arena states, so the
shortest distance is below the arena size. -/
lemma minDist_lt_length {h : Heap} (hcl : childrenClosed h)
    (hnd : heapNodup h) {s t : Nat} (hs : s ∈ h.dom) {n : Nat}
    (ht : t ∈ reachSet h s n) (hmin : ∀ k < n, t ∉ reachSet h s k) :
    n < h.states.length := by
  have hpre : ∀ k : Fin (n + 1), ∃ x, x ∈ reachSet h s k.1 ∧
      t ∈ reachSet h x (n - k.1) := fun k => prefix_reach ht k.1 (by omega)
  choose f hf1 hf2 using hpre
  have key : ∀ k1 k2 : Fin (n + 1), k1.1 < k2.1 → f k1 = f k2 → False := by
    intro k1 k2 hlt heq
    have htx : t ∈ reachSet h (f k1) (n - k2.1) := by
      rw [heq]
      exact hf2 k2
    have hcomp := reachSet_compose (hf1 k1) htx
    have hk2 := k2.2
    exact hmin (k1.1 + (n - k2.1)) (by omega) hcomp
  have hinj : Function.Injective f := by
    intro k1 k2 heq
    by_contra hneq
    rcases Nat.lt_trichotomy k1.1 k2.1 with h1 | h1 | h1
    · exact key k1 k2 h1 heq
    · exact hneq (Fin.ext h1)
    · exact key k2 k1 h1 heq.symm
  have hmem : ∀ k : Fin (n + 1), f k ∈ h.dom.toFinset := by
    intro k
    rw [List.mem_toFinset]
    exact reachSet_dom hcl hs (hf1 k)
  have hcard := Finset.card_le_card_of_injOn (s := Finset.univ)
    (t := h.dom.toFinset) f (fun k _ => hmem k) (fun a _ b _ hab => hinj hab)
  have h1 : n + 1 ≤ h.dom.toFinset.card := by
    simpa using hcard
  have h2 : h.dom.toFinset.card = h.dom.length :=
    List.toFinset_card_of_nodup (show h.dom.Nodup from hnd)
  have h3 : h.dom.length = h.states.length := by
    unfold Heap.dom
    exact List.length_map _ _
  omega

lemma filter_length_lt {α : Type} {p p' : α → Bool}
    (himp : ∀ x, p' x = true → p x = true) :
    ∀ {l : List α} {c : α}, c ∈ l → p c = true → p' c = false →
      (l.filter p').length < (l.filter p).length := by
  intro l
  induction l with
  | nil =>
    intro c hc
    cases hc
  | cons a rest ih =>
    intro c hc hpc hpc'
    rw [List.filter_cons, List.filter_cons]
    rcases List.mem_cons.mp hc with h1 | h1
    · subst h1
      rw [if_pos hpc, if_neg (by rw [hpc']; simp)]
      simp only [List.length_cons]
      exact Nat.lt_succ_of_le
        (List.Sublist.length_le (filter_sublist_of_imp _ _ himp rest))
    · cases hpa : p a
      · have hpa' : p' a = false := by
          cases hb : p' a
          · rfl
          · have := himp a hb
            rw [hpa] at this
            exact absurd this (by simp)
        rw [if_neg (by rw [hpa']; simp), if_neg (by simp)]
        exact ih h1 hpc hpc'
      · by_cases hpa2 : p' a = true
        · rw [if_pos hpa2, if_pos rfl]
          simp only [List.length_cons]
          exact Nat.succ_lt_succ (ih h1 hpc hpc')
        · have hpa2' : p' a = false := by
            cases hb : p' a
            · rfl
            · exact absurd hb hpa2
          rw [if_neg (by rw [hpa2']; simp), if_pos rfl]
          simp only [List.length_cons]
          have hlt := ih h1 hpc hpc'
          omega

lemma voidCount_le {dom : List Nat} {hc hc' : Heap}
    (himp : ∀ j, stateLevel hc' j = DEFAULT_VOID_LEVEL →
      stateLevel hc j = DEFAULT_VOID_LEVEL) :
    voidCount dom hc' ≤ voidCount dom hc := by
  unfold voidCount
  exact List.Sublist.length_le (filter_sublist_of_imp _ _
    (fun j hb => by
      simp only [decide_eq_true_eq] at hb ⊢
      exact himp j hb) dom)

lemma voidCount_lt {dom : List Nat} {hc hc' : Heap}
    (himp : ∀ j, stateLevel hc' j = DEFAULT_VOID_LEVEL →
      stateLevel hc j = DEFAULT_VOID_LEVEL)
    {c : Nat} (hcd : c ∈ dom)
    (hcv : stateLevel hc c = DEFAULT_VOID_LEVEL)
    (hcv' : stateLevel hc' c ≠ DEFAULT_VOID_LEVEL) :
    voidCount dom hc' < voidCount dom hc := by
  unfold voidCount
  refine filter_length_lt (fun j hb => by
      simp only [decide_eq_true_eq] at hb ⊢
      exact himp j hb) hcd ?_ ?_
  · simp only [decide_eq_true_eq]
    exact hcv
  · simp only [decide_eq_false_iff_not]
    exact hcv'

lemma stateLevel_all_void {h : Heap}
    (hvoid : ∀ e ∈ h.states, e.2.level = DEFAULT_VOID_LEVEL) (j : Nat) :
    stateLevel h j = DEFAULT_VOID_LEVEL := by
  rcases hf : h.find? j with - | sd
  · unfold stateLevel
    rw [hf]
    rfl
  · unfold stateLevel
    rw [hf]
    exact hvoid (j, sd) (find?_entry hf)

lemma find?_isSome_of_dom {h : Heap} {c : Nat} (hc : c ∈ h.dom) :
    (h.find? c).isSome = true := by
  unfold Heap.find?
  rcases List.mem_map.mp hc with ⟨e, he, hei⟩
  rcases hx : h.states.find? (fun p => p.1 = c) with - | e2
  · exfalso
    exact List.find?_eq_none.mp hx e he (by simpa using hei)
  · rw [hx]
    rfl

/-- One child-scan of the breadth-first level pass: children still at the
undefined level get `d + 1` and are enqueued; everything else (including
every transition map) is untouched, and the pass pays one undefined-level
state for every enqueued element. -/
lemma bfs_fold_spec (h : Heap) (cur d : Nat)
    (hd0 : d ≠ DEFAULT_VOID_LEVEL) (hd1 : d + 1 ≠ DEFAULT_VOID_LEVEL) :
    ∀ (cs : List Nat) (hc : Heap) (q : List Nat),
      stateLevel hc cur = d →
      (∀ x, getExitingTransitions hc x = getExitingTransitions h x) →
      (∀ x, (hc.find? x).isSome = (h.find? x).isSome) →
      (∀ c ∈ cs, c ∈ h.dom) →
      ((∀ x, getExitingTransitions (cs.foldl
          (fun (acc : Heap × List Nat) c =>
            if stateLevel acc.1 c = DEFAULT_VOID_LEVEL then
              (setLevel acc.1 c (stateLevel acc.1 cur + 1), acc.2 ++ [c])
            else acc) (hc, q)).1 x = getExitingTransitions h x) ∧
       (∀ x, ((cs.foldl (fun (acc : Heap × List Nat) c =>
            if stateLevel acc.1 c = DEFAULT_VOID_LEVEL then
              (setLevel acc.1 c (stateLevel acc.1 cur + 1), acc.2 ++ [c])
            else acc) (hc, q)).1.find? x).isSome = (h.find? x).isSome) ∧
       (∀ x, stateLevel (cs.foldl (fun (acc : Heap × List Nat) c =>
            if stateLevel acc.1 c = DEFAULT_VOID_LEVEL then
              (setLevel acc.1 c (stateLevel acc.1 cur + 1), acc.2 ++ [c])
            else acc) (hc, q)).1 x = stateLevel hc x ∨
         (stateLevel hc x = DEFAULT_VOID_LEVEL ∧
          stateLevel (cs.foldl (fun (acc : Heap × List Nat) c =>
            if stateLevel acc.1 c = DEFAULT_VOID_LEVEL then
              (setLevel acc.1 c (stateLevel acc.1 cur + 1), acc.2 ++ [c])
            else acc) (hc, q)).1 x = d + 1 ∧ x ∈ cs)) ∧
       (∀ c ∈ cs, stateLevel (cs.foldl (fun (acc : Heap × List Nat) c =>
            if stateLevel acc.1 c = DEFAULT_VOID_LEVEL then
              (setLevel acc.1 c (stateLevel acc.1 cur + 1), acc.2 ++ [c])
            else acc) (hc, q)).1 c ≠ DEFAULT_VOID_LEVEL) ∧
       (∃ qnew, (cs.foldl (fun (acc : Heap × List Nat) c =>
            if stateLevel acc.1 c = DEFAULT_VOID_LEVEL then
              (setLevel acc.1 c (stateLevel acc.1 cur + 1), acc.2 ++ [c])
            else acc) (hc, q)).2 = q ++ qnew ∧
         (∀ y ∈ qnew, stateLevel (cs.foldl (fun (acc : Heap × List Nat) c =>
            if stateLevel acc.1 c = DEFAULT_VOID_LEVEL then
              (setLevel acc.1 c (stateLevel acc.1 cur + 1), acc.2 ++ [c])
            else acc) (hc, q)).1 y = d + 1 ∧
           stateLevel hc y = DEFAULT_VOID_LEVEL ∧ y ∈ cs) ∧
         (∀ x, stateLevel hc x = DEFAULT_VOID_LEVEL →
           stateLevel (cs.foldl (fun (acc : Heap × List Nat) c =>
            if stateLevel acc.1 c = DEFAULT_VOID_LEVEL then
              (setLevel acc.1 c (stateLevel acc.1 cur + 1), acc.2 ++ [c])
            else acc) (hc, q)).1 x ≠ DEFAULT_VOID_LEVEL → x ∈ qnew) ∧
         voidCount h.dom (cs.foldl (fun (acc : Heap × List Nat) c =>
            if stateLevel acc.1 c = DEFAULT_VOID_LEVEL then
              (setLevel acc.1 c (stateLevel acc.1 cur + 1), acc.2 ++ [c])
            else acc) (hc, q)).1 + qnew.length ≤ voidCount h.dom hc)) := by
  intro cs
  induction cs with
  | nil =>
    intro hc q hcur hS1 hS2 _
    refine ⟨hS1, hS2, fun x => Or.inl rfl, fun c hc2 => absurd hc2 (List.not_mem_nil _),
      [], by simp, fun y hy => absurd hy (List.not_mem_nil _),
      fun x hv hnv => absurd hv hnv, by simp⟩
  | cons c crest ih =>
    intro hc q hcur hS1 hS2 hcs
    simp only [List.foldl_cons]
    by_cases hguard : stateLevel hc c = DEFAULT_VOID_LEVEL
    · rw [if_pos hguard, hcur]
      have hcdom : c ∈ h.dom := hcs c (List.mem_cons_self _ _)
      have hcsome : (hc.find? c).isSome = true := by
        rw [hS2 c]
        exact find?_isSome_of_dom hcdom
      rcases Option.isSome_iff_exists.mp hcsome with ⟨sd, hsd⟩
      have hccur : c ≠ cur := by
        intro hcc
        rw [hcc, hcur] at hguard
        exact hd0 hguard
      have hlevC : stateLevel (setLevel hc c (d + 1)) c = d + 1 :=
        stateLevel_setLevel_self hsd (d + 1)
      have hlevO : ∀ x, x ≠ c →
          stateLevel (setLevel hc c (d + 1)) x = stateLevel hc x :=
        fun x hx => stateLevel_setLevel_other hx (d + 1)
      have hcur' : stateLevel (setLevel hc c (d + 1)) cur = d := by
        rw [hlevO cur (fun hcc => hccur hcc.symm), hcur]
      have hS1' : ∀ x, getExitingTransitions (setLevel hc c (d + 1)) x =
          getExitingTransitions h x := by
        intro x
        rw [getExitingTransitions_setLevel, hS1]
      have hS2' : ∀ x, ((setLevel hc c (d + 1)).find? x).isSome =
          (h.find? x).isSome := by
        intro x
        rw [(scalars_setLevel hc c (d + 1) x).2.2.2, hS2]
      rcases ih (setLevel hc c (d + 1)) (q ++ [c]) hcur' hS1' hS2'
        (fun c2 hc2 => hcs c2 (List.mem_cons_of_mem _ hc2)) with
        ⟨a1, a2, a3, a4, qnew, b1, b2, b3, b4⟩
      have hmono : ∀ j, stateLevel (setLevel hc c (d + 1)) j =
          DEFAULT_VOID_LEVEL → stateLevel hc j = DEFAULT_VOID_LEVEL := by
        intro j hj
        by_cases hjc : j = c
        · rw [hjc, hlevC] at hj
          exact absurd hj hd1
        · rw [hlevO j hjc] at hj
          exact hj
      refine ⟨a1, a2, ?_, ?_, c :: qnew, ?_, ?_, ?_, ?_⟩
      · intro x
        rcases a3 x with h1 | ⟨h1, h2, h3⟩
        · by_cases hxc : x = c
          · subst hxc
            right
            rw [h1, hlevC]
            exact ⟨hguard, rfl, List.mem_cons_self _ _⟩
          · left
            rw [h1, hlevO x hxc]
        · right
          refine ⟨hmono x h1, h2, List.mem_cons_of_mem _ h3⟩
      · intro c2 hc2
        rcases List.mem_cons.mp hc2 with h1 | h1
        · subst h1
          rcases a3 c2 with h1 | ⟨-, h2, -⟩
          · rw [h1, hlevC]
            exact hd1
          · rw [h2]
            exact hd1
        · exact a4 c2 h1
      · rw [b1]
        simp
      · intro y hy
        rcases List.mem_cons.mp hy with h1 | h1
        · subst h1
          rcases a3 y with h1 | ⟨-, h2, -⟩
          · rw [h1, hlevC]
            exact ⟨rfl, hguard, List.mem_cons_self _ _⟩
          · exact ⟨h2, hguard, List.mem_cons_self _ _⟩
        · rcases b2 y h1 with ⟨hb1, hb2, hb3⟩
          refine ⟨hb1, hmono y hb2, List.mem_cons_of_mem _ hb3⟩
      · intro x hv hnv
        by_cases hxc : x = c
        · rw [hxc]
          exact List.mem_cons_self _ _
        · refine List.mem_cons_of_mem _ (b3 x ?_ hnv)
          rw [hlevO x hxc]
          exact hv
      · have hdec : voidCount h.dom (setLevel hc c (d + 1)) <
            voidCount h.dom hc := by
          refine voidCount_lt hmono hcdom hguard ?_
          rw [hlevC]
          exact hd1
        simp only [List.length_cons]
        omega
    · rw [if_neg hguard]
      rcases ih hc q hcur hS1 hS2
        (fun c2 hc2 => hcs c2 (List.mem_cons_of_mem _ hc2)) with
        ⟨a1, a2, a3, a4, qnew, b1, b2, b3, b4⟩
      refine ⟨a1, a2, ?_, ?_, qnew, b1, ?_, b3, b4⟩
      · intro x
        rcases a3 x with h1 | ⟨h1, h2, h3⟩
        · exact Or.inl h1
        · exact Or.inr ⟨h1, h2, List.mem_cons_of_mem _ h3⟩
      · intro c2 hc2
        rcases List.mem_cons.mp hc2 with h1 | h1
        · subst h1
          rcases a3 c2 with h2 | ⟨h2, -, -⟩
          · rw [h2]
            exact hguard
          · exact absurd h2 hguard
        · exact a4 c2 h1
      · intro y hy
        rcases b2 y hy with ⟨hb1, hb2, hb3⟩
        exact ⟨hb1, hb2, List.mem_cons_of_mem _ hb3⟩

/-- Correctness of the breadth-first level pass: given the two-wave queue
invariants, the queue drains, already-assigned levels persist, every assigned
level is the exact shortest distance from `s`, and the assigned region is
closed under transitions. -/
lemma bfs_loop (h : Heap) (s : Nat) (hcl : childrenClosed h)
    (hnd : heapNodup h) (hsdom : s ∈ h.dom)
    (hsmall : h.states.length < DEFAULT_VOID_LEVEL) :
    ∀ (fuel : Nat) (hc : Heap) (QA QB : List Nat) (d : Nat),
      voidCount h.dom hc + (QA ++ QB).length < fuel →
      (∀ x, getExitingTransitions hc x = getExitingTransitions h x) →
      (∀ x, (hc.find? x).isSome = (h.find? x).isSome) →
      (∀ x ∈ QA, stateLevel hc x = d) →
      (∀ x ∈ QB, stateLevel hc x = d + 1) →
      d + 1 < DEFAULT_VOID_LEVEL →
      (∀ t, stateLevel hc t ≠ DEFAULT_VOID_LEVEL →
        (t ∈ reachSet h s (stateLevel hc t) ∧
          ∀ k < stateLevel hc t, t ∉ reachSet h s k)) →
      (∀ t n', t ∈ reachSet h s n' → (∀ k < n', t ∉ reachSet h s k) → n' ≤ d →
        stateLevel hc t ≠ DEFAULT_VOID_LEVEL) →
      (∀ t, stateLevel hc t ≠ DEFAULT_VOID_LEVEL →
        t ∈ QA ++ QB ∨
          ∀ c ∈ allChildren h t, stateLevel hc c ≠ DEFAULT_VOID_LEVEL) →
      ((initLevelsAux fuel hc (QA ++ QB)).2 = [] ∧
       (∀ t, stateLevel hc t ≠ DEFAULT_VOID_LEVEL →
         stateLevel (initLevelsAux fuel hc (QA ++ QB)).1 t = stateLevel hc t) ∧
       (∀ t, stateLevel (initLevelsAux fuel hc (QA ++ QB)).1 t ≠
           DEFAULT_VOID_LEVEL →
         (t ∈ reachSet h s (stateLevel (initLevelsAux fuel hc (QA ++ QB)).1 t) ∧
           ∀ k < stateLevel (initLevelsAux fuel hc (QA ++ QB)).1 t,
             t ∉ reachSet h s k)) ∧
       (∀ t, stateLevel (initLevelsAux fuel hc (QA ++ QB)).1 t ≠
           DEFAULT_VOID_LEVEL →
         ∀ c ∈ allChildren h t,
           stateLevel (initLevelsAux fuel hc (QA ++ QB)).1 c ≠
             DEFAULT_VOID_LEVEL)) := by
  intro fuel
  induction fuel with
  | zero =>
    intro hc QA QB d hfuel
    exact absurd hfuel (by omega)
  | succ n ih =>
    intro hc QA QB d hfuel hS1 hS2 hA hB hdv hB4 hW2 hP
    rcases hQ : QA ++ QB with - | ⟨cur, rest⟩
    · refine ⟨rfl, fun t _ => rfl, hB4, ?_⟩
      intro t ht c hcm
      rcases hP t ht with h1 | h1
      · rw [hQ] at h1
        exact absurd h1 (List.not_mem_nil _)
      · exact h1 c hcm
    · have hd0 : d ≠ DEFAULT_VOID_LEVEL := by omega
      have hnorm : ∃ d₀ QA₀ QB₀, rest = QA₀ ++ QB₀ ∧
          stateLevel hc cur = d₀ ∧
          (∀ x ∈ QA₀, stateLevel hc x = d₀) ∧
          (∀ x ∈ QB₀, stateLevel hc x = d₀ + 1) ∧
          d₀ + 1 < DEFAULT_VOID_LEVEL ∧
          (∀ t n', t ∈ reachSet h s n' → (∀ k < n', t ∉ reachSet h s k) →
            n' ≤ d₀ → stateLevel hc t ≠ DEFAULT_VOID_LEVEL) := by
        rcases QA with - | ⟨cur0, QA'⟩
        · have hQB : QB = cur :: rest := by simpa using hQ
          have hcurB : cur ∈ QB := by
            rw [hQB]
            exact List.mem_cons_self _ _
          have hcurlev : stateLevel hc cur = d + 1 := hB cur hcurB
          have hcurassigned : stateLevel hc cur ≠ DEFAULT_VOID_LEVEL := by
            rw [hcurlev]
            omega
          have hcurD := hB4 cur hcurassigned
          rw [hcurlev] at hcurD
          have hdlt : d + 1 < h.states.length :=
            minDist_lt_length hcl hnd hsdom hcurD.1 hcurD.2
          have hW2' : ∀ t n', t ∈ reachSet h s n' →
              (∀ k < n', t ∉ reachSet h s k) → n' ≤ d + 1 →
              stateLevel hc t ≠ DEFAULT_VOID_LEVEL := by
            intro t n' htr htmin hn'
            rcases Nat.lt_or_ge n' (d + 1) with hlt | hge
            · exact hW2 t n' htr htmin (by omega)
            · have hn'e : n' = d + 1 := by omega
              subst hn'e
              rcases mem_reachSet_succ.mp htr with ⟨u, hu, htu⟩
              rcases exists_minDist hu with ⟨k, huk, hukmin⟩
              have hkd : k ≤ d := by
                by_contra hk
                exact hukmin d (by omega) hu
              have huassigned : stateLevel hc u ≠ DEFAULT_VOID_LEVEL :=
                hW2 u k huk hukmin hkd
              have hklev := minDist_unique ⟨huk, hukmin⟩ (hB4 u huassigned)
              rcases hP u huassigned with h1 | h1
              · exfalso
                rw [hQ] at h1
                have hlevu : stateLevel hc u = d + 1 := by
                  rcases List.mem_cons.mp h1 with h2 | h2
                  · rw [h2]
                    exact hcurlev
                  · refine hB u ?_
                    rw [hQB]
                    exact List.mem_cons_of_mem _ h2
                omega
              · exact h1 t htu
          exact ⟨d + 1, rest, [], by simp, hcurlev,
            fun x hx => hB x (by rw [hQB]; exact List.mem_cons_of_mem _ hx),
            fun x hx => absurd hx (List.not_mem_nil _),
            by omega, hW2'⟩
        · have hc0 : cur0 = cur ∧ QA' ++ QB = rest := by
            rw [List.cons_append] at hQ
            exact ⟨by injection hQ, by injection hQ⟩
          refine ⟨d, QA', QB, hc0.2.symm, ?_,
            fun x hx => hA x (List.mem_cons_of_mem _ hx), hB, hdv, hW2⟩
          rw [← hc0.1]
          exact hA cur0 (List.mem_cons_self _ _)
      obtain ⟨d₀, QA₀, QB₀, hrest, hcur0, hA0, hB0, hv0, hW20⟩ := hnorm
      have hd00 : d₀ ≠ DEFAULT_VOID_LEVEL := by omega
      have hd01 : d₀ + 1 ≠ DEFAULT_VOID_LEVEL := by omega
      have hACcur : allChildren hc cur = allChildren h cur := by
        unfold allChildren
        rw [hS1 cur]
      have hstepEq0 : initLevelsAux (n + 1) hc (cur :: rest) =
          initLevelsAux n
            ((allChildren hc cur).foldl
              (fun (acc : Heap × List Nat) c =>
                if stateLevel acc.1 c = DEFAULT_VOID_LEVEL then
                  (setLevel acc.1 c (stateLevel acc.1 cur + 1), acc.2 ++ [c])
                else acc) (hc, [])).1
            (rest ++ ((allChildren hc cur).foldl
              (fun (acc : Heap × List Nat) c =>
                if stateLevel acc.1 c = DEFAULT_VOID_LEVEL then
                  (setLevel acc.1 c (stateLevel acc.1 cur + 1), acc.2 ++ [c])
                else acc) (hc, [])).2) := rfl
      rw [hACcur] at hstepEq0
      rcases bfs_fold_spec h cur d₀ hd00 hd01 (allChildren h cur) hc []
        hcur0 hS1 hS2 (fun c hcm => allChildren_mem_dom hcl hcm) with
        ⟨a1, a2, a3, a4, qnew, b1, b2, b3, b4⟩
      set HC : Heap := ((allChildren h cur).foldl
          (fun (acc : Heap × List Nat) c =>
            if stateLevel acc.1 c = DEFAULT_VOID_LEVEL then
              (setLevel acc.1 c (stateLevel acc.1 cur + 1), acc.2 ++ [c])
            else acc) (hc, [])).1 with hHC
      have hqnew : ((allChildren h cur).foldl
          (fun (acc : Heap × List Nat) c =>
            if stateLevel acc.1 c = DEFAULT_VOID_LEVEL then
              (setLevel acc.1 c (stateLevel acc.1 cur + 1), acc.2 ++ [c])
            else acc) (hc, [])).2 = qnew := by
        rw [b1]
        rfl
      have hlenQ : (QA ++ QB).length = 1 + rest.length := by
        rw [hQ]
        simp only [List.length_cons]
        omega
      have hmeas : voidCount h.dom HC + (QA₀ ++ (QB₀ ++ qnew)).length < n := by
        have h1 : rest.length = QA₀.length + QB₀.length := by
          rw [hrest]
          simp
        simp only [List.length_append]
        omega
      have hassign_pres : ∀ x, stateLevel hc x ≠ DEFAULT_VOID_LEVEL →
          stateLevel HC x = stateLevel hc x := by
        intro x hx
        rcases a3 x with h1 | ⟨h1, -, -⟩
        · exact h1
        · exact absurd h1 hx
      have hA0' : ∀ x ∈ QA₀, stateLevel HC x = d₀ := by
        intro x hx
        rw [hassign_pres x (by rw [hA0 x hx]; exact hd00), hA0 x hx]
      have hB0' : ∀ x ∈ QB₀ ++ qnew, stateLevel HC x = d₀ + 1 := by
        intro x hx
        rcases List.mem_append.mp hx with h1 | h1
        · rw [hassign_pres x (by rw [hB0 x h1]; exact hd01), hB0 x h1]
        · exact (b2 x h1).1
      have hcurassigned : stateLevel hc cur ≠ DEFAULT_VOID_LEVEL := by
        rw [hcur0]
        exact hd00
      have hcurD : cur ∈ reachSet h s d₀ ∧ ∀ k < d₀, cur ∉ reachSet h s k := by
        have := hB4 cur hcurassigned
        rw [hcur0] at this
        exact this
      have hB4' : ∀ t, stateLevel HC t ≠ DEFAULT_VOID_LEVEL →
          (t ∈ reachSet h s (stateLevel HC t) ∧
            ∀ k < stateLevel HC t, t ∉ reachSet h s k) := by
        intro t ht
        rcases a3 t with h1 | ⟨h1, h2, h3⟩
        · rw [h1]
          refine hB4 t ?_
          rw [← h1]
          exact ht
        · rw [h2]
          constructor
          · exact mem_reachSet_succ.mpr ⟨cur, hcurD.1, h3⟩
          · intro k hk htk
            rcases exists_minDist htk with ⟨k2, hk2, hk2min⟩
            have hk2le : k2 ≤ k := by
              by_contra hh
              exact hk2min k (by omega) htk
            have hassigned := hW20 t k2 hk2 hk2min (by omega)
            exact absurd h1 hassigned
      have hW2' : ∀ t n', t ∈ reachSet h s n' → (∀ k < n', t ∉ reachSet h s k) →
          n' ≤ d₀ → stateLevel HC t ≠ DEFAULT_VOID_LEVEL := by
        intro t n' htr htmin hn'
        have hold := hW20 t n' htr htmin hn'
        rw [hassign_pres t hold]
        exact hold
      have hP' : ∀ t, stateLevel HC t ≠ DEFAULT_VOID_LEVEL →
          t ∈ QA₀ ++ (QB₀ ++ qnew) ∨
            ∀ c ∈ allChildren h t, stateLevel HC c ≠ DEFAULT_VOID_LEVEL := by
        intro t ht
        rcases a3 t with h1 | ⟨h1, h2, h3⟩
        · have htold : stateLevel hc t ≠ DEFAULT_VOID_LEVEL := by
            rw [← h1]
            exact ht
          rcases hP t htold with hmem | hch
          · rw [hQ] at hmem
            rcases List.mem_cons.mp hmem with h2 | h2
            · right
              subst h2
              exact a4
            · left
              rw [hrest] at h2
              rcases List.mem_append.mp h2 with h3 | h3
              · exact List.mem_append.mpr (Or.inl h3)
              · exact List.mem_append.mpr
                  (Or.inr (List.mem_append.mpr (Or.inl h3)))
          · right
            intro c hcm
            have hch2 := hch c hcm
            rw [hassign_pres c hch2]
            exact hch2
        · left
          have hqn : t ∈ qnew := b3 t h1 ht
          exact List.mem_append.mpr (Or.inr (List.mem_append.mpr (Or.inr hqn)))
      rcases ih HC QA₀ (QB₀ ++ qnew) d₀ hmeas a1 a2 hA0' hB0' hv0 hB4' hW2' hP'
        with ⟨r1, r2, r3, r4⟩
      have hfinalEq : initLevelsAux (n + 1) hc (cur :: rest) =
          initLevelsAux n HC (QA₀ ++ (QB₀ ++ qnew)) := by
        rw [hstepEq0, hqnew, hrest, List.append_assoc]
      rw [hfinalEq]
      refine ⟨r1, ?_, r3, r4⟩
      intro t ht
      rw [r2 t (by rw [hassign_pres t ht]; exact ht), hassign_pres t ht]

/-- **C5** (amended).  On an automaton whose states all still carry the
undefined distance `DEFAULT_VOID_LEVEL` (the situation right after
construction, the only one in which the breadth-first pass of
`initLevelsRecursively` starts from a clean slate), `Automaton::setInitialState(s)`
establishes the claimed invariant: every state reachable from `s` gets the
length of a shortest transition-count path from `s` as its distance, every
unreachable state keeps the undefined distance, and `s` becomes the initial
state.  Without that precondition the invariant fails, because the pass never
lowers an already-defined distance (see the counterexample). -/
theorem c5_setInitialState_shortest_paths (h : Heap) (a : Automaton) (s : Nat)
    (hcl : childrenClosed h) (hnd : heapNodup h)
    (hsm : s ∈ a.members) (hsd : s ∈ h.dom)
    (hvoid : ∀ e ∈ h.states, e.2.level = DEFAULT_VOID_LEVEL)
    (hsmall : h.states.length < DEFAULT_VOID_LEVEL) :
    (∀ t n, t ∈ reachSet h s n → (∀ k < n, t ∉ reachSet h s k) →
      stateLevel (setInitialState h a s).1 t = n) ∧
    (∀ t, (∀ n, t ∉ reachSet h s n) →
      stateLevel (setInitialState h a s).1 t = DEFAULT_VOID_LEVEL) ∧
    (setInitialState h a s).2.initial = some s := by
  have hvoid' : ∀ j, stateLevel h j = DEFAULT_VOID_LEVEL :=
    stateLevel_all_void hvoid
  have hhas : a.hasState s = true := by
    unfold Automaton.hasState
    simpa using hsm
  have hsi : setInitialState h a s =
      (initLevelsRecursively h s 0, { a with initial := some s }) := by
    unfold setInitialState
    rw [hhas]
    rfl
  have hssome : (h.find? s).isSome = true := find?_isSome_of_dom hsd
  rcases Option.isSome_iff_exists.mp hssome with ⟨sd, hsds⟩
  set hc0 := setLevel h s 0 with hhc0
  have hlev0 : stateLevel hc0 s = 0 := stateLevel_setLevel_self hsds 0
  have hlevO : ∀ x, x ≠ s → stateLevel hc0 x = stateLevel h x :=
    fun x hx => stateLevel_setLevel_other hx 0
  have hS1 : ∀ x, getExitingTransitions hc0 x = getExitingTransitions h x :=
    fun x => getExitingTransitions_setLevel h s 0 x
  have hS2 : ∀ x, (hc0.find? x).isSome = (h.find? x).isSome :=
    fun x => (scalars_setLevel h s 0 x).2.2.2
  have hvd : (0 : Nat) ≠ DEFAULT_VOID_LEVEL := by decide
  have hB4 : ∀ t, stateLevel hc0 t ≠ DEFAULT_VOID_LEVEL →
      (t ∈ reachSet h s (stateLevel hc0 t) ∧
        ∀ k < stateLevel hc0 t, t ∉ reachSet h s k) := by
    intro t ht
    by_cases hts : t = s
    · subst hts
      rw [hlev0]
      exact ⟨mem_reachSet_zero.mpr rfl, fun k hk => absurd hk (by omega)⟩
    · rw [hlevO t hts] at ht
      exact absurd (hvoid' t) ht
  have hW2 : ∀ t n', t ∈ reachSet h s n' → (∀ k < n', t ∉ reachSet h s k) →
      n' ≤ 0 → stateLevel hc0 t ≠ DEFAULT_VOID_LEVEL := by
    intro t n' htr htmin hn'
    have hn0 : n' = 0 := by omega
    subst hn0
    have hts : t = s := mem_reachSet_zero.mp htr
    subst hts
    rw [hlev0]
    exact hvd
  have hP : ∀ t, stateLevel hc0 t ≠ DEFAULT_VOID_LEVEL →
      t ∈ [s] ++ [] ∨
        ∀ c ∈ allChildren h t, stateLevel hc0 c ≠ DEFAULT_VOID_LEVEL := by
    intro t ht
    left
    by_cases hts : t = s
    · rw [hts]
      simp
    · rw [hlevO t hts] at ht
      exact absurd (hvoid' t) ht
  have hvle : voidCount h.dom hc0 ≤ h.dom.length := by
    unfold voidCount
    exact List.length_filter_le _ _
  have hdomlen : h.dom.length = h.states.length := by
    unfold Heap.dom
    exact List.length_map _ _
  have hfuel : voidCount h.dom hc0 + (([s] ++ []) : List Nat).length <
      levelsFuel h := by
    unfold levelsFuel
    have hmul := Nat.mul_le_mul
      (show 1 ≤ heapEdges h + 1 by omega)
      (Nat.le_refl (h.states.length + 1))
    have hmul2 : h.states.length + 1 ≤ (heapEdges h + 1) * (h.states.length + 1) := by
      simpa using hmul
    have hlen1 : (([s] ++ []) : List Nat).length = 1 := rfl
    omega
  rcases bfs_loop h s hcl hnd hsd hsmall (levelsFuel h) hc0 [s] [] 0
    hfuel hS1 hS2
    (fun x hx => by rw [List.mem_singleton.mp hx]; exact hlev0)
    (fun x hx => absurd hx (List.not_mem_nil _))
    (by decide) hB4 hW2 hP with ⟨r1, r2, r3, r4⟩
  have hglobal : (setInitialState h a s).1 =
      (initLevelsAux (levelsFuel h) hc0 ([s] ++ [])).1 := by
    rw [hsi]
    show initLevelsRecursively h s 0 = _
    unfold initLevelsRecursively
    rfl
  have hassigned : ∀ m t', t' ∈ reachSet h s m →
      stateLevel (initLevelsAux (levelsFuel h) hc0 ([s] ++ [])).1 t' ≠
        DEFAULT_VOID_LEVEL := by
    intro m
    induction m with
    | zero =>
      intro t' ht'
      rw [mem_reachSet_zero.mp ht']
      rw [r2 s (by rw [hlev0]; exact hvd), hlev0]
      exact hvd
    | succ m ihm =>
      intro t' ht'
      rcases mem_reachSet_succ.mp ht' with ⟨u, hu, htu⟩
      exact r4 u (ihm u hu) t' htu
  refine ⟨?_, ?_, ?_⟩
  · intro t n htr htmin
    rw [hglobal]
    exact minDist_unique (r3 t (hassigned n t htr)) ⟨htr, htmin⟩
  · intro t hunreach
    rw [hglobal]
    by_contra hne
    exact hunreach _ (r3 t hne).1
  · rw [hsi]

/-- Claim C5 as frozen is false: `setInitialState` does not re-establish the
shortest-distance invariant when some distances are already defined, because
`initLevelsRecursively` only ever assigns states whose level is still
`DEFAULT_VOID_LEVEL` and never lowers a defined one.  Here state `1`  — at
distance 1 from the new initial state `0` — keeps its stale distance `0`
(left over from a previous initial-state assignment to `1`). -/
theorem c5_counterexample :
    1 ∈ reachSet
      (⟨[(0, ⟨"a", false, DEFAULT_VOID_LEVEL, false, [], [("x", [1])], []⟩),
         (1, ⟨"b", false, 0, false, [], [], [("x", [0])]⟩)], 2⟩ : Heap) 0 1 ∧
    1 ∉ reachSet
      (⟨[(0, ⟨"a", false, DEFAULT_VOID_LEVEL, false, [], [("x", [1])], []⟩),
         (1, ⟨"b", false, 0, false, [], [], [("x", [0])]⟩)], 2⟩ : Heap) 0 0 ∧
    stateLevel
      (setInitialState
        ⟨[(0, ⟨"a", false, DEFAULT_VOID_LEVEL, false, [], [("x", [1])], []⟩),
          (1, ⟨"b", false, 0, false, [], [], [("x", [0])]⟩)], 2⟩
        ⟨[0, 1], some 1⟩ 0).1 1 = 0 := by
  decide

theorem c5_setInitialState_shortest_paths_witness :
    childrenClosed
      (⟨[(0, ⟨"a", false, DEFAULT_VOID_LEVEL, false, [], [("x", [1])], []⟩),
         (1, ⟨"b", false, DEFAULT_VOID_LEVEL, false, [], [], [("x", [0])]⟩)],
        2⟩ : Heap) ∧
    ((∀ t n, t ∈ reachSet
        (⟨[(0, ⟨"a", false, DEFAULT_VOID_LEVEL, false, [], [("x", [1])], []⟩),
           (1, ⟨"b", false, DEFAULT_VOID_LEVEL, false, [], [], [("x", [0])]⟩)],
          2⟩ : Heap) 0 n →
      (∀ k < n, t ∉ reachSet
        (⟨[(0, ⟨"a", false, DEFAULT_VOID_LEVEL, false, [], [("x", [1])], []⟩),
           (1, ⟨"b", false, DEFAULT_VOID_LEVEL, false, [], [], [("x", [0])]⟩)],
          2⟩ : Heap) 0 k) →
      stateLevel (setInitialState
        ⟨[(0, ⟨"a", false, DEFAULT_VOID_LEVEL, false, [], [("x", [1])], []⟩),
          (1, ⟨"b", false, DEFAULT_VOID_LEVEL, false, [], [], [("x", [0])]⟩)],
         2⟩ ⟨[0, 1], none⟩ 0).1 t = n) ∧
     (∀ t, (∀ n, t ∉ reachSet
        (⟨[(0, ⟨"a", false, DEFAULT_VOID_LEVEL, false, [], [("x", [1])], []⟩),
           (1, ⟨"b", false, DEFAULT_VOID_LEVEL, false, [], [], [("x", [0])]⟩)],
          2⟩ : Heap) 0 n) →
      stateLevel (setInitialState
        ⟨[(0, ⟨"a", false, DEFAULT_VOID_LEVEL, false, [], [("x", [1])], []⟩),
          (1, ⟨"b", false, DEFAULT_VOID_LEVEL, false, [], [], [("x", [0])]⟩)],
         2⟩ ⟨[0, 1], none⟩ 0).1 t = DEFAULT_VOID_LEVEL) ∧
     (setInitialState
        ⟨[(0, ⟨"a", false, DEFAULT_VOID_LEVEL, false, [], [("x", [1])], []⟩),
          (1, ⟨"b", false, DEFAULT_VOID_LEVEL, false, [], [], [("x", [0])]⟩)],
         2⟩ ⟨[0, 1], none⟩ 0).2.initial = some 0) :=
  ⟨by decide,
   c5_setInitialState_shortest_paths
     ⟨[(0, ⟨"a", false, DEFAULT_VOID_LEVEL, false, [], [("x", [1])], []⟩),
       (1, ⟨"b", false, DEFAULT_VOID_LEVEL, false, [], [], [("x", [0])]⟩)], 2⟩
     ⟨[0, 1], none⟩ 0 (by decide) (by decide) (by decide) (by decide)
     (by decide) (by decide)⟩

/-! ## Claim C1 -/

/-- Claim C1: for every input NFA, the automata returned by
`QuickSubsetConstruction::run` and `SubsetConstruction::run` are structurally
equivalent (same number of states, name-preserving bijection preserving
transitions and finality).  Refuted on a concrete input: on the two-state NFA
`c1Nfa` over `c1Heap` — initial state `"p"` at distance 0 with no
transitions, state `"q"` unreachable — SC's worklist only ever constructs
reachable subset states and returns a one-state DFA, while QSC's cloning
phase copies every NFA state, produces no singularity, and its
restructuring phase never removes the unreachable clone, returning a
two-state DFA.  The outputs' member name lists are `["\x7bp\x7d"]` and
`["\x7bp\x7d", "\x7bq\x7d"]`: no name-preserving bijection can exist, and
even the state counts differ. -/
theorem c1_qsc_sc_structural_divergence :
    ((scRun c1Heap c1Nfa 10).2.members.map
        (fun i => stateName (scRun c1Heap c1Nfa 10).1 i) = ["\x7bp\x7d"]) ∧
    ((qscRun c1Heap c1Nfa 10).2.members.map
        (fun i => stateName (qscRun c1Heap c1Nfa 10).1 i)
      = ["\x7bp\x7d", "\x7bq\x7d"]) ∧
    (scRun c1Heap c1Nfa 10).2.members.length ≠
      (qscRun c1Heap c1Nfa 10).2.members.length := by
  refine ⟨by decide, by decide, by decide⟩

end QSC
